/-
Verification of the monoio-thrift codec: a shallow embedding of the
Thrift Binary protocol reader/writer (src/binary.rs), the TTHeader
framing codec (src/codec/ttheader.rs) and the simple framed codec
(src/codec/framed.rs), with theorems settling the specification claims.

Bytes are modelled as `UInt8`; buffers as `List UInt8`.  Machine-integer
wire values (i32, u16, ...) are carried as their unsigned bit patterns
(`Nat` below the relevant power of two) and reinterpreted explicitly
where the source casts them.
-/
import Mathlib

set_option maxRecDepth 20000
set_option maxHeartbeats 1000000

abbrev Byte := UInt8

/-! ## Byte-level helpers -/

def byteAt (buf : List Byte) (pos : Nat) : Byte := buf.getD pos 0

def beU16v (hi lo : Byte) : Nat := hi.toNat * 256 + lo.toNat

def beU16at (buf : List Byte) (pos : Nat) : Nat :=
  beU16v (byteAt buf pos) (byteAt buf (pos + 1))

def beU32at (buf : List Byte) (pos : Nat) : Nat :=
  beU16at buf pos * 65536 + beU16at buf (pos + 2)

def beU64at (buf : List Byte) (pos : Nat) : Nat :=
  beU32at buf pos * 4294967296 + beU32at buf (pos + 4)

/-- Reinterpret a 32-bit pattern as a signed value (two's complement). -/
def asI32 (n : Nat) : Int :=
  if n < 2147483648 then (n : Int) else (n : Int) - 4294967296

/-- `i32 as usize` on a 64-bit target: sign extension of the 32-bit pattern. -/
def i32AsUsize (n : Nat) : Nat :=
  if n < 2147483648 then n else n + 18446744069414584320

/-- Reinterpret a 16-bit pattern as a signed value. -/
def asI16 (n : Nat) : Int :=
  if n < 32768 then (n : Int) else (n : Int) - 65536

def u8ofNat (n : Nat) : Byte := UInt8.ofNat n

/-- Big-endian bytes of a 16-bit pattern (`u16::to_be_bytes`). -/
def be16 (n : Nat) : List Byte := [u8ofNat (n / 256), u8ofNat n]

/-- Big-endian bytes of a 32-bit pattern (`u32::to_be_bytes`). -/
def be32 (n : Nat) : List Byte :=
  [u8ofNat (n / 16777216), u8ofNat (n / 65536), u8ofNat (n / 256), u8ofNat n]

/-- Big-endian bytes of a 64-bit pattern. -/
def be64 (n : Nat) : List Byte := be32 (n / 4294967296) ++ be32 n

/-- Big-endian bytes of an `i32` value (`i32::to_be_bytes`). -/
def be32i (i : Int) : List Byte := be32 (i % 4294967296).toNat

/-- Overwrite the bytes of `l` at `[pos, pos + patch.length)` with `patch`
(the effect of `buf[pos..pos+k].copy_from_slice(patch)`). -/
def overwriteAt (l : List Byte) (pos : Nat) (patch : List Byte) : List Byte :=
  l.take pos ++ patch ++ l.drop (pos + patch.length)

/-! ## Type model (src/thrift.rs) -/

inductive TType where
  | Stop | Void | Bool | I8 | Double | I16 | I32 | I64
  | Binary | Struct | Map | Set | List | Uuid
deriving DecidableEq, Repr

/-- `impl From<TType> for u8`. -/
def TType.toByte : TType → Byte
  | .Stop => 0 | .Void => 1 | .Bool => 2 | .I8 => 3 | .Double => 4
  | .I16 => 6 | .I32 => 8 | .I64 => 10 | .Binary => 11 | .Struct => 12
  | .Map => 13 | .Set => 14 | .List => 15 | .Uuid => 16

/-- `impl TryFrom<u8> for TType` (success cases; `none` is the error case). -/
def TType.fromByte (b : Byte) : Option TType :=
  match b.toNat with
  | 0 => some .Stop | 1 => some .Void | 2 => some .Bool | 3 => some .I8
  | 4 => some .Double | 6 => some .I16 | 8 => some .I32 | 10 => some .I64
  | 11 => some .Binary | 12 => some .Struct | 13 => some .Map
  | 14 => some .Set | 15 => some .List | 16 => some .Uuid
  | _ => none

inductive TMessageType where
  | Call | Reply | Exception | OneWay
deriving DecidableEq, Repr

/-- `impl TryFrom<u8> for TMessageType` on the low-nibble value. -/
def TMessageType.fromNat (n : Nat) : Option TMessageType :=
  match n with
  | 1 => some .Call | 2 => some .Reply | 3 => some .Exception
  | 4 => some .OneWay | _ => none

/-! ## Error model (src/error.rs) -/

inductive IoKind where
  | invalidData | other | unexpectedEof
deriving DecidableEq, Repr

inductive CodecErrorKind where
  | invalidData | negativeSize | badVersion | notImplemented
  | depthLimit | unknownMethod | ioError (k : IoKind)
deriving DecidableEq, Repr

structure CodecError where
  kind : CodecErrorKind
  msg : String
deriving DecidableEq, Repr

/-- `CodecError::invalid_data()`. -/
def CodecError.invalidData : CodecError := ⟨.invalidData, "invalid data"⟩

/-- The error produced by a `byteorder`/`Read` primitive hitting the end of
a `Cursor`, converted through `From<std::io::Error> for CodecError`. -/
def eofError : CodecError := ⟨.ioError .unexpectedEof, ""⟩

def invalidTtypeError (b : Byte) : CodecError :=
  ⟨.invalidData, "invalid ttype " ++ toString b.toNat⟩

/-! ## Synchronous Binary reader (TInputProtocol for Cursor<&[u8]>)

Each operation takes the buffer and current cursor position and returns
the parsed value together with the new position. -/

def read_byte (buf : List Byte) (pos : Nat) : Except CodecError (Byte × Nat) :=
  if pos + 1 ≤ buf.length then .ok (byteAt buf pos, pos + 1) else .error eofError

def read_i8 (buf : List Byte) (pos : Nat) : Except CodecError (Byte × Nat) :=
  read_byte buf pos

def read_bool (buf : List Byte) (pos : Nat) : Except CodecError (Bool × Nat) :=
  match read_i8 buf pos with
  | .error e => .error e
  | .ok (b, p) => .ok (decide (b ≠ 0), p)

def read_i16 (buf : List Byte) (pos : Nat) : Except CodecError (Nat × Nat) :=
  if pos + 2 ≤ buf.length then .ok (beU16at buf pos, pos + 2) else .error eofError

def read_i32 (buf : List Byte) (pos : Nat) : Except CodecError (Nat × Nat) :=
  if pos + 4 ≤ buf.length then .ok (beU32at buf pos, pos + 4) else .error eofError

def read_i64 (buf : List Byte) (pos : Nat) : Except CodecError (Nat × Nat) :=
  if pos + 8 ≤ buf.length then .ok (beU64at buf pos, pos + 8) else .error eofError

/-- `read_double`: the 8 wire bytes are returned as the IEEE-754 bit
pattern (floating point is not reinterpreted in the model). -/
def read_double (buf : List Byte) (pos : Nat) : Except CodecError (Nat × Nat) :=
  read_i64 buf pos

def read_uuid (buf : List Byte) (pos : Nat) : Except CodecError (List Byte × Nat) :=
  if pos + 16 ≤ buf.length then .ok ((buf.drop pos).take 16, pos + 16)
  else .error eofError

def read_bytes (buf : List Byte) (pos : Nat) : Except CodecError (List Byte × Nat) :=
  match read_i32 buf pos with
  | .error e => .error e
  | .ok (n, pos1) =>
    let len := i32AsUsize n
    if pos1 + len > buf.length then
      .error ⟨.invalidData, "invalid bytes length " ++ toString len⟩
    else .ok ((buf.drop pos1).take len, pos1 + len)

/-- Whole-input UTF-8 validity, as decided by `utf8_chunks().next().valid()`
covering all of the input (standard UTF-8: no overlongs, no surrogates,
max U+10FFFF). -/
def validUtf8 : List Byte → Bool
  | [] => true
  | b :: rest =>
    let n := b.toNat
    if n < 0x80 then validUtf8 rest
    else if n < 0xC2 then false
    else if n < 0xE0 then
      match rest with
      | c :: r => 0x80 ≤ c.toNat && c.toNat < 0xC0 && validUtf8 r
      | _ => false
    else if n < 0xF0 then
      match rest with
      | c :: d :: r =>
        (if n = 0xE0 then 0xA0 ≤ c.toNat && c.toNat < 0xC0
         else if n = 0xED then 0x80 ≤ c.toNat && c.toNat < 0xA0
         else 0x80 ≤ c.toNat && c.toNat < 0xC0) &&
        (0x80 ≤ d.toNat && d.toNat < 0xC0) && validUtf8 r
      | _ => false
    else if n < 0xF5 then
      match rest with
      | c :: d :: e :: r =>
        (if n = 0xF0 then 0x90 ≤ c.toNat && c.toNat < 0xC0
         else if n = 0xF4 then 0x80 ≤ c.toNat && c.toNat < 0x90
         else 0x80 ≤ c.toNat && c.toNat < 0xC0) &&
        (0x80 ≤ d.toNat && d.toNat < 0xC0) &&
        (0x80 ≤ e.toNat && e.toNat < 0xC0) && validUtf8 r
      | _ => false
    else false

/-- `read_string`; the returned string is modelled by its bytes. -/
def read_string (buf : List Byte) (pos : Nat) : Except CodecError (List Byte × Nat) :=
  match read_bytes buf pos with
  | .error e => .error e
  | .ok (data, p) =>
    if data.isEmpty then .ok ([], p)
    else if validUtf8 data then .ok (data, p)
    else .error ⟨.invalidData, "not a valid utf8 string"⟩

/-- `read_field_begin`: returns the field type and the 16-bit id pattern. -/
def read_field_begin (buf : List Byte) (pos : Nat) :
    Except CodecError ((TType × Nat) × Nat) :=
  match read_byte buf pos with
  | .error e => .error e
  | .ok (b, pos1) =>
    match TType.fromByte b with
    | none => .error (invalidTtypeError b)
    | some t =>
      match t with
      | .Stop => .ok ((.Stop, 0), pos1)
      | _ =>
        match read_i16 buf pos1 with
        | .error e => .error e
        | .ok (id, pos2) => .ok ((t, id), pos2)

/-- `read_list_begin`: element type and `size as usize`. -/
def read_list_begin (buf : List Byte) (pos : Nat) :
    Except CodecError ((TType × Nat) × Nat) :=
  match read_byte buf pos with
  | .error e => .error e
  | .ok (b, pos1) =>
    match TType.fromByte b with
    | none => .error (invalidTtypeError b)
    | some t =>
      match read_i32 buf pos1 with
      | .error e => .error e
      | .ok (n, pos2) => .ok ((t, i32AsUsize n), pos2)

def read_set_begin (buf : List Byte) (pos : Nat) :
    Except CodecError ((TType × Nat) × Nat) :=
  read_list_begin buf pos

/-- `read_map_begin`: key type, value type and `size as usize`. -/
def read_map_begin (buf : List Byte) (pos : Nat) :
    Except CodecError ((TType × TType × Nat) × Nat) :=
  match read_byte buf pos with
  | .error e => .error e
  | .ok (kb, pos1) =>
    match TType.fromByte kb with
    | none => .error (invalidTtypeError kb)
    | some kt =>
      match read_byte buf pos1 with
      | .error e => .error e
      | .ok (vb, pos2) =>
        match TType.fromByte vb with
        | none => .error (invalidTtypeError vb)
        | some vt =>
          match read_i32 buf pos2 with
          | .error e => .error e
          | .ok (n, pos3) => .ok ((kt, vt, i32AsUsize n), pos3)

/-- The result of `read_message_begin`: message name bytes, kind, and the
32-bit sequence-number pattern. -/
structure MsgIdent where
  name : List Byte
  mtype : TMessageType
  seq : Nat
deriving DecidableEq, Repr

def read_message_begin (buf : List Byte) (pos : Nat) :
    Except CodecError (MsgIdent × Nat) :=
  match read_i32 buf pos with
  | .error e => .error e
  | .ok (size, pos1) =>
    if asI32 size > 0 then
      .error ⟨.badVersion, "Missing version in ReadMessageBegin"⟩
    else
      match TMessageType.fromNat (size % 16) with
      | none => .error ⟨.invalidData, "invalid message type " ++ toString (size % 16)⟩
      | some mt =>
        if size / 65536 ≠ 32769 then
          .error ⟨.badVersion, "Bad version in ReadMessageBegin"⟩
        else
          match read_string buf pos1 with
          | .error e => .error e
          | .ok (name, pos2) =>
            match read_i32 buf pos2 with
            | .error e => .error e
            | .ok (seq, pos3) => .ok (⟨name, mt, seq⟩, pos3)

/-! ## The iterative skip engine (skip_field, src/binary.rs:347-518)

The loop is modelled as a fuel-indexed small-step executor: each
`skip_loop` call performs one iteration of the Rust `loop`.  `none`
means the fuel ran out (the theorems below quantify over fuel and use a
monotonicity lemma, so no concrete bound is baked into statements). -/

inductive SkipData where
  | collection (len : Nat) (t0 t1 : TType)
  | other (t : TType)
deriving DecidableEq, Repr

/-- `BINARY_BASIC_TYPE_FIXED_SIZE` indexed by the type tag. -/
def fixedTypeSize : TType → Nat
  | .Bool => 1 | .I8 => 1 | .Double => 8 | .I16 => 2
  | .I32 => 4 | .I64 => 8 | .Uuid => 16
  | _ => 0

def skip_loop (buf : List Byte) (fuel pos : Nat) (current : SkipData)
    (stack : List SkipData) : Option (Except CodecError Nat) :=
  match fuel with
  | 0 => none
  | fuel + 1 =>
    match current with
    | .other .Struct =>
      if buf.length - pos < 1 then some (.error CodecError.invalidData)
      else
        match TType.fromByte (byteAt buf pos) with
        | none => some (.error (invalidTtypeError (byteAt buf pos)))
        | some ft =>
          if fixedTypeSize ft ≠ 0 then
            if buf.length - (pos + 1) < 2 + fixedTypeSize ft then
              some (.error CodecError.invalidData)
            else
              skip_loop buf fuel (pos + 1 + (2 + fixedTypeSize ft))
                (.other .Struct) stack
          else
            match ft with
            | .Stop =>
              match stack with
              | [] => some (.ok (pos + 1))
              | f :: s => skip_loop buf fuel (pos + 1) f s
            | _ =>
              if buf.length - (pos + 1) < 2 then
                some (.error CodecError.invalidData)
              else
                skip_loop buf fuel (pos + 1 + 2) (.other ft)
                  (.other .Struct :: stack)
    | .other .Bool =>
      if buf.length - pos < 1 then some (.error CodecError.invalidData)
      else
        match stack with
        | [] => some (.ok (pos + 1))
        | f :: s => skip_loop buf fuel (pos + 1) f s
    | .other .I8 =>
      if buf.length - pos < 1 then some (.error CodecError.invalidData)
      else
        match stack with
        | [] => some (.ok (pos + 1))
        | f :: s => skip_loop buf fuel (pos + 1) f s
    | .other .Double =>
      if buf.length - pos < 8 then some (.error CodecError.invalidData)
      else
        match stack with
        | [] => some (.ok (pos + 8))
        | f :: s => skip_loop buf fuel (pos + 8) f s
    | .other .I64 =>
      if buf.length - pos < 8 then some (.error CodecError.invalidData)
      else
        match stack with
        | [] => some (.ok (pos + 8))
        | f :: s => skip_loop buf fuel (pos + 8) f s
    | .other .I16 =>
      if buf.length - pos < 2 then some (.error CodecError.invalidData)
      else
        match stack with
        | [] => some (.ok (pos + 2))
        | f :: s => skip_loop buf fuel (pos + 2) f s
    | .other .I32 =>
      if buf.length - pos < 4 then some (.error CodecError.invalidData)
      else
        match stack with
        | [] => some (.ok (pos + 4))
        | f :: s => skip_loop buf fuel (pos + 4) f s
    | .other .Binary =>
      if buf.length - pos < 4 then some (.error CodecError.invalidData)
      else
        if buf.length - (pos + 4) < i32AsUsize (beU32at buf pos) then
          some (.error CodecError.invalidData)
        else
          match stack with
          | [] => some (.ok (pos + 4 + i32AsUsize (beU32at buf pos)))
          | f :: s => skip_loop buf fuel (pos + 4 + i32AsUsize (beU32at buf pos)) f s
    | .other .Uuid =>
      if buf.length - pos < 16 then some (.error CodecError.invalidData)
      else
        match stack with
        | [] => some (.ok (pos + 16))
        | f :: s => skip_loop buf fuel (pos + 16) f s
    | .other .List =>
      if buf.length - pos < 5 then some (.error CodecError.invalidData)
      else
        match TType.fromByte (byteAt buf pos) with
        | none => some (.error (invalidTtypeError (byteAt buf pos)))
        | some et =>
          if fixedTypeSize et ≠ 0 then
            if buf.length - (pos + 5) < beU32at buf (pos + 1) * fixedTypeSize et then
              some (.error CodecError.invalidData)
            else
              match stack with
              | [] => some (.ok (pos + 5 + beU32at buf (pos + 1) * fixedTypeSize et))
              | f :: s =>
                skip_loop buf fuel
                  (pos + 5 + beU32at buf (pos + 1) * fixedTypeSize et) f s
          else
            skip_loop buf fuel (pos + 5)
              (.collection (beU32at buf (pos + 1)) et et) stack
    | .other .Set =>
      if buf.length - pos < 5 then some (.error CodecError.invalidData)
      else
        match TType.fromByte (byteAt buf pos) with
        | none => some (.error (invalidTtypeError (byteAt buf pos)))
        | some et =>
          if fixedTypeSize et ≠ 0 then
            if buf.length - (pos + 5) < beU32at buf (pos + 1) * fixedTypeSize et then
              some (.error CodecError.invalidData)
            else
              match stack with
              | [] => some (.ok (pos + 5 + beU32at buf (pos + 1) * fixedTypeSize et))
              | f :: s =>
                skip_loop buf fuel
                  (pos + 5 + beU32at buf (pos + 1) * fixedTypeSize et) f s
          else
            skip_loop buf fuel (pos + 5)
              (.collection (beU32at buf (pos + 1)) et et) stack
    | .other .Map =>
      if buf.length - pos < 6 then some (.error CodecError.invalidData)
      else
        match TType.fromByte (byteAt buf pos) with
        | none => some (.error (invalidTtypeError (byteAt buf pos)))
        | some kt =>
          match TType.fromByte (byteAt buf (pos + 1)) with
          | none => some (.error (invalidTtypeError (byteAt buf (pos + 1))))
          | some vt =>
            if fixedTypeSize kt ≠ 0 ∧ fixedTypeSize vt ≠ 0 then
              if buf.length - (pos + 6) <
                  beU32at buf (pos + 2) * (fixedTypeSize kt + fixedTypeSize vt) then
                some (.error CodecError.invalidData)
              else
                match stack with
                | [] =>
                  some (.ok (pos + 6 +
                    beU32at buf (pos + 2) * (fixedTypeSize kt + fixedTypeSize vt)))
                | f :: s =>
                  skip_loop buf fuel
                    (pos + 6 +
                      beU32at buf (pos + 2) * (fixedTypeSize kt + fixedTypeSize vt)) f s
            else
              skip_loop buf fuel (pos + 6)
                (.collection (beU32at buf (pos + 2) * 2 % 4294967296) kt vt) stack
    | .other t =>
      some (.error ⟨.invalidData,
        "invalid ttype " ++ toString t.toByte.toNat ++ ", normal type is expected"⟩)
    | .collection len t0 t1 =>
      if len = 0 then
        match stack with
        | [] => some (.ok pos)
        | f :: s => skip_loop buf fuel pos f s
      else
        skip_loop buf fuel pos (.other (if len % 2 = 0 then t0 else t1))
          (.collection (len - 1) t0 t1 :: stack)

/-- The `current = pop!(stack)` step: finish if the work stack is empty,
otherwise continue the loop with the popped frame.  Each pop site inside
`skip_loop` is definitionally an application of this function. -/
def skip_pop (buf : List Byte) (fuel pos : Nat) (stack : List SkipData) :
    Option (Except CodecError Nat) :=
  match stack with
  | [] => some (.ok pos)
  | f :: s => skip_loop buf fuel pos f s

/-- `skip_field(ttype)` starting from cursor position `pos`. -/
def skip_field (buf : List Byte) (pos : Nat) (ttype : TType) (fuel : Nat) :
    Option (Except CodecError Nat) :=
  skip_loop buf fuel pos (.other ttype) []

/-! ## The reader walk

`read_value t` consumes one value of type `t` by composing the matching
`read_*` operations and discarding the results (the driver loop itself is
not in the repository -- it lives in generated code -- so the glue here
follows the spec's decode walk; every byte consumed goes through the
`read_*` operations modelled above).  Fuel-indexed like the skip engine. -/

mutual

def read_value (buf : List Byte) (fuel pos : Nat) (t : TType) :
    Option (Except CodecError Nat) :=
  match fuel with
  | 0 => none
  | fuel + 1 =>
    match t with
    | .Bool =>
      match read_bool buf pos with
      | .error e => some (.error e) | .ok (_, p) => some (.ok p)
    | .I8 =>
      match read_i8 buf pos with
      | .error e => some (.error e) | .ok (_, p) => some (.ok p)
    | .I16 =>
      match read_i16 buf pos with
      | .error e => some (.error e) | .ok (_, p) => some (.ok p)
    | .I32 =>
      match read_i32 buf pos with
      | .error e => some (.error e) | .ok (_, p) => some (.ok p)
    | .I64 =>
      match read_i64 buf pos with
      | .error e => some (.error e) | .ok (_, p) => some (.ok p)
    | .Double =>
      match read_double buf pos with
      | .error e => some (.error e) | .ok (_, p) => some (.ok p)
    | .Uuid =>
      match read_uuid buf pos with
      | .error e => some (.error e) | .ok (_, p) => some (.ok p)
    | .Binary =>
      match read_bytes buf pos with
      | .error e => some (.error e) | .ok (_, p) => some (.ok p)
    | .Struct =>
      match read_field_begin buf pos with
      | .error e => some (.error e)
      | .ok ((ft, _), p) =>
        if ft = .Stop then some (.ok p)
        else
          match read_value buf fuel p ft with
          | none => none
          | some (.error e) => some (.error e)
          | some (.ok p2) => read_value buf fuel p2 .Struct
    | .List =>
      match read_list_begin buf pos with
      | .error e => some (.error e)
      | .ok ((et, n), p) => read_coll buf fuel n et et p
    | .Set =>
      match read_set_begin buf pos with
      | .error e => some (.error e)
      | .ok ((et, n), p) => read_coll buf fuel n et et p
    | .Map =>
      match read_map_begin buf pos with
      | .error e => some (.error e)
      | .ok ((kt, vt, n), p) => read_coll buf fuel (2 * n) kt vt p
    | .Stop => some (.error ⟨.invalidData, "cannot read a value of type Stop"⟩)
    | .Void => some (.error ⟨.invalidData, "cannot read a value of type Void"⟩)
termination_by structural fuel

/-- Read `m` remaining collection elements; the parity of the remaining
count selects the element type exactly as the skip engine's `Collection`
frame does (even -> `t0`, odd -> `t1`), so a map with `n` entries is read
as `read_coll (2*n) key_type val_type`. -/
def read_coll (buf : List Byte) (fuel m : Nat) (t0 t1 : TType) (pos : Nat) :
    Option (Except CodecError Nat) :=
  match fuel with
  | 0 => none
  | fuel + 1 =>
    match m with
    | 0 => some (.ok pos)
    | m + 1 =>
      match read_value buf fuel pos (if (m + 1) % 2 = 0 then t0 else t1) with
      | none => none
      | some (.error e) => some (.error e)
      | some (.ok p) => read_coll buf fuel m t0 t1 p
termination_by structural fuel

end

/-! ## Thrift values and the writer-image encoding (TOutputProtocol)

`encodeVal` is the byte sequence the synchronous Binary writer emits for
a value (container counts as patched by the balanced `*_end` calls). -/

mutual
inductive TVal where
  | vBool (b : Bool)
  | vI8 (n : Byte)
  | vI16 (n : Nat)
  | vI32 (n : Nat)
  | vI64 (n : Nat)
  | vDouble (bits : Nat)
  | vUuid (bs : List Byte)
  | vBinary (bs : List Byte)
  | vStruct (fields : TFields)
  | vList (t : TType) (es : TVals)
  | vSet (t : TType) (es : TVals)
  | vMap (kt vt : TType) (ps : TPairs)
deriving Repr

inductive TVals where
  | nil
  | cons (v : TVal) (rest : TVals)
deriving Repr

inductive TFields where
  | nil
  | cons (id : Nat) (v : TVal) (rest : TFields)
deriving Repr

inductive TPairs where
  | nil
  | cons (k v : TVal) (rest : TPairs)
deriving Repr
end

def TVal.ttype : TVal → TType
  | .vBool _ => .Bool
  | .vI8 _ => .I8
  | .vI16 _ => .I16
  | .vI32 _ => .I32
  | .vI64 _ => .I64
  | .vDouble _ => .Double
  | .vUuid _ => .Uuid
  | .vBinary _ => .Binary
  | .vStruct _ => .Struct
  | .vList _ _ => .List
  | .vSet _ _ => .Set
  | .vMap _ _ _ => .Map

def TVals.len : TVals → Nat
  | .nil => 0
  | .cons _ r => r.len + 1

def TPairs.len : TPairs → Nat
  | .nil => 0
  | .cons _ _ r => r.len + 1

mutual

def encodeVal : TVal → List Byte
  | .vBool b => [if b then 1 else 0]
  | .vI8 n => [n]
  | .vI16 n => be16 n
  | .vI32 n => be32 n
  | .vI64 n => be64 n
  | .vDouble bits => be64 bits
  | .vUuid bs => bs
  | .vBinary bs => be32 bs.length ++ bs
  | .vStruct fs => encodeFields fs ++ [0]
  | .vList t es => t.toByte :: (be32 es.len ++ encodeVals es)
  | .vSet t es => t.toByte :: (be32 es.len ++ encodeVals es)
  | .vMap kt vt ps => kt.toByte :: vt.toByte :: (be32 ps.len ++ encodePairs ps)

def encodeVals : TVals → List Byte
  | .nil => []
  | .cons v r => encodeVal v ++ encodeVals r

def encodeFields : TFields → List Byte
  | .nil => []
  | .cons id v r => v.ttype.toByte :: (be16 id ++ encodeVal v ++ encodeFields r)

def encodePairs : TPairs → List Byte
  | .nil => []
  | .cons k v r => encodeVal k ++ encodeVal v ++ encodePairs r

end

mutual

def wfVal : TVal → Bool
  | .vBool _ => true
  | .vI8 _ => true
  | .vI16 n => decide (n < 65536)
  | .vI32 n => decide (n < 4294967296)
  | .vI64 n => decide (n < 18446744073709551616)
  | .vDouble bits => decide (bits < 18446744073709551616)
  | .vUuid bs => decide (bs.length = 16)
  | .vBinary bs => decide (bs.length < 2147483648)
  | .vStruct fs => wfFields fs
  | .vList t es => decide (es.len < 2147483648) && wfVals t es
  | .vSet t es => decide (es.len < 2147483648) && wfVals t es
  | .vMap kt vt ps => decide (ps.len < 2147483648) && wfPairs kt vt ps

def wfVals : TType → TVals → Bool
  | _, .nil => true
  | t, .cons v r => decide (v.ttype = t) && wfVal v && wfVals t r

def wfFields : TFields → Bool
  | .nil => true
  | .cons id v r => decide (id < 65536) && wfVal v && wfFields r

def wfPairs : TType → TType → TPairs → Bool
  | _, _, .nil => true
  | kt, vt, .cons k v r =>
    decide (k.ttype = kt) && decide (v.ttype = vt) && wfVal k && wfVal v &&
    wfPairs kt vt r

end

/-! ## Asynchronous Binary reader (TAsyncInputProtocol for TBinaryProtocol<T, BytesMut>)

The byte source is modelled as the list of chunks that successive
`io.read` calls deliver (a partition of the remaining stream); a read
when no chunk is left, or an empty chunk, is the `n == 0` end-of-input
case of `read_more_at_least`. -/

structure AsyncState where
  buffered : List Byte
  chunks : List (List Byte)
deriving DecidableEq, Repr

/-- `read_more_at_least`: pull chunks until at least `at_least` bytes are
buffered in total. -/
def read_more (buffered : List Byte) (chunks : List (List Byte))
    (at_least : Nat) : Except CodecError (List Byte × List (List Byte)) :=
  if at_least ≤ buffered.length then .ok (buffered, chunks)
  else
    match chunks with
    | [] => .error eofError
    | c :: rest =>
      if c.length = 0 then .error eofError
      else read_more (buffered ++ c) rest at_least

/-- `fill_at_least(n)` for the `BytesMut` attachment. -/
def fill_at_least (st : AsyncState) (n : Nat) : Except CodecError AsyncState :=
  if n ≤ st.buffered.length then .ok st
  else
    match read_more st.buffered st.chunks n with
    | .error e => .error e
    | .ok (b, cs) => .ok ⟨b, cs⟩

def a_read_byte (st : AsyncState) : Except CodecError (Byte × AsyncState) :=
  match fill_at_least st 1 with
  | .error e => .error e
  | .ok st1 => .ok (byteAt st1.buffered 0, ⟨st1.buffered.drop 1, st1.chunks⟩)

def a_read_i8 (st : AsyncState) : Except CodecError (Byte × AsyncState) :=
  a_read_byte st

def a_read_bool (st : AsyncState) : Except CodecError (Bool × AsyncState) :=
  match a_read_i8 st with
  | .error e => .error e
  | .ok (b, st1) => .ok (decide (b ≠ 0), st1)

def a_read_i16 (st : AsyncState) : Except CodecError (Nat × AsyncState) :=
  match fill_at_least st 2 with
  | .error e => .error e
  | .ok st1 => .ok (beU16at st1.buffered 0, ⟨st1.buffered.drop 2, st1.chunks⟩)

def a_read_i32 (st : AsyncState) : Except CodecError (Nat × AsyncState) :=
  match fill_at_least st 4 with
  | .error e => .error e
  | .ok st1 => .ok (beU32at st1.buffered 0, ⟨st1.buffered.drop 4, st1.chunks⟩)

def a_read_i64 (st : AsyncState) : Except CodecError (Nat × AsyncState) :=
  match fill_at_least st 8 with
  | .error e => .error e
  | .ok st1 => .ok (beU64at st1.buffered 0, ⟨st1.buffered.drop 8, st1.chunks⟩)

def a_read_double (st : AsyncState) : Except CodecError (Nat × AsyncState) :=
  match fill_at_least st 8 with
  | .error e => .error e
  | .ok st1 => .ok (beU64at st1.buffered 0, ⟨st1.buffered.drop 8, st1.chunks⟩)

def a_read_uuid (st : AsyncState) : Except CodecError (List Byte × AsyncState) :=
  match fill_at_least st 16 with
  | .error e => .error e
  | .ok st1 => .ok (st1.buffered.take 16, ⟨st1.buffered.drop 16, st1.chunks⟩)

def a_read_bytes (st : AsyncState) : Except CodecError (List Byte × AsyncState) :=
  match a_read_i32 st with
  | .error e => .error e
  | .ok (n, st1) =>
    let length := i32AsUsize n
    match fill_at_least st1 length with
    | .error e => .error e
    | .ok st2 => .ok (st2.buffered.take length, ⟨st2.buffered.drop length, st2.chunks⟩)

def a_read_string (st : AsyncState) : Except CodecError (List Byte × AsyncState) :=
  match a_read_bytes st with
  | .error e => .error e
  | .ok (data, st1) =>
    if data.isEmpty then .ok (data, st1)
    else if validUtf8 data then .ok (data, st1)
    else .error ⟨.invalidData, "not a valid utf8 string"⟩

def a_read_field_begin (st : AsyncState) :
    Except CodecError ((TType × Nat) × AsyncState) :=
  match a_read_byte st with
  | .error e => .error e
  | .ok (b, st1) =>
    match TType.fromByte b with
    | none => .error (invalidTtypeError b)
    | some t =>
      match t with
      | .Stop => .ok ((.Stop, 0), st1)
      | _ =>
        match a_read_i16 st1 with
        | .error e => .error e
        | .ok (id, st2) => .ok ((t, id), st2)

def a_read_list_begin (st : AsyncState) :
    Except CodecError ((TType × Nat) × AsyncState) :=
  match a_read_byte st with
  | .error e => .error e
  | .ok (b, st1) =>
    match TType.fromByte b with
    | none => .error (invalidTtypeError b)
    | some t =>
      match a_read_i32 st1 with
      | .error e => .error e
      | .ok (n, st2) => .ok ((t, i32AsUsize n), st2)

def a_read_set_begin (st : AsyncState) :
    Except CodecError ((TType × Nat) × AsyncState) :=
  a_read_list_begin st

def a_read_map_begin (st : AsyncState) :
    Except CodecError ((TType × TType × Nat) × AsyncState) :=
  match a_read_byte st with
  | .error e => .error e
  | .ok (kb, st1) =>
    match TType.fromByte kb with
    | none => .error (invalidTtypeError kb)
    | some kt =>
      match a_read_byte st1 with
      | .error e => .error e
      | .ok (vb, st2) =>
        match TType.fromByte vb with
        | none => .error (invalidTtypeError vb)
        | some vt =>
          match a_read_i32 st2 with
          | .error e => .error e
          | .ok (n, st3) => .ok ((kt, vt, i32AsUsize n), st3)

def a_read_message_begin (st : AsyncState) :
    Except CodecError (MsgIdent × AsyncState) :=
  match a_read_i32 st with
  | .error e => .error e
  | .ok (size, st1) =>
    if asI32 size > 0 then
      .error ⟨.badVersion, "Missing version in ReadMessageBegin"⟩
    else
      match TMessageType.fromNat (size % 16) with
      | none => .error ⟨.invalidData, "invalid message type " ++ toString (size % 16)⟩
      | some mt =>
        if size / 65536 ≠ 32769 then
          .error ⟨.badVersion, "Bad version in ReadMessageBegin"⟩
        else
          match a_read_string st1 with
          | .error e => .error e
          | .ok (name, st2) =>
            match a_read_i32 st2 with
            | .error e => .error e
            | .ok (seq, st3) => .ok (⟨name, mt, seq⟩, st3)

/-! ## Asynchronous skipper (TAsyncSkipProtocol for TBinaryProtocol<T, Cursor<BytesMut>>)

The attachment is a cursor over a growing buffer: position `pos` over
`buf`, refilled by appending chunks. -/

structure SkipperState where
  buf : List Byte
  pos : Nat
  chunks : List (List Byte)
deriving DecidableEq, Repr

/-- The async skip engine's `require_data!`: ensure `n` readable bytes,
refilling from the byte source if needed. -/
def s_require (st : SkipperState) (n : Nat) : Except CodecError SkipperState :=
  if st.buf.length - st.pos < n then
    match read_more st.buf st.chunks (st.pos + n) with
    | .error e => .error e
    | .ok (b, cs) => .ok ⟨b, st.pos, cs⟩
  else .ok st

def a_skip_loop (fuel : Nat) (st : SkipperState) (current : SkipData)
    (stack : List SkipData) : Option (Except CodecError SkipperState) :=
  match fuel with
  | 0 => none
  | fuel + 1 =>
    match current with
    | .other .Struct =>
      match s_require st 1 with
      | .error e => some (.error e)
      | .ok st =>
        let b := byteAt st.buf st.pos
        match TType.fromByte b with
        | none => some (.error (invalidTtypeError b))
        | some ft =>
          let st := ⟨st.buf, st.pos + 1, st.chunks⟩
          let size := fixedTypeSize ft
          if size ≠ 0 then
            match s_require st (2 + size) with
            | .error e => some (.error e)
            | .ok st =>
              a_skip_loop fuel ⟨st.buf, st.pos + (2 + size), st.chunks⟩
                (.other .Struct) stack
          else
            match ft with
            | .Stop =>
              match stack with
              | [] => some (.ok st)
              | f :: s => a_skip_loop fuel st f s
            | _ =>
              match s_require st 2 with
              | .error e => some (.error e)
              | .ok st =>
                a_skip_loop fuel ⟨st.buf, st.pos + 2, st.chunks⟩ (.other ft)
                  (.other .Struct :: stack)
    | .other .Bool =>
      match s_require st 1 with
      | .error e => some (.error e)
      | .ok st =>
        match stack with
        | [] => some (.ok ⟨st.buf, st.pos + 1, st.chunks⟩)
        | f :: s => a_skip_loop fuel ⟨st.buf, st.pos + 1, st.chunks⟩ f s
    | .other .I8 =>
      match s_require st 1 with
      | .error e => some (.error e)
      | .ok st =>
        match stack with
        | [] => some (.ok ⟨st.buf, st.pos + 1, st.chunks⟩)
        | f :: s => a_skip_loop fuel ⟨st.buf, st.pos + 1, st.chunks⟩ f s
    | .other .Double =>
      match s_require st 8 with
      | .error e => some (.error e)
      | .ok st =>
        match stack with
        | [] => some (.ok ⟨st.buf, st.pos + 8, st.chunks⟩)
        | f :: s => a_skip_loop fuel ⟨st.buf, st.pos + 8, st.chunks⟩ f s
    | .other .I64 =>
      match s_require st 8 with
      | .error e => some (.error e)
      | .ok st =>
        match stack with
        | [] => some (.ok ⟨st.buf, st.pos + 8, st.chunks⟩)
        | f :: s => a_skip_loop fuel ⟨st.buf, st.pos + 8, st.chunks⟩ f s
    | .other .I16 =>
      match s_require st 2 with
      | .error e => some (.error e)
      | .ok st =>
        match stack with
        | [] => some (.ok ⟨st.buf, st.pos + 2, st.chunks⟩)
        | f :: s => a_skip_loop fuel ⟨st.buf, st.pos + 2, st.chunks⟩ f s
    | .other .I32 =>
      match s_require st 4 with
      | .error e => some (.error e)
      | .ok st =>
        match stack with
        | [] => some (.ok ⟨st.buf, st.pos + 4, st.chunks⟩)
        | f :: s => a_skip_loop fuel ⟨st.buf, st.pos + 4, st.chunks⟩ f s
    | .other .Binary =>
      match s_require st 4 with
      | .error e => some (.error e)
      | .ok st =>
        let len := i32AsUsize (beU32at st.buf st.pos)
        let st1 : SkipperState := ⟨st.buf, st.pos + 4, st.chunks⟩
        match s_require st1 len with
        | .error e => some (.error e)
        | .ok st2 =>
          match stack with
          | [] => some (.ok ⟨st2.buf, st2.pos + len, st2.chunks⟩)
          | f :: s => a_skip_loop fuel ⟨st2.buf, st2.pos + len, st2.chunks⟩ f s
    | .other .Uuid =>
      match s_require st 16 with
      | .error e => some (.error e)
      | .ok st =>
        match stack with
        | [] => some (.ok ⟨st.buf, st.pos + 16, st.chunks⟩)
        | f :: s => a_skip_loop fuel ⟨st.buf, st.pos + 16, st.chunks⟩ f s
    | .other .List =>
      match s_require st 5 with
      | .error e => some (.error e)
      | .ok st =>
        let b := byteAt st.buf st.pos
        match TType.fromByte b with
        | none => some (.error (invalidTtypeError b))
        | some et =>
          let element_len := beU32at st.buf (st.pos + 1)
          let st1 : SkipperState := ⟨st.buf, st.pos + 5, st.chunks⟩
          let size := fixedTypeSize et
          if size ≠ 0 then
            let skip := element_len * size
            match s_require st1 skip with
            | .error e => some (.error e)
            | .ok st2 =>
              match stack with
              | [] => some (.ok ⟨st2.buf, st2.pos + skip, st2.chunks⟩)
              | f :: s => a_skip_loop fuel ⟨st2.buf, st2.pos + skip, st2.chunks⟩ f s
          else a_skip_loop fuel st1 (.collection element_len et et) stack
    | .other .Set =>
      match s_require st 5 with
      | .error e => some (.error e)
      | .ok st =>
        let b := byteAt st.buf st.pos
        match TType.fromByte b with
        | none => some (.error (invalidTtypeError b))
        | some et =>
          let element_len := beU32at st.buf (st.pos + 1)
          let st1 : SkipperState := ⟨st.buf, st.pos + 5, st.chunks⟩
          let size := fixedTypeSize et
          if size ≠ 0 then
            let skip := element_len * size
            match s_require st1 skip with
            | .error e => some (.error e)
            | .ok st2 =>
              match stack with
              | [] => some (.ok ⟨st2.buf, st2.pos + skip, st2.chunks⟩)
              | f :: s => a_skip_loop fuel ⟨st2.buf, st2.pos + skip, st2.chunks⟩ f s
          else a_skip_loop fuel st1 (.collection element_len et et) stack
    | .other .Map =>
      match s_require st 6 with
      | .error e => some (.error e)
      | .ok st =>
        let kb := byteAt st.buf st.pos
        match TType.fromByte kb with
        | none => some (.error (invalidTtypeError kb))
        | some kt =>
          let vb := byteAt st.buf (st.pos + 1)
          match TType.fromByte vb with
          | none => some (.error (invalidTtypeError vb))
          | some vt =>
            let element_len := beU32at st.buf (st.pos + 2)
            let st1 : SkipperState := ⟨st.buf, st.pos + 6, st.chunks⟩
            let size := fixedTypeSize kt
            let size2 := fixedTypeSize vt
            if size ≠ 0 ∧ size2 ≠ 0 then
              let skip := element_len * (size + size2)
              match s_require st1 skip with
              | .error e => some (.error e)
              | .ok st2 =>
                match stack with
                | [] => some (.ok ⟨st2.buf, st2.pos + skip, st2.chunks⟩)
                | f :: s => a_skip_loop fuel ⟨st2.buf, st2.pos + skip, st2.chunks⟩ f s
            else
              a_skip_loop fuel st1
                (.collection (element_len * 2 % 4294967296) kt vt) stack
    | .other t =>
      some (.error ⟨.invalidData,
        "invalid ttype " ++ toString t.toByte.toNat ++ ", normal type is expected"⟩)
    | .collection len t0 t1 =>
      if len = 0 then
        match stack with
        | [] => some (.ok st)
        | f :: s => a_skip_loop fuel st f s
      else
        a_skip_loop fuel st (.other (if len % 2 = 0 then t0 else t1))
          (.collection (len - 1) t0 t1 :: stack)

/-- The async engine's pop step; each pop site inside `a_skip_loop` is
definitionally an application of this function. -/
def a_skip_pop (fuel : Nat) (st : SkipperState) (stack : List SkipData) :
    Option (Except CodecError SkipperState) :=
  match stack with
  | [] => some (.ok st)
  | f :: s => a_skip_loop fuel st f s

/-- The asynchronous `skip_field(ttype)`. -/
def a_skip_field (st : SkipperState) (ttype : TType) (fuel : Nat) :
    Option (Except CodecError SkipperState) :=
  a_skip_loop fuel st (.other ttype) []

/-! ## Synchronous Binary writer (TOutputProtocol for TBinaryProtocol<&mut BytesMut>) -/

structure WriterState where
  trans : List Byte
  attachment : List Nat
deriving DecidableEq, Repr

def write_byte (st : WriterState) (b : Byte) : WriterState :=
  ⟨st.trans ++ [b], st.attachment⟩

def write_i32 (st : WriterState) (n : Nat) : WriterState :=
  ⟨st.trans ++ be32 n, st.attachment⟩

/-- `write_length`: pop the most recent recorded offset and overwrite the
4 bytes there with the big-endian `len as i32`.  `none` models the
`expect("illegal thrift pair")` panic on an empty backpatch stack. -/
def write_length (st : WriterState) (len : Nat) : Option WriterState :=
  match st.attachment with
  | [] => none
  | pos :: rest => some ⟨overwriteAt st.trans pos (be32 len), rest⟩

def write_list_begin (st : WriterState) (element_type : TType) (size : Nat) :
    WriterState :=
  let st1 := write_byte st element_type.toByte
  let st2 : WriterState := ⟨st1.trans, st1.trans.length :: st1.attachment⟩
  write_i32 st2 size

def write_list_end (st : WriterState) (len : Nat) : Option WriterState :=
  write_length st len

def write_set_begin (st : WriterState) (element_type : TType) (size : Nat) :
    WriterState :=
  let st1 := write_byte st element_type.toByte
  let st2 : WriterState := ⟨st1.trans, st1.trans.length :: st1.attachment⟩
  write_i32 st2 size

def write_set_end (st : WriterState) (len : Nat) : Option WriterState :=
  write_length st len

def write_map_begin (st : WriterState) (key_type value_type : TType) (size : Nat) :
    WriterState :=
  let st1 := write_byte st key_type.toByte
  let st2 := write_byte st1 value_type.toByte
  let st3 : WriterState := ⟨st2.trans, st2.trans.length :: st2.attachment⟩
  write_i32 st3 size

def write_map_end (st : WriterState) (len : Nat) : Option WriterState :=
  write_length st len

/-! ## TTHeader framing codec (src/codec/ttheader.rs) -/

structure IoError where
  kind : IoKind
  msg : String
deriving DecidableEq, Repr

def ioInvalidData : IoError := ⟨.invalidData, "invalid data"⟩

inductive ProtocolId where
  | Binary | Compact | CompactV2 | Protobuf
deriving DecidableEq, Repr

def ProtocolId.fromByte (b : Byte) : Option ProtocolId :=
  match b.toNat with
  | 0 => some .Binary | 2 => some .Compact | 3 => some .CompactV2
  | 4 => some .Protobuf | _ => none

def ProtocolId.toByte : ProtocolId → Byte
  | .Binary => 0 | .Compact => 2 | .CompactV2 => 3 | .Protobuf => 4

/-- `IntMetaKey::INDEX_TABLE_SIZE` (= ClusterShardId + 1). -/
def INDEX_TABLE_SIZE : Nat := 27

def MAX_HEADER_STRING_LENGTH : Nat := 4096
def MAX_NUM_HEADERS : Nat := 1024

structure TTHeaderS where
  header_length : Nat
  payload_length : Nat
  seq_id : Nat
  flags : Nat
  protocol_id : ProtocolId
  int_headers : List (Option (List Byte))
  int_headers_ext : List (Nat × List Byte)
  str_headers : List (List Byte × List Byte)
  acl_token : Option (List Byte)
deriving DecidableEq, Repr

/-- `TTHeader::new()` / `Default`. -/
def TTHeaderS.new : TTHeaderS :=
  ⟨0, 0, 0, 0, .Binary, List.replicate INDEX_TABLE_SIZE none, [], [], none⟩

/-- `HashMap::insert` on the association-list model of `str_headers`. -/
def hmInsert (m : List (List Byte × List Byte)) (k v : List Byte) :
    List (List Byte × List Byte) :=
  match m with
  | [] => [(k, v)]
  | (k', v') :: rest => if k' = k then (k, v) :: rest else (k', v') :: hmInsert rest k v

/-- `read_u16_checked!`: bounds-checked big-endian u16 inside the header area. -/
def read_u16_checked (buf : List Byte) (hl index : Nat) : Except IoError (Nat × Nat) :=
  if index + 2 > hl then .error ioInvalidData
  else .ok (beU16at buf index, index + 2)

/-- `read_str_checked!`: length-prefixed string, bounds- and cap-checked. -/
def read_str_checked (buf : List Byte) (hl index : Nat) :
    Except IoError (List Byte × Nat) :=
  match read_u16_checked buf hl index with
  | .error e => .error e
  | .ok (val_len, index1) =>
    if index1 + val_len > hl ∨ val_len > MAX_HEADER_STRING_LENGTH then
      .error ioInvalidData
    else .ok ((buf.drop index1).take val_len, index1 + val_len)

/-- The string-KV block body: `kv_size` (key, value) string pairs. -/
def str_kv_loop (buf : List Byte) (hl : Nat) (count index : Nat)
    (hdr : TTHeaderS) : Except IoError (TTHeaderS × Nat) :=
  match count with
  | 0 => .ok (hdr, index)
  | c + 1 =>
    match read_str_checked buf hl index with
    | .error e => .error e
    | .ok (key, i1) =>
      match read_str_checked buf hl i1 with
      | .error e => .error e
      | .ok (val, i2) =>
        str_kv_loop buf hl c i2
          { hdr with str_headers := hmInsert hdr.str_headers key val }

/-- The int-KV block body: `kv_size` (u16 key, string value) pairs. -/
def int_kv_loop (buf : List Byte) (hl : Nat) (count index : Nat)
    (hdr : TTHeaderS) : Except IoError (TTHeaderS × Nat) :=
  match count with
  | 0 => .ok (hdr, index)
  | c + 1 =>
    match read_u16_checked buf hl index with
    | .error e => .error e
    | .ok (key, i1) =>
      match read_str_checked buf hl i1 with
      | .error e => .error e
      | .ok (val, i2) =>
        if key < INDEX_TABLE_SIZE then
          int_kv_loop buf hl c i2
            { hdr with int_headers := hdr.int_headers.set key (some val) }
        else
          int_kv_loop buf hl c i2
            { hdr with int_headers_ext := hdr.int_headers_ext ++ [(key, val)] }

/-- The info-block `while index < header_length` loop of `decode_header`. -/
def info_loop (buf : List Byte) (hl : Nat) (fuel index : Nat) (hdr : TTHeaderS) :
    Option (Except IoError TTHeaderS) :=
  match fuel with
  | 0 => none
  | fuel + 1 =>
    if index < hl then
      let info_id := byteAt buf index
      if info_id.toNat = 0 then info_loop buf hl fuel (index + 1) hdr
      else if info_id.toNat = 1 then
        match read_u16_checked buf hl (index + 1) with
        | .error e => some (.error e)
        | .ok (kv_size, i1) =>
          if kv_size > MAX_NUM_HEADERS then
            some (.error ⟨.invalidData,
              "too many headers: " ++ toString kv_size ++ ", max: " ++
                toString MAX_NUM_HEADERS⟩)
          else
            match str_kv_loop buf hl kv_size i1 hdr with
            | .error e => some (.error e)
            | .ok (hdr1, i2) => info_loop buf hl fuel i2 hdr1
      else if info_id.toNat = 16 then
        match read_u16_checked buf hl (index + 1) with
        | .error e => some (.error e)
        | .ok (kv_size, i1) =>
          match int_kv_loop buf hl kv_size i1 hdr with
          | .error e => some (.error e)
          | .ok (hdr1, i2) => info_loop buf hl fuel i2 hdr1
      else if info_id.toNat = 17 then
        match read_str_checked buf hl (index + 1) with
        | .error e => some (.error e)
        | .ok (tok, i1) =>
          info_loop buf hl fuel i1 { hdr with acl_token := some tok }
      else
        some (.error ⟨.invalidData,
          "unexpected info id in ttheader: " ++ toString info_id.toNat⟩)
    else some (.ok hdr)

/-- `TTHeader::decode_header(total_length, src)`: `src` is the buffer
after the 4-byte length field has been consumed; on success returns the
decoded header and the remaining (payload) bytes.  `none` is the
fuel-exhaustion case of the info-block loop (never reached from the
decoder entry points, which supply ample fuel). -/
def decode_header (total_length : Nat) (src : List Byte) :
    Option (Except IoError (TTHeaderS × List Byte)) :=
  let flags := beU16at src 2
  let seq_id := beU32at src 4
  let header_size := beU16at src 8
  let hl := header_size * 4
  if hl > src.length - 10 ∨ header_size < 1 then
    some (.error ⟨.invalidData, "invalid header length"⟩)
  else
    let header_buf := (src.drop 10).take hl
    let remaining := src.drop (10 + hl)
    let payload_length := (total_length + 8589934592 - hl - 10) % 4294967296
    let pid := (ProtocolId.fromByte (byteAt header_buf 0)).getD .Binary
    let hdr0 : TTHeaderS :=
      { TTHeaderS.new with
          header_length := hl, payload_length := payload_length,
          seq_id := seq_id, flags := flags, protocol_id := pid }
    match info_loop header_buf hl (hl + 1) 2 hdr0 with
    | none => none
    | some (.error e) => some (.error e)
    | some (.ok hdr) => some (.ok (hdr, remaining))

inductive Decoded (α : Type) where
  | some (a : α) (rest : List Byte)
  | insufficientAtLeast (n : Nat)
deriving Repr

def MIN_HEADER_LENGTH : Nat := 14

/-- `TTHeaderDecoder::decode`. -/
def ttheader_decode (src : List Byte) : Option (Except IoError (Decoded TTHeaderS)) :=
  if src.length < MIN_HEADER_LENGTH then
    some (.ok (.insufficientAtLeast MIN_HEADER_LENGTH))
  else if byteAt src 4 = 0x10 ∧ byteAt src 5 = 0x00 then
    let header_length := beU16at src 12 * 4
    if src.length < header_length + MIN_HEADER_LENGTH then
      some (.ok (.insufficientAtLeast (header_length + MIN_HEADER_LENGTH)))
    else
      let length := beU32at src 0
      match decode_header length (src.drop 4) with
      | none => none
      | some (.error e) => some (.error e)
      | some (.ok (hdr, rest)) => some (.ok (.some hdr rest))
  else some (.error ⟨.other, "illegal ttheader"⟩)

/-- `put_str`: 2-byte length prefix then the bytes. -/
def put_str (s : List Byte) (dst : List Byte) : List Byte :=
  dst ++ be16 s.length ++ s

/-- The string-KV section of the encoder. -/
def encode_str_kvs (hs : List (List Byte × List Byte)) (dst : List Byte) :
    List Byte :=
  match hs with
  | [] => dst
  | (k, v) :: rest => encode_str_kvs rest (put_str v (put_str k dst))

/-- The dense int-KV section: emit `key -> val` for each `Some` slot,
returning the bytes and the number of pairs emitted. -/
def encode_int_kvs (slots : List (Option (List Byte))) (key : Nat)
    (dst : List Byte) (cnt : Nat) : List Byte × Nat :=
  match slots with
  | [] => (dst, cnt)
  | none :: rest => encode_int_kvs rest (key + 1) dst cnt
  | some val :: rest =>
    encode_int_kvs rest (key + 1) (put_str val (dst ++ be16 key)) (cnt + 1)

/-- The spill int-KV section (note: the source writes the value bytes
without a length prefix here). -/
def encode_ext_kvs (ext : List (Nat × List Byte)) (dst : List Byte) :
    List Byte × Nat :=
  match ext with
  | [] => (dst, 0)
  | (key, val) :: rest =>
    let (d, c) := encode_ext_kvs rest (dst ++ be16 key ++ val)
    (d, c + 1)

/-- `TTHeaderEncoder::encode`: appends one encoded frame to `dst`.  The
`advance_mut` placeholder regions (frame length, header size, int-KV
count) are modelled as zero bytes since each is fully overwritten before
the encoder returns. -/
def ttheader_encode (item : TTHeaderS) (dst : List Byte) : List Byte :=
  let zero_index := dst.length
  let d := dst ++ [0, 0, 0, 0]
  let d := d ++ be16 4096
  let d := d ++ be16 item.flags
  let d := d ++ be32 item.seq_id
  let d := d ++ [0, 0]
  let d := d ++ [item.protocol_id.toByte, 0]
  let d := d ++ [1] ++ be16 item.str_headers.length
  let d := encode_str_kvs item.str_headers d
  let d := d ++ [16]
  let int_kv_index := d.length
  let d := d ++ [0, 0]
  let r1 := encode_int_kvs item.int_headers 0 d 0
  let r2 := encode_ext_kvs item.int_headers_ext r1.1
  let d := overwriteAt r2.1 int_kv_index (be16 (r1.2 + r2.2))
  let overflow := (d.length - 14 - zero_index) % 4
  let padding := (4 - overflow) % 4
  let d := d ++ List.replicate padding 0
  let header_size := d.length - zero_index
  let d := overwriteAt d (zero_index + 12) (be16 ((header_size - 14) / 4))
  let size := d.length + item.payload_length - zero_index
  overwriteAt d zero_index (be32 (size - 4))

/-! ## Simple framed codec (src/codec/framed.rs) -/

inductive FDecoded (α : Type) where
  | done (a : α)
  | insufficientAtLeast (n : Nat)
deriving Repr, DecidableEq

/-- `FramedHeader::<T>::decode`, parameterized by the inner decoder; on a
complete frame the inner decoder receives exactly the `len`-byte body and
the frame's `4 + len` bytes are consumed from `src` (the second
component is what remains of `src`). -/
def framed_decode {α : Type} (inner : List Byte → Except IoError (FDecoded α))
    (src : List Byte) : Except IoError (FDecoded α × List Byte) :=
  if src.length < 4 then .ok (.insufficientAtLeast 4, src)
  else
    let lengthWord := beU32at src 0
    if asI32 lengthWord ≤ 0 then .error ⟨.other, "illegal thrift body size"⟩
    else
      let length := (asI32 lengthWord).toNat
      if src.length < length + 4 then .ok (.insufficientAtLeast (length + 4), src)
      else
        match inner ((src.drop 4).take length) with
        | .error e => .error e
        | .ok d => .ok (d, src.drop (4 + length))

/-! ## Predicates used by the theorem statements -/

/-- `seg` lies verbatim in `buf` starting at `pos` (with room for it). -/
def segAt (buf : List Byte) (pos : Nat) (seg : List Byte) : Prop :=
  pos + seg.length ≤ buf.length ∧ (buf.drop pos).take seg.length = seg

/-- Relation between a synchronous cursor over the fully-buffered stream
`buf` at position `pos` and an asynchronous reader state: the async
reader's buffered bytes followed by the chunks its byte source will still
deliver are exactly the unconsumed part of the stream, and no chunk is
empty. -/
def Sim (buf : List Byte) (pos : Nat) (st : AsyncState) : Prop :=
  st.buffered ++ st.chunks.flatten = buf.drop pos ∧ ∀ c ∈ st.chunks, c ≠ []

/-- Same relation for the asynchronous skipper (cursor attachment): the
bytes buffered so far are a prefix of `buf` and the chunks make up the
rest. -/
def SimSk (buf : List Byte) (st : SkipperState) : Prop :=
  st.buf ++ st.chunks.flatten = buf ∧ ∀ c ∈ st.chunks, c ≠ []

/-! # Theorems

## Byte-level lemmas -/

theorem u8ofNat_toNat (n : Nat) : (u8ofNat n).toNat = n % 256 := rfl

theorem byteAt_nil (i : Nat) : byteAt [] i = 0 := by
  cases i <;> rfl

theorem byteAt_cons_succ (x : Byte) (l : List Byte) (i : Nat) :
    byteAt (x :: l) (i + 1) = byteAt l i := rfl

theorem byteAt_append_left : ∀ (a : List Byte) (b : List Byte) (i : Nat),
    i < a.length → byteAt (a ++ b) i = byteAt a i
  | [], _, _, h => by simp at h
  | x :: a, b, 0, _ => rfl
  | x :: a, b, i + 1, h => by
    simpa [byteAt_cons_succ] using byteAt_append_left a b i (by simpa using h)

theorem byteAt_append_right : ∀ (a : List Byte) (b : List Byte) (i : Nat),
    byteAt (a ++ b) (a.length + i) = byteAt b i
  | [], b, i => by simp [byteAt]
  | x :: a, b, i => by
    simpa [byteAt_cons_succ, Nat.succ_add] using byteAt_append_right a b i

theorem byteAt_drop (l : List Byte) (n i : Nat) :
    byteAt (l.drop n) i = byteAt l (n + i) := by
  induction n generalizing l with
  | zero => simp [byteAt]
  | succ n ih =>
    cases l with
    | nil => simp [byteAt_nil]
    | cons x l => simpa [byteAt_cons_succ, Nat.succ_add] using ih l

theorem byteAt_take (l : List Byte) (n i : Nat) (h : i < n) :
    byteAt (l.take n) i = byteAt l i := by
  unfold byteAt
  rw [List.getD_eq_getElem?_getD, List.getD_eq_getElem?_getD,
    List.getElem?_take_of_lt h]

theorem segAt_byteAt {buf : List Byte} {pos : Nat} {seg : List Byte}
    (h : segAt buf pos seg) (i : Nat) (hi : i < seg.length) :
    byteAt buf (pos + i) = byteAt seg i := by
  obtain ⟨hlen, heq⟩ := h
  calc byteAt buf (pos + i) = byteAt (buf.drop pos) i := (byteAt_drop _ _ _).symm
    _ = byteAt ((buf.drop pos).take seg.length) i := (byteAt_take _ _ _ hi).symm
    _ = byteAt seg i := by rw [heq]

theorem segAt_append {buf : List Byte} {pos : Nat} {a b : List Byte} :
    segAt buf pos (a ++ b) ↔ segAt buf pos a ∧ segAt buf (pos + a.length) b := by
  unfold segAt
  constructor
  · rintro ⟨hlen, heq⟩
    simp only [List.length_append] at hlen heq
    have h1 : (buf.drop pos).take a.length = a := by
      have h := congrArg (List.take a.length) heq
      rwa [List.take_take, Nat.min_eq_left (by omega), List.take_left] at h
    have h2 : (buf.drop (pos + a.length)).take b.length = b := by
      have h := congrArg (List.drop a.length) heq
      rw [List.drop_take, List.drop_drop, List.drop_left] at h
      simpa using h
    exact ⟨⟨by omega, h1⟩, ⟨by omega, h2⟩⟩
  · rintro ⟨⟨hl1, he1⟩, hl2, he2⟩
    refine ⟨by simp only [List.length_append]; omega, ?_⟩
    rw [List.length_append, List.take_add, he1, List.drop_drop, he2]

theorem segAt_refl (v r : List Byte) : segAt (v ++ r) 0 v := by
  refine ⟨by simp, ?_⟩
  simp [List.take_append]

theorem beU16at_be16_self (n : Nat) (l : List Byte) :
    beU16at (be16 n ++ l) 0 = n % 65536 := by
  simp only [be16, beU16at, beU16v, byteAt, List.cons_append, List.getD_cons_zero,
    List.getD_cons_succ, u8ofNat_toNat]
  omega

theorem beU32at_be32_self (n : Nat) (l : List Byte) :
    beU32at (be32 n ++ l) 0 = n % 4294967296 := by
  simp only [be32, beU32at, beU16at, beU16v, byteAt, List.cons_append,
    List.getD_cons_zero, List.getD_cons_succ, u8ofNat_toNat]
  omega

theorem beU64at_be64_self (n : Nat) (l : List Byte) :
    beU64at (be64 n ++ l) 0 = n % 18446744073709551616 := by
  simp only [be64, be32, beU64at, beU32at, beU16at, beU16v, byteAt,
    List.cons_append, List.append_assoc, List.nil_append,
    List.getD_cons_zero, List.getD_cons_succ, u8ofNat_toNat]
  omega

theorem segAt_beU16at {buf : List Byte} {pos : Nat} {seg : List Byte}
    (h : segAt buf pos seg) (hk : 2 ≤ seg.length) :
    beU16at buf pos = beU16at seg 0 := by
  have h0 := segAt_byteAt h 0 (by omega)
  have h1 := segAt_byteAt h 1 (by omega)
  simp only [Nat.add_zero] at h0
  simp only [beU16at, beU16v, h0, h1]

theorem segAt_beU32at {buf : List Byte} {pos : Nat} {seg : List Byte}
    (h : segAt buf pos seg) (hk : 4 ≤ seg.length) :
    beU32at buf pos = beU32at seg 0 := by
  have h0 := segAt_byteAt h 0 (by omega)
  have h1 := segAt_byteAt h 1 (by omega)
  have h2 := segAt_byteAt h 2 (by omega)
  have h3 := segAt_byteAt h 3 (by omega)
  simp only [Nat.add_zero] at h0
  simp only [beU32at, beU16at, beU16v, h0, h1]
  rw [show pos + 2 + 1 = pos + 3 by omega, h2, h3]

theorem segAt_length_le {buf : List Byte} {pos : Nat} {seg : List Byte}
    (h : segAt buf pos seg) : pos + seg.length ≤ buf.length := h.1

/-! ## C9: simple framed decoder -/

/-- Claim C9: for every buffer presented to the simple framed decoder:
with fewer than 4 bytes it returns insufficient-at-least(4); with a
4-byte big-endian signed prefix len <= 0 it returns an error; with
len > 0 and fewer than 4+len buffered bytes it returns
insufficient-at-least(4+len); otherwise it consumes exactly 4+len bytes
and passes exactly the len-byte body to the inner decoder. -/
theorem framed_decode_cases {α : Type}
    (inner : List Byte → Except IoError (FDecoded α)) (src : List Byte) :
    (src.length < 4 → framed_decode inner src = .ok (.insufficientAtLeast 4, src)) ∧
    (4 ≤ src.length → asI32 (beU32at src 0) ≤ 0 →
      framed_decode inner src = .error ⟨.other, "illegal thrift body size"⟩) ∧
    (4 ≤ src.length → 0 < asI32 (beU32at src 0) →
      src.length < (asI32 (beU32at src 0)).toNat + 4 →
      framed_decode inner src =
        .ok (.insufficientAtLeast ((asI32 (beU32at src 0)).toNat + 4), src)) ∧
    (4 ≤ src.length → 0 < asI32 (beU32at src 0) →
      (asI32 (beU32at src 0)).toNat + 4 ≤ src.length →
      framed_decode inner src =
        match inner ((src.drop 4).take (asI32 (beU32at src 0)).toNat) with
        | .error e => .error e
        | .ok d => .ok (d, src.drop (4 + (asI32 (beU32at src 0)).toNat))) := by
  refine ⟨fun h => ?_, fun h4 hle => ?_, fun h4 hpos hshort => ?_,
    fun h4 hpos hlong => ?_⟩
  · simp only [framed_decode]
    rw [if_pos h]
  · simp only [framed_decode]
    rw [if_neg (by omega : ¬ src.length < 4), if_pos hle]
  · simp only [framed_decode]
    rw [if_neg (by omega : ¬ src.length < 4),
      if_neg (by omega : ¬ asI32 (beU32at src 0) ≤ 0), if_pos hshort]
  · simp only [framed_decode]
    rw [if_neg (by omega : ¬ src.length < 4),
      if_neg (by omega : ¬ asI32 (beU32at src 0) ≤ 0),
      if_neg (by omega : ¬ src.length < (asI32 (beU32at src 0)).toNat + 4)]

/-- Witness for C9: the four cases exercised at concrete inputs. -/
theorem framed_decode_cases_witness :
    framed_decode (fun b => .ok (.done b)) ([] : List Byte) =
      .ok (.insufficientAtLeast 4, []) ∧
    framed_decode (fun b => .ok (.done b)) [0, 0, 0, 0] =
      .error ⟨.other, "illegal thrift body size"⟩ ∧
    framed_decode (fun b => .ok (.done b)) [0, 0, 0, 5, 1] =
      .ok (.insufficientAtLeast 9, [0, 0, 0, 5, 1]) ∧
    framed_decode (fun b => .ok (.done b)) [0, 0, 0, 2, 7, 8, 9] =
      .ok (.done [7, 8], [9]) := by
  refine ⟨(framed_decode_cases _ _).1 (by decide),
    (framed_decode_cases _ _).2.1 (by decide) (by decide),
    ((framed_decode_cases _ _).2.2.1 (by decide) (by decide) (by decide)).trans
      (by rfl),
    ((framed_decode_cases _ _).2.2.2 (by decide) (by decide) (by decide)).trans
      (by rfl)⟩

/-! ## C3: the version gate of read_message_begin -/

/-- Counterexample to C3 as stated: the first word `0x80000000` is
non-positive with high 16 bits `0x8000 ≠ 0x8001`, yet `read_message_begin`
fails with kind InvalidData (the message-type nibble is validated before
the version bits), not BadVersion. -/
theorem read_message_begin_not_badversion :
    beU32at [0x80, 0, 0, 0] 0 / 65536 ≠ 0x8001 ∧
    read_message_begin [0x80, 0, 0, 0] 0 =
      .error ⟨.invalidData, "invalid message type 0"⟩ := by
  exact ⟨by decide, by rfl⟩

/-- Claim C3 (amended): for every input of at least 4 bytes,
`read_message_begin` fails BadVersion with message "Missing version in
ReadMessageBegin" whenever the first 32-bit word is positive; when the
word is non-positive, the low-nibble message type is validated first
(failing InvalidData if it is not 1..4), and only then a high-16-bits
value different from 0x8001 fails BadVersion. -/
theorem read_message_begin_version_gate (buf : List Byte) (h4 : 4 ≤ buf.length) :
    (asI32 (beU32at buf 0) > 0 →
      read_message_begin buf 0 =
        .error ⟨.badVersion, "Missing version in ReadMessageBegin"⟩) ∧
    (asI32 (beU32at buf 0) ≤ 0 → TMessageType.fromNat (beU32at buf 0 % 16) = none →
      read_message_begin buf 0 =
        .error ⟨.invalidData, "invalid message type " ++ toString (beU32at buf 0 % 16)⟩) ∧
    (∀ mt, asI32 (beU32at buf 0) ≤ 0 →
      TMessageType.fromNat (beU32at buf 0 % 16) = some mt →
      beU32at buf 0 / 65536 ≠ 32769 →
      read_message_begin buf 0 =
        .error ⟨.badVersion, "Bad version in ReadMessageBegin"⟩) := by
  have hr : read_i32 buf 0 = .ok (beU32at buf 0, 4) := by
    simp only [read_i32]
    rw [if_pos (by omega)]
  refine ⟨fun hpos => ?_, fun hle hnone => ?_, fun mt hle hsome hver => ?_⟩
  · simp only [read_message_begin, hr]
    rw [if_pos hpos]
  · simp only [read_message_begin, hr, hnone]
    rw [if_neg (by omega : ¬ asI32 (beU32at buf 0) > 0)]
  · simp only [read_message_begin, hr, hsome]
    rw [if_neg (by omega : ¬ asI32 (beU32at buf 0) > 0), if_pos hver]

/-- Witness for C3 (amended), at three concrete inputs. -/
theorem read_message_begin_version_gate_witness :
    read_message_begin [0, 0, 0, 1] 0 =
      .error ⟨.badVersion, "Missing version in ReadMessageBegin"⟩ ∧
    read_message_begin [0x80, 0, 0, 5] 0 =
      .error ⟨.invalidData, "invalid message type 5"⟩ ∧
    read_message_begin [0x80, 0, 0, 1] 0 =
      .error ⟨.badVersion, "Bad version in ReadMessageBegin"⟩ := by
  refine ⟨(read_message_begin_version_gate [0, 0, 0, 1] (by decide)).1 (by decide),
    ?_, ?_⟩
  · have := (read_message_begin_version_gate [0x80, 0, 0, 5] (by decide)).2.1
      (by decide) (by rfl)
    exact this.trans (by rfl)
  · exact (read_message_begin_version_gate [0x80, 0, 0, 1] (by decide)).2.2
      .Call (by decide) (by rfl) (by decide)

/-! ## C8: the UTF-8 gate of read_string -/

theorem be16_length (n : Nat) : (be16 n).length = 2 := rfl
theorem be32_length (n : Nat) : (be32 n).length = 4 := rfl
theorem be64_length (n : Nat) : (be64 n).length = 8 := rfl

theorem read_bytes_of_prefixed (payload rest : List Byte)
    (hlen : payload.length < 2147483648) :
    read_bytes (be32 payload.length ++ payload ++ rest) 0 =
      .ok (payload, 4 + payload.length) := by
  have hbuf : be32 payload.length ++ payload ++ rest =
      be32 payload.length ++ (payload ++ rest) := by
    rw [List.append_assoc]
  rw [hbuf]
  have hr : read_i32 (be32 payload.length ++ (payload ++ rest)) 0 =
      .ok (payload.length, 4) := by
    simp only [read_i32]
    rw [if_pos (by simp only [List.length_append, be32_length]; omega), beU32at_be32_self,
      Nat.mod_eq_of_lt (by omega)]
  simp only [read_bytes, hr]
  rw [show i32AsUsize payload.length = payload.length from
    if_pos (by omega)]
  rw [if_neg (by simp only [List.length_append, be32_length]; omega)]
  have hdrop : (be32 payload.length ++ (payload ++ rest)).drop 4 = payload ++ rest := by
    rw [show 4 = (be32 payload.length).length from rfl, List.drop_left]
  rw [hdrop, List.take_left]

/-- Claim C8: for every length-prefixed input in range, `read_string` on a
nonempty payload that is not valid UTF-8 in full fails InvalidData while
`read_bytes` on the same input succeeds returning the payload
uninterpreted; a declared length of zero makes `read_string` succeed with
the empty string. -/
theorem read_string_utf8_gate (payload rest : List Byte)
    (hlen : payload.length < 2147483648) :
    (payload ≠ [] → validUtf8 payload = false →
      read_string (be32 payload.length ++ payload ++ rest) 0 =
        .error ⟨.invalidData, "not a valid utf8 string"⟩ ∧
      read_bytes (be32 payload.length ++ payload ++ rest) 0 =
        .ok (payload, 4 + payload.length)) ∧
    (∀ tail : List Byte, read_string (be32 0 ++ tail) 0 = .ok ([], 4)) := by
  constructor
  · intro hne hbad
    have hb := read_bytes_of_prefixed payload rest hlen
    refine ⟨?_, hb⟩
    simp only [read_string, hb]
    rw [if_neg (by simpa [List.isEmpty_iff] using hne), if_neg (by simp [hbad])]
  · intro tail
    have hb : read_bytes (be32 0 ++ tail) 0 = .ok ([], 4) := by
      have := read_bytes_of_prefixed [] tail (by decide)
      simpa using this
    simp only [read_string, hb]
    rw [if_pos (by simp)]

/-- Witness for C8 at the concrete payload `[0xFF]` (not UTF-8). -/
theorem read_string_utf8_gate_witness :
    read_string [0, 0, 0, 1, 0xFF] 0 =
      .error ⟨.invalidData, "not a valid utf8 string"⟩ ∧
    read_bytes [0, 0, 0, 1, 0xFF] 0 = .ok ([0xFF], 5) ∧
    read_string [0, 0, 0, 0, 9] 0 = .ok ([], 4) := by
  have h := (read_string_utf8_gate [0xFF] [] (by decide)).1 (by decide) (by rfl)
  have h2 := (read_string_utf8_gate [0xFF] [] (by decide)).2 [9]
  exact ⟨h.1.trans (by rfl), (h.2).trans (by rfl), h2.trans (by rfl)⟩

/-! ## C4: skip_field bounds (code bug: u32 overflow of the map Collection counter) -/

/-- Claim C4 (code bug exhibited): on the 6-byte input
`0B 0B 80 00 00 00` (map with Binary key/value types and declared entry
count 0x80000000), `skip_field(Map)` succeeds after consuming only the
6 header bytes, because `element_len * 2` wraps to 0 in `u32`; the
buffer contains no complete map encoding (the reader walk fails on it),
so the claimed InvalidData error is not produced.  On the claim's own
example input `0D 08 08 00 00 00 02 00 00 00 01`, `skip_field(Map)` does
fail InvalidData. -/
theorem skip_field_map_count_overflow :
    skip_field [0x0B, 0x0B, 0x80, 0, 0, 0] 0 .Map 8 = some (.ok 6) ∧
    read_value [0x0B, 0x0B, 0x80, 0, 0, 0] 8 0 .Map = some (.error eofError) ∧
    skip_field [0x0D, 0x08, 0x08, 0, 0, 0, 2, 0, 0, 0, 1] 0 .Map 32 =
      some (.error CodecError.invalidData) :=
  ⟨rfl, rfl, rfl⟩

/-! ## C7: container length backpatching in the writer -/

theorem overwriteAt_length (l : List Byte) (pos : Nat) (patch : List Byte)
    (h : pos + patch.length ≤ l.length) :
    (overwriteAt l pos patch).length = l.length := by
  simp only [overwriteAt, List.length_append, List.length_take, List.length_drop]
  omega

theorem overwriteAt_slice (l : List Byte) (pos : Nat) (patch : List Byte)
    (h : pos ≤ l.length) :
    ((overwriteAt l pos patch).drop pos).take patch.length = patch := by
  have htk : (l.take pos).length = pos := by
    simp only [List.length_take]; omega
  rw [overwriteAt, List.append_assoc, List.drop_left' htk, List.take_left]

theorem overwriteAt_untouched (l : List Byte) (pos : Nat) (patch : List Byte)
    (hle : pos + patch.length ≤ l.length) (i : Nat)
    (h : i < pos ∨ pos + patch.length ≤ i) :
    byteAt (overwriteAt l pos patch) i = byteAt l i := by
  have htk : (l.take pos).length = pos := by
    simp only [List.length_take]; omega
  rcases h with h | h
  · rw [overwriteAt, List.append_assoc, byteAt_append_left _ _ _ (by omega),
      byteAt_take _ _ _ h]
  · have hi : i = (l.take pos ++ patch).length + (i - (pos + patch.length)) := by
      simp only [List.length_append, htk]; omega
    rw [overwriteAt, hi, byteAt_append_right, byteAt_drop]
    congr 1
    simp only [List.length_append, htk]
    try omega

/-- Claim C7: the offset recorded by `write_map_begin` (respectively
`write_list_begin`, `write_set_begin`) sits on top of the backpatch
stack pointing at the 4-byte count placeholder; after any sequence of
appended bytes, the matching `*_end(n)` pops that offset and overwrites
exactly those 4 bytes with the big-endian 32-bit encoding of `n`,
leaving every other byte of the buffer unchanged. -/
theorem write_container_end_backpatch (B : List Byte) (S : List Nat)
    (kt vt et : TType) (sz : Nat) (extra : List Byte) (n : Nat) :
    ((write_map_begin ⟨B, S⟩ kt vt sz).attachment = (B.length + 2) :: S ∧
     (write_map_begin ⟨B, S⟩ kt vt sz).trans.length = B.length + 6 ∧
     write_map_end ⟨(write_map_begin ⟨B, S⟩ kt vt sz).trans ++ extra,
         (write_map_begin ⟨B, S⟩ kt vt sz).attachment⟩ n =
       some ⟨overwriteAt ((write_map_begin ⟨B, S⟩ kt vt sz).trans ++ extra)
         (B.length + 2) (be32 n), S⟩) ∧
    ((write_list_begin ⟨B, S⟩ et sz).attachment = (B.length + 1) :: S ∧
     (write_list_begin ⟨B, S⟩ et sz).trans.length = B.length + 5 ∧
     write_list_end ⟨(write_list_begin ⟨B, S⟩ et sz).trans ++ extra,
         (write_list_begin ⟨B, S⟩ et sz).attachment⟩ n =
       some ⟨overwriteAt ((write_list_begin ⟨B, S⟩ et sz).trans ++ extra)
         (B.length + 1) (be32 n), S⟩) ∧
    ((write_set_begin ⟨B, S⟩ et sz).attachment = (B.length + 1) :: S ∧
     (write_set_begin ⟨B, S⟩ et sz).trans.length = B.length + 5 ∧
     write_set_end ⟨(write_set_begin ⟨B, S⟩ et sz).trans ++ extra,
         (write_set_begin ⟨B, S⟩ et sz).attachment⟩ n =
       some ⟨overwriteAt ((write_set_begin ⟨B, S⟩ et sz).trans ++ extra)
         (B.length + 1) (be32 n), S⟩) ∧
    (∀ (C : List Byte) (o : Nat), o + 4 ≤ C.length →
      (overwriteAt C o (be32 n)).length = C.length ∧
      ((overwriteAt C o (be32 n)).drop o).take 4 = be32 n ∧
      (∀ i, i < o ∨ o + 4 ≤ i → byteAt (overwriteAt C o (be32 n)) i = byteAt C i)) := by
  refine ⟨⟨?_, ?_, ?_⟩, ⟨?_, ?_, ?_⟩, ⟨?_, ?_, ?_⟩, fun C o ho => ⟨?_, ?_, fun i hi => ?_⟩⟩
  · simp [write_map_begin, write_byte, write_i32]
  · simp [write_map_begin, write_byte, write_i32, be32]
  · simp [write_map_begin, write_map_end, write_length, write_byte, write_i32]
  · simp [write_list_begin, write_byte, write_i32]
  · simp [write_list_begin, write_byte, write_i32, be32]
  · simp [write_list_begin, write_list_end, write_length, write_byte, write_i32]
  · simp [write_set_begin, write_byte, write_i32]
  · simp [write_set_begin, write_byte, write_i32, be32]
  · simp [write_set_begin, write_set_end, write_length, write_byte, write_i32]
  · exact overwriteAt_length C o (be32 n) (by simpa [be32_length] using ho)
  · simpa [be32_length] using overwriteAt_slice C o (be32 n) (by omega)
  · exact overwriteAt_untouched C o (be32 n) (by simpa [be32_length] using ho) i
      (by simpa [be32_length] using hi)

/-- Witness for C7 at a concrete begin/append/end sequence. -/
theorem write_container_end_backpatch_witness :
    write_map_end ⟨(write_map_begin ⟨[7], []⟩ .I32 .Bool 0).trans ++ [1, 2],
        (write_map_begin ⟨[7], []⟩ .I32 .Bool 0).attachment⟩ 5 =
      some ⟨[7, 8, 2, 0, 0, 0, 5, 1, 2], []⟩ := by
  have h := ((write_container_end_backpatch [7] [] .I32 .Bool .I32 0 [1, 2] 5).1).2.2
  exact h.trans (by rfl)

/-! ## C6: TTHeader encode/decode round trip with an int KV -/

/-- Claim C6: encoding a TTHeader with protocol Binary, seq_id 42,
flags 0, int_headers[RPCTimeoutMs = 12] = "500", empty string headers,
empty spill headers, no ACL token and payload_length 0, then decoding
the produced frame, succeeds with seq_id 42 and recovers the timeout
entry; the byte count after the first 14 bytes is a multiple of 4 with
the padding byte zero, and the patched total_length field equals the
number of encoded bytes after the 4-byte length field. -/
theorem ttheader_roundtrip_intkv :
    (let enc := ttheader_encode
        { TTHeaderS.new with
            seq_id := 42
            int_headers :=
              (List.replicate INDEX_TABLE_SIZE none).set 12
                (some [0x35, 0x30, 0x30]) } [];
     enc = [0, 0, 0, 26, 0x10, 0, 0, 0, 0, 0, 0, 42, 0, 4, 0, 0,
            1, 0, 0, 16, 0, 1, 0, 12, 0, 3, 0x35, 0x30, 0x30, 0] ∧
     (enc.length - 14) % 4 = 0 ∧
     enc.drop 29 = [0] ∧
     beU32at enc 0 = enc.length - 4 ∧
     ttheader_decode enc = some (.ok (.some
       { header_length := 16, payload_length := 0, seq_id := 42, flags := 0,
         protocol_id := .Binary,
         int_headers :=
           (List.replicate INDEX_TABLE_SIZE none).set 12
             (some [0x35, 0x30, 0x30]),
         int_headers_ext := [], str_headers := [], acl_token := none } []))) := by
  exact ⟨rfl, rfl, rfl, rfl, rfl⟩

/-! ## C10: unknown protocol_id bytes are ignored -/

theorem byteAt_of_drop_one {b1 b2 : List Byte} (h : b1.drop 1 = b2.drop 1)
    {i : Nat} (hi : 1 ≤ i) : byteAt b1 i = byteAt b2 i := by
  have h1 : byteAt (b1.drop 1) (i - 1) = byteAt (b2.drop 1) (i - 1) := by rw [h]
  rw [byteAt_drop, byteAt_drop] at h1
  rwa [show 1 + (i - 1) = i from by omega] at h1

theorem drop_of_drop_one {b1 b2 : List Byte} (h : b1.drop 1 = b2.drop 1)
    {k : Nat} (hk : 1 ≤ k) : b1.drop k = b2.drop k := by
  have h1 : (b1.drop 1).drop (k - 1) = (b2.drop 1).drop (k - 1) := by rw [h]
  rw [List.drop_drop, List.drop_drop] at h1
  rwa [show 1 + (k - 1) = k from by omega] at h1

theorem beU16at_congr {b1 b2 : List Byte} (h : b1.drop 1 = b2.drop 1)
    {i : Nat} (hi : 1 ≤ i) : beU16at b1 i = beU16at b2 i := by
  unfold beU16at beU16v
  rw [byteAt_of_drop_one h hi, byteAt_of_drop_one h (by omega : 1 ≤ i + 1)]

theorem read_u16_checked_congr {b1 b2 : List Byte} (h : b1.drop 1 = b2.drop 1)
    (hl i : Nat) (hi : 1 ≤ i) :
    read_u16_checked b1 hl i = read_u16_checked b2 hl i := by
  unfold read_u16_checked
  rw [beU16at_congr h hi]

theorem read_u16_checked_ok_index {buf : List Byte} {hl i : Nat} {v i' : Nat}
    (h : read_u16_checked buf hl i = .ok (v, i')) : i' = i + 2 := by
  unfold read_u16_checked at h
  split at h
  · exact absurd h (by simp)
  · simp only [Except.ok.injEq, Prod.mk.injEq] at h
    exact h.2.symm

theorem read_str_checked_congr {b1 b2 : List Byte} (h : b1.drop 1 = b2.drop 1)
    (hl i : Nat) (hi : 1 ≤ i) :
    read_str_checked b1 hl i = read_str_checked b2 hl i := by
  unfold read_str_checked
  rw [read_u16_checked_congr h hl i hi]
  cases hkv : read_u16_checked b2 hl i with
  | error e => rfl
  | ok p =>
    obtain ⟨len, i1⟩ := p
    have hi1 : i1 = i + 2 := read_u16_checked_ok_index hkv
    dsimp only
    rw [drop_of_drop_one h (by omega : 1 ≤ i1)]

theorem read_str_checked_ok_index {buf : List Byte} {hl i : Nat}
    {v : List Byte} {i' : Nat}
    (h : read_str_checked buf hl i = .ok (v, i')) : i + 2 ≤ i' := by
  unfold read_str_checked at h
  cases hkv : read_u16_checked buf hl i with
  | error e => rw [hkv] at h; exact absurd h (by simp)
  | ok p =>
    obtain ⟨len, i1⟩ := p
    have hi1 : i1 = i + 2 := read_u16_checked_ok_index hkv
    rw [hkv] at h
    dsimp only at h
    split at h
    · exact absurd h (by simp)
    · simp only [Except.ok.injEq, Prod.mk.injEq] at h
      omega

theorem str_kv_loop_ok_index :
    ∀ (count : Nat) {buf : List Byte} {hl i : Nat} {hdr h' : TTHeaderS} {i' : Nat},
    str_kv_loop buf hl count i hdr = .ok (h', i') → i ≤ i'
  | 0, buf, hl, i, hdr, h', i', h => by
    simp only [str_kv_loop, Except.ok.injEq, Prod.mk.injEq] at h
    omega
  | c + 1, buf, hl, i, hdr, h', i', h => by
    simp only [str_kv_loop] at h
    cases h1 : read_str_checked buf hl i with
    | error e => rw [h1] at h; exact absurd h (by simp)
    | ok p =>
      obtain ⟨key, i1⟩ := p
      rw [h1] at h
      dsimp only at h
      cases h2 : read_str_checked buf hl i1 with
      | error e => rw [h2] at h; exact absurd h (by simp)
      | ok q =>
        obtain ⟨val, i2⟩ := q
        rw [h2] at h
        dsimp only at h
        have r1 := read_str_checked_ok_index h1
        have r2 := read_str_checked_ok_index h2
        have r3 := str_kv_loop_ok_index c h
        omega

theorem str_kv_loop_congr {b1 b2 : List Byte} (h : b1.drop 1 = b2.drop 1)
    (hl : Nat) :
    ∀ (count i : Nat) (hdr : TTHeaderS), 1 ≤ i →
    str_kv_loop b1 hl count i hdr = str_kv_loop b2 hl count i hdr
  | 0, i, hdr, _ => rfl
  | c + 1, i, hdr, hi => by
    simp only [str_kv_loop]
    rw [read_str_checked_congr h hl i hi]
    cases h1 : read_str_checked b2 hl i with
    | error e => rfl
    | ok p =>
      obtain ⟨key, i1⟩ := p
      have r1 := read_str_checked_ok_index h1
      dsimp only
      rw [read_str_checked_congr h hl i1 (by omega)]
      cases h2 : read_str_checked b2 hl i1 with
      | error e => rfl
      | ok q =>
        obtain ⟨val, i2⟩ := q
        have r2 := read_str_checked_ok_index h2
        dsimp only
        exact str_kv_loop_congr h hl c i2 _ (by omega)

theorem str_kv_loop_protocol :
    ∀ (count : Nat) {buf : List Byte} {hl i : Nat} {hdr h' : TTHeaderS} {i' : Nat},
    str_kv_loop buf hl count i hdr = .ok (h', i') →
    h'.protocol_id = hdr.protocol_id
  | 0, buf, hl, i, hdr, h', i', h => by
    simp only [str_kv_loop, Except.ok.injEq, Prod.mk.injEq] at h
    rw [← h.1]
  | c + 1, buf, hl, i, hdr, h', i', h => by
    simp only [str_kv_loop] at h
    cases h1 : read_str_checked buf hl i with
    | error e => rw [h1] at h; exact absurd h (by simp)
    | ok p =>
      obtain ⟨key, i1⟩ := p
      rw [h1] at h
      dsimp only at h
      cases h2 : read_str_checked buf hl i1 with
      | error e => rw [h2] at h; exact absurd h (by simp)
      | ok q =>
        obtain ⟨val, i2⟩ := q
        rw [h2] at h
        dsimp only at h
        exact (str_kv_loop_protocol c h).trans rfl

theorem int_kv_loop_ok_index :
    ∀ (count : Nat) {buf : List Byte} {hl i : Nat} {hdr h' : TTHeaderS} {i' : Nat},
    int_kv_loop buf hl count i hdr = .ok (h', i') → i ≤ i'
  | 0, buf, hl, i, hdr, h', i', h => by
    simp only [int_kv_loop, Except.ok.injEq, Prod.mk.injEq] at h
    omega
  | c + 1, buf, hl, i, hdr, h', i', h => by
    simp only [int_kv_loop] at h
    cases h1 : read_u16_checked buf hl i with
    | error e => rw [h1] at h; exact absurd h (by simp)
    | ok p =>
      obtain ⟨key, i1⟩ := p
      rw [h1] at h
      dsimp only at h
      cases h2 : read_str_checked buf hl i1 with
      | error e => rw [h2] at h; exact absurd h (by simp)
      | ok q =>
        obtain ⟨val, i2⟩ := q
        rw [h2] at h
        dsimp only at h
        have r1 := read_u16_checked_ok_index h1
        have r2 := read_str_checked_ok_index h2
        split at h
        · have r3 := int_kv_loop_ok_index c h
          omega
        · have r3 := int_kv_loop_ok_index c h
          omega

theorem int_kv_loop_congr {b1 b2 : List Byte} (h : b1.drop 1 = b2.drop 1)
    (hl : Nat) :
    ∀ (count i : Nat) (hdr : TTHeaderS), 1 ≤ i →
    int_kv_loop b1 hl count i hdr = int_kv_loop b2 hl count i hdr
  | 0, i, hdr, _ => rfl
  | c + 1, i, hdr, hi => by
    simp only [int_kv_loop]
    rw [read_u16_checked_congr h hl i hi]
    cases h1 : read_u16_checked b2 hl i with
    | error e => rfl
    | ok p =>
      obtain ⟨key, i1⟩ := p
      have r1 := read_u16_checked_ok_index h1
      dsimp only
      rw [read_str_checked_congr h hl i1 (by omega)]
      cases h2 : read_str_checked b2 hl i1 with
      | error e => rfl
      | ok q =>
        obtain ⟨val, i2⟩ := q
        have r2 := read_str_checked_ok_index h2
        dsimp only
        split
        · exact int_kv_loop_congr h hl c i2 _ (by omega)
        · exact int_kv_loop_congr h hl c i2 _ (by omega)

theorem int_kv_loop_protocol :
    ∀ (count : Nat) {buf : List Byte} {hl i : Nat} {hdr h' : TTHeaderS} {i' : Nat},
    int_kv_loop buf hl count i hdr = .ok (h', i') →
    h'.protocol_id = hdr.protocol_id
  | 0, buf, hl, i, hdr, h', i', h => by
    simp only [int_kv_loop, Except.ok.injEq, Prod.mk.injEq] at h
    rw [← h.1]
  | c + 1, buf, hl, i, hdr, h', i', h => by
    simp only [int_kv_loop] at h
    cases h1 : read_u16_checked buf hl i with
    | error e => rw [h1] at h; exact absurd h (by simp)
    | ok p =>
      obtain ⟨key, i1⟩ := p
      rw [h1] at h
      dsimp only at h
      cases h2 : read_str_checked buf hl i1 with
      | error e => rw [h2] at h; exact absurd h (by simp)
      | ok q =>
        obtain ⟨val, i2⟩ := q
        rw [h2] at h
        dsimp only at h
        split at h
        · exact (int_kv_loop_protocol c h).trans rfl
        · exact (int_kv_loop_protocol c h).trans rfl

theorem info_loop_congr {b1 b2 : List Byte} (h : b1.drop 1 = b2.drop 1)
    (hl : Nat) :
    ∀ (fuel index : Nat) (hdr : TTHeaderS), 1 ≤ index →
    info_loop b1 hl fuel index hdr = info_loop b2 hl fuel index hdr
  | 0, index, hdr, _ => rfl
  | fuel + 1, index, hdr, hi => by
    simp only [info_loop]
    by_cases hlt : index < hl
    · rw [if_pos hlt, if_pos hlt, byteAt_of_drop_one h hi]
      by_cases h0 : (byteAt b2 index).toNat = 0
      · rw [if_pos h0, if_pos h0]
        exact info_loop_congr h hl fuel (index + 1) hdr (by omega)
      · rw [if_neg h0, if_neg h0]
        by_cases hc1 : (byteAt b2 index).toNat = 1
        · rw [if_pos hc1, if_pos hc1,
            read_u16_checked_congr h hl (index + 1) (by omega)]
          cases h1 : read_u16_checked b2 hl (index + 1) with
          | error e => rfl
          | ok p =>
            obtain ⟨kv, i1⟩ := p
            have r1 := read_u16_checked_ok_index h1
            dsimp only
            by_cases hbig : kv > MAX_NUM_HEADERS
            · rw [if_pos hbig, if_pos hbig]
            · rw [if_neg hbig, if_neg hbig,
                str_kv_loop_congr h hl kv i1 hdr (by omega)]
              cases h2 : str_kv_loop b2 hl kv i1 hdr with
              | error e => rfl
              | ok q =>
                obtain ⟨hdr1, i2⟩ := q
                have r2 := str_kv_loop_ok_index kv h2
                dsimp only
                exact info_loop_congr h hl fuel i2 hdr1 (by omega)
        · rw [if_neg hc1, if_neg hc1]
          by_cases hc16 : (byteAt b2 index).toNat = 16
          · rw [if_pos hc16, if_pos hc16,
              read_u16_checked_congr h hl (index + 1) (by omega)]
            cases h1 : read_u16_checked b2 hl (index + 1) with
            | error e => rfl
            | ok p =>
              obtain ⟨kv, i1⟩ := p
              have r1 := read_u16_checked_ok_index h1
              dsimp only
              rw [int_kv_loop_congr h hl kv i1 hdr (by omega)]
              cases h2 : int_kv_loop b2 hl kv i1 hdr with
              | error e => rfl
              | ok q =>
                obtain ⟨hdr1, i2⟩ := q
                have r2 := int_kv_loop_ok_index kv h2
                dsimp only
                exact info_loop_congr h hl fuel i2 hdr1 (by omega)
          · rw [if_neg hc16, if_neg hc16]
            by_cases hc17 : (byteAt b2 index).toNat = 17
            · rw [if_pos hc17, if_pos hc17,
                read_str_checked_congr h hl (index + 1) (by omega)]
              cases h1 : read_str_checked b2 hl (index + 1) with
              | error e => rfl
              | ok p =>
                obtain ⟨tok, i1⟩ := p
                have r1 := read_str_checked_ok_index h1
                dsimp only
                exact info_loop_congr h hl fuel i1 _ (by omega)
            · rw [if_neg hc17, if_neg hc17]
    · rw [if_neg hlt, if_neg hlt]

theorem info_loop_protocol :
    ∀ (fuel : Nat) {buf : List Byte} {hl index : Nat} {hdr h' : TTHeaderS},
    info_loop buf hl fuel index hdr = some (.ok h') →
    h'.protocol_id = hdr.protocol_id
  | 0, buf, hl, index, hdr, h', h => by
    exact absurd h (by simp [info_loop])
  | fuel + 1, buf, hl, index, hdr, h', h => by
    simp only [info_loop] at h
    split at h
    case isFalse =>
      simp only [Option.some.injEq, Except.ok.injEq] at h
      rw [← h]
    case isTrue hlt =>
      split at h
      case isTrue h0 => exact info_loop_protocol fuel h
      case isFalse h0 =>
        split at h
        case isTrue hc1 =>
          cases h1 : read_u16_checked buf hl (index + 1) with
          | error e => rw [h1] at h; exact absurd h (by simp)
          | ok p =>
            obtain ⟨kv, i1⟩ := p
            rw [h1] at h
            dsimp only at h
            split at h
            · exact absurd h (by simp)
            · cases h2 : str_kv_loop buf hl kv i1 hdr with
              | error e => rw [h2] at h; exact absurd h (by simp)
              | ok q =>
                obtain ⟨hdr1, i2⟩ := q
                rw [h2] at h
                dsimp only at h
                exact (info_loop_protocol fuel h).trans
                  (str_kv_loop_protocol kv h2)
        case isFalse hc1 =>
          split at h
          case isTrue hc16 =>
            cases h1 : read_u16_checked buf hl (index + 1) with
            | error e => rw [h1] at h; exact absurd h (by simp)
            | ok p =>
              obtain ⟨kv, i1⟩ := p
              rw [h1] at h
              dsimp only at h
              cases h2 : int_kv_loop buf hl kv i1 hdr with
              | error e => rw [h2] at h; exact absurd h (by simp)
              | ok q =>
                obtain ⟨hdr1, i2⟩ := q
                rw [h2] at h
                dsimp only at h
                exact (info_loop_protocol fuel h).trans
                  (int_kv_loop_protocol kv h2)
          case isFalse hc16 =>
            split at h
            case isTrue hc17 =>
              cases h1 : read_str_checked buf hl (index + 1) with
              | error e => rw [h1] at h; exact absurd h (by simp)
              | ok p =>
                obtain ⟨tok, i1⟩ := p
                rw [h1] at h
                dsimp only at h
                exact (info_loop_protocol fuel h).trans rfl
            case isFalse hc17 =>
              exact absurd h (by simp)

theorem byteAt_set_ne (l : List Byte) (i : Nat) (a : Byte) (j : Nat)
    (h : i ≠ j) : byteAt (l.set i a) j = byteAt l j := by
  unfold byteAt
  rw [List.getD_eq_getElem?_getD, List.getD_eq_getElem?_getD,
    List.getElem?_set_ne h]

theorem byteAt_set_eq (l : List Byte) (i : Nat) (a : Byte)
    (h : i < l.length) : byteAt (l.set i a) i = a := by
  unfold byteAt
  rw [List.getD_eq_getElem?_getD, List.getElem?_set_self h]
  rfl

theorem drop_set_of_lt (l : List Byte) (i : Nat) (a : Byte) (n : Nat)
    (h : i < n) : (l.set i a).drop n = l.drop n := by
  apply List.ext_getElem?
  intro m
  rw [List.getElem?_drop, List.getElem?_drop, List.getElem?_set_ne (by omega)]

/-- Claim C10: when TTHeader header decoding reads a protocol_id byte
that is not one of 0, 2, 3, 4, it does not fail: the byte is consumed,
the decoded header keeps the default protocol Binary, and the rest of
the decode (transforms byte and info blocks) proceeds exactly as it
would with a recognized byte (replacing the byte by 0 leaves the whole
run unchanged). -/
theorem decode_header_unknown_protocol_id (total : Nat) (src : List Byte)
    (hpid : ProtocolId.fromByte (byteAt src 10) = none) :
    (∀ h rest, decode_header total src = some (.ok (h, rest)) →
      h.protocol_id = .Binary) ∧
    decode_header total src = decode_header total (src.set 10 0) := by
  have h8 : beU16at (src.set 10 0) 8 = beU16at src 8 := by
    simp only [beU16at, beU16v, byteAt_set_ne src 10 0 8 (by omega),
      byteAt_set_ne src 10 0 9 (by omega)]
  have h2 : beU16at (src.set 10 0) 2 = beU16at src 2 := by
    simp only [beU16at, beU16v, byteAt_set_ne src 10 0 2 (by omega),
      byteAt_set_ne src 10 0 3 (by omega)]
  have h4 : beU32at (src.set 10 0) 4 = beU32at src 4 := by
    simp only [beU32at, beU16at, beU16v, byteAt_set_ne src 10 0 4 (by omega),
      byteAt_set_ne src 10 0 5 (by omega), byteAt_set_ne src 10 0 6 (by omega),
      byteAt_set_ne src 10 0 7 (by omega)]
  have hlen : (src.set 10 0).length = src.length := List.length_set src 10 0
  constructor
  · intro hh rest h
    simp only [decode_header] at h
    split at h
    · exact absurd h (by simp)
    · rename_i hcond
      rw [not_or] at hcond
      have hs1 : 1 ≤ beU16at src 8 := by omega
      have hb0 : byteAt ((src.drop 10).take (beU16at src 8 * 4)) 0 =
          byteAt src 10 := by
        rw [byteAt_take _ _ _ (by omega), byteAt_drop]
      rw [hb0, hpid] at h
      simp only [Option.getD_none] at h
      cases hinfo : info_loop ((src.drop 10).take (beU16at src 8 * 4))
          (beU16at src 8 * 4) (beU16at src 8 * 4 + 1) 2
          { TTHeaderS.new with
              header_length := beU16at src 8 * 4,
              payload_length :=
                (total + 8589934592 - beU16at src 8 * 4 - 10) % 4294967296,
              seq_id := beU32at src 4, flags := beU16at src 2,
              protocol_id := ProtocolId.Binary } with
      | none => rw [hinfo] at h; exact absurd h (by simp)
      | some r =>
        cases r with
        | error e => rw [hinfo] at h; exact absurd h (by simp)
        | ok hdr1 =>
          rw [hinfo] at h
          dsimp only at h
          simp only [Option.some.injEq, Except.ok.injEq, Prod.mk.injEq] at h
          rw [← h.1]
          exact (info_loop_protocol _ hinfo).trans rfl
  · simp only [decode_header, h8, h2, h4, hlen]
    by_cases hcond : beU16at src 8 * 4 > src.length - 10 ∨ beU16at src 8 < 1
    · rw [if_pos hcond, if_pos hcond]
    · rw [if_neg hcond, if_neg hcond]
      rw [not_or] at hcond
      have hsrc : 14 ≤ src.length := by omega
      have hb1 : byteAt ((src.drop 10).take (beU16at src 8 * 4)) 0 =
          byteAt src 10 := by
        rw [byteAt_take _ _ _ (by omega), byteAt_drop]
      have hb2 : byteAt (((src.set 10 0).drop 10).take (beU16at src 8 * 4)) 0 =
          0 := by
        rw [byteAt_take _ _ _ (by omega), byteAt_drop,
          byteAt_set_eq src 10 0 (by omega)]
      rw [hb1, hb2, hpid]
      have hdreq : ((src.drop 10).take (beU16at src 8 * 4)).drop 1 =
          (((src.set 10 0).drop 10).take (beU16at src 8 * 4)).drop 1 := by
        rw [List.drop_take, List.drop_take, List.drop_drop, List.drop_drop,
          drop_set_of_lt src 10 0 (10 + 1) (by omega)]
      rw [info_loop_congr hdreq (beU16at src 8 * 4) (beU16at src 8 * 4 + 1) 2 _
        (by omega)]
      rw [drop_set_of_lt src 10 0 (10 + beU16at src 8 * 4) (by omega)]
      rfl

/-- Witness for C10 at a concrete frame whose protocol byte is 9. -/
theorem decode_header_unknown_protocol_id_witness :
    decode_header 14 [0x10, 0, 0, 0, 0, 0, 0, 42, 0, 1, 9, 0, 0, 0] =
      some (.ok ({ TTHeaderS.new with
        header_length := 4, payload_length := 0, seq_id := 42,
        protocol_id := .Binary }, [])) ∧
    decode_header 14 [0x10, 0, 0, 0, 0, 0, 0, 42, 0, 1, 9, 0, 0, 0] =
      decode_header 14 ([0x10, 0, 0, 0, 0, 0, 0, 42, 0, 1, 9, 0, 0, 0].set 10 0) := by
  constructor
  · rfl
  · exact (decode_header_unknown_protocol_id 14
      [0x10, 0, 0, 0, 0, 0, 0, 42, 0, 1, 9, 0, 0, 0] (by rfl)).2

/-! ## C5: TTHeader decoder bounds -/

/-- Claim C5: for every buffer of at least 14 bytes: a magic other than
0x1000 is rejected with an error; with matching magic but fewer buffered
bytes than the declared header size (4-byte units times 4) plus 14 the
decoder returns insufficient-at-least of that amount; and during header
decoding a declared header string length over 4096, a string-KV count
over 1024, an unknown info tag, or a header size of zero each fail with
an InvalidData error. -/
theorem ttheader_decode_bounds :
    (∀ src : List Byte, 14 ≤ src.length →
      ¬(byteAt src 4 = 0x10 ∧ byteAt src 5 = 0x00) →
      ttheader_decode src = some (.error ⟨.other, "illegal ttheader"⟩)) ∧
    (∀ src : List Byte, 14 ≤ src.length →
      byteAt src 4 = 0x10 → byteAt src 5 = 0x00 →
      src.length < beU16at src 12 * 4 + 14 →
      ttheader_decode src =
        some (.ok (.insufficientAtLeast (beU16at src 12 * 4 + 14)))) ∧
    (∀ src : List Byte, 14 ≤ src.length →
      byteAt src 4 = 0x10 → byteAt src 5 = 0x00 →
      beU16at src 12 = 0 →
      ttheader_decode src =
        some (.error ⟨.invalidData, "invalid header length"⟩)) ∧
    (∀ (buf : List Byte) (hl index : Nat), index + 2 ≤ hl →
      beU16at buf index > MAX_HEADER_STRING_LENGTH →
      read_str_checked buf hl index = .error ioInvalidData) ∧
    (∀ (buf : List Byte) (hl fuel index : Nat) (hdr : TTHeaderS),
      index < hl → (byteAt buf index).toNat = 1 →
      index + 3 ≤ hl → beU16at buf (index + 1) > MAX_NUM_HEADERS →
      ∃ e, info_loop buf hl (fuel + 1) index hdr = some (.error e) ∧
        e.kind = .invalidData) ∧
    (∀ (buf : List Byte) (hl fuel index : Nat) (hdr : TTHeaderS),
      index < hl →
      (byteAt buf index).toNat ≠ 0 → (byteAt buf index).toNat ≠ 1 →
      (byteAt buf index).toNat ≠ 16 → (byteAt buf index).toNat ≠ 17 →
      info_loop buf hl (fuel + 1) index hdr = some (.error ⟨.invalidData,
        "unexpected info id in ttheader: " ++
          toString (byteAt buf index).toNat⟩)) := by
  refine ⟨fun src h14 hmagic => ?_, fun src h14 hm4 hm5 hshort => ?_,
    fun src h14 hm4 hm5 hzero => ?_, fun buf hl index hle hbig => ?_,
    fun buf hl fuel index hdr hlt htag h3 hbig => ?_,
    fun buf hl fuel index hdr hlt hn0 hn1 hn16 hn17 => ?_⟩
  · simp only [ttheader_decode, MIN_HEADER_LENGTH]
    rw [if_neg (by omega), if_neg hmagic]
  · simp only [ttheader_decode, MIN_HEADER_LENGTH]
    rw [if_neg (by omega), if_pos ⟨hm4, hm5⟩, if_pos hshort]
  · simp only [ttheader_decode, MIN_HEADER_LENGTH]
    rw [if_neg (by omega), if_pos ⟨hm4, hm5⟩, if_neg (by omega)]
    have hhs : beU16at (src.drop 4) 8 = beU16at src 12 := by
      simp only [beU16at, beU16v, byteAt_drop]
    simp only [decode_header, hhs, hzero]
    rw [if_pos (by omega)]
  · simp only [read_str_checked, read_u16_checked]
    rw [if_neg (by omega)]
    dsimp only
    rw [if_pos (Or.inr hbig)]
  · simp only [info_loop]
    rw [if_pos hlt, if_neg (by omega : ¬ (byteAt buf index).toNat = 0),
      if_pos htag]
    have hu : read_u16_checked buf hl (index + 1) =
        .ok (beU16at buf (index + 1), index + 3) := by
      simp only [read_u16_checked]
      rw [if_neg (by omega)]
    rw [hu]
    dsimp only
    rw [if_pos hbig]
    exact ⟨_, rfl, rfl⟩
  · simp only [info_loop]
    rw [if_pos hlt, if_neg hn0, if_neg hn1, if_neg hn16, if_neg hn17]

/-- Witness for C5: each bound exercised at a concrete input. -/
theorem ttheader_decode_bounds_witness :
    ttheader_decode (List.replicate 14 0) =
      some (.error ⟨.other, "illegal ttheader"⟩) ∧
    ttheader_decode [0, 0, 0, 0, 0x10, 0, 0, 0, 0, 0, 0, 0, 0, 2] =
      some (.ok (.insufficientAtLeast 22)) ∧
    ttheader_decode [0, 0, 0, 0, 0x10, 0, 0, 0, 0, 0, 0, 0, 0, 0] =
      some (.error ⟨.invalidData, "invalid header length"⟩) ∧
    read_str_checked [0x13, 0x88] 2 0 = .error ioInvalidData ∧
    (∃ e, info_loop [1, 4, 1] 3 1 0 TTHeaderS.new = some (.error e) ∧
      e.kind = .invalidData) ∧
    info_loop [5] 1 1 0 TTHeaderS.new = some (.error ⟨.invalidData,
      "unexpected info id in ttheader: 5"⟩) := by
  refine ⟨?_, ?_, ?_, ?_, ?_, ?_⟩
  · exact ttheader_decode_bounds.1 (List.replicate 14 0) (by decide)
      (by decide)
  · have := ttheader_decode_bounds.2.1 [0, 0, 0, 0, 0x10, 0, 0, 0, 0, 0, 0, 0, 0, 2]
      (by decide) (by decide) (by decide) (by decide)
    exact this.trans (by rfl)
  · exact ttheader_decode_bounds.2.2.1 [0, 0, 0, 0, 0x10, 0, 0, 0, 0, 0, 0, 0, 0, 0]
      (by decide) (by decide) (by decide) (by rfl)
  · exact ttheader_decode_bounds.2.2.2.1 [0x13, 0x88] 2 0 (by decide) (by decide)
  · exact ttheader_decode_bounds.2.2.2.2.1 [1, 4, 1] 3 0 0 TTHeaderS.new
      (by decide) (by rfl) (by decide) (by decide)
  · have := ttheader_decode_bounds.2.2.2.2.2 [5] 1 0 0 TTHeaderS.new
      (by decide) (by decide) (by decide) (by decide) (by decide)
    exact this.trans (by rfl)

/-! ## Fuel monotonicity -/

theorem skip_loop_mono {buf : List Byte} :
    ∀ (fuel pos : Nat) (cur : SkipData) (stack : List SkipData)
      {r : Except CodecError Nat},
    skip_loop buf fuel pos cur stack = some r →
    skip_loop buf (fuel + 1) pos cur stack = some r := by
  intro fuel pos cur stack
  induction fuel, pos, cur, stack using skip_loop.induct buf
  all_goals intro r h
  all_goals simp only [skip_loop] at h ⊢
  all_goals try exact h
  all_goals try simp only [*, ne_eq, not_false_eq_true, not_true_eq_false,
    and_self, and_true, true_and, if_true, if_false] at h ⊢
  all_goals try exact h
  all_goals try exact absurd h (by simp)
  all_goals solve_by_elim

theorem skip_loop_mono_le {buf : List Byte} {f f' pos : Nat} {cur : SkipData}
    {stack : List SkipData} {r : Except CodecError Nat} (hle : f ≤ f')
    (h : skip_loop buf f pos cur stack = some r) :
    skip_loop buf f' pos cur stack = some r := by
  induction f', hle using Nat.le_induction with
  | base => exact h
  | succ n hn ih => exact skip_loop_mono n pos cur stack ih

theorem read_mono : ∀ fuel : Nat,
    (∀ {buf : List Byte} {pos : Nat} {t : TType} {r : Except CodecError Nat},
      read_value buf fuel pos t = some r →
      read_value buf (fuel + 1) pos t = some r) ∧
    (∀ {buf : List Byte} {m : Nat} {t0 t1 : TType} {pos : Nat}
      {r : Except CodecError Nat},
      read_coll buf fuel m t0 t1 pos = some r →
      read_coll buf (fuel + 1) m t0 t1 pos = some r) := by
  intro fuel
  induction fuel with
  | zero =>
    constructor
    · intro buf pos t r h
      exact absurd h (by simp [read_value])
    · intro buf m t0 t1 pos r h
      exact absurd h (by simp [read_coll])
  | succ fuel ih =>
    constructor
    · intro buf pos t r h
      set F := fuel + 1 with hF
      clear_value F
      rw [hF] at h
      cases t <;> simp only [read_value] at h ⊢ <;> try exact h
      · -- Struct
        cases hfb : read_field_begin buf pos with
        | error e => rw [hfb] at h; exact h
        | ok p =>
          obtain ⟨⟨ft, fid⟩, p1⟩ := p
          rw [hfb] at h
          dsimp only at h ⊢
          by_cases hft : ft = TType.Stop
          · rw [if_pos hft] at h ⊢
            exact h
          · rw [if_neg hft] at h ⊢
            cases hv : read_value buf fuel p1 ft with
            | none => rw [hv] at h; exact absurd h (by simp)
            | some q =>
              cases q with
              | error e => rw [hv] at h; rw [ih.1 hv]; exact h
              | ok p2 =>
                rw [hv] at h
                rw [ih.1 hv]
                dsimp only at h ⊢
                exact ih.1 h
      · -- Map
        cases hmb : read_map_begin buf pos with
        | error e => rw [hmb] at h; exact h
        | ok p =>
          obtain ⟨⟨kt, vt, n⟩, p1⟩ := p
          rw [hmb] at h
          dsimp only at h ⊢
          exact ih.2 h
      · -- Set
        cases hlb : read_set_begin buf pos with
        | error e => rw [hlb] at h; exact h
        | ok p =>
          obtain ⟨⟨et, n⟩, p1⟩ := p
          rw [hlb] at h
          dsimp only at h ⊢
          exact ih.2 h
      · -- List
        cases hlb : read_list_begin buf pos with
        | error e => rw [hlb] at h; exact h
        | ok p =>
          obtain ⟨⟨et, n⟩, p1⟩ := p
          rw [hlb] at h
          dsimp only at h ⊢
          exact ih.2 h
    · intro buf m t0 t1 pos r h
      set F := fuel + 1 with hF
      clear_value F
      rw [hF] at h
      simp only [read_coll] at h ⊢
      cases m with
      | zero => exact h
      | succ m =>
        dsimp only at h ⊢
        cases hv : read_value buf fuel pos (if (m + 1) % 2 = 0 then t0 else t1) with
        | none => rw [hv] at h; exact absurd h (by simp)
        | some q =>
          cases q with
          | error e => rw [hv] at h; rw [ih.1 hv]; exact h
          | ok p2 =>
            rw [hv] at h
            rw [ih.1 hv]
            dsimp only at h ⊢
            exact ih.2 h

theorem read_value_mono_le {buf : List Byte} {f f' pos : Nat} {t : TType}
    {r : Except CodecError Nat} (hle : f ≤ f')
    (h : read_value buf f pos t = some r) : read_value buf f' pos t = some r := by
  induction f', hle using Nat.le_induction with
  | base => exact h
  | succ n hn ih => exact (read_mono n).1 ih

/-! ## Single-step lemmas for the skip engine (existential-fuel form) -/

theorem skip_step_fixed {buf : List Byte} {pos : Nat} {stack : List SkipData}
    {r : Except CodecError Nat} (t : TType) (s : Nat) (ht : fixedTypeSize t = s)
    (hs : s ≠ 0) (hle : pos + s ≤ buf.length)
    (hcont : ∃ f, skip_pop buf f (pos + s) stack = some r) :
    ∃ f, skip_loop buf f pos (.other t) stack = some r := by
  obtain ⟨f, hf⟩ := hcont
  refine ⟨f + 1, ?_⟩
  simp only [skip_pop] at hf
  cases t <;> simp only [fixedTypeSize] at ht <;> subst ht <;> try omega
  all_goals simp only [skip_loop]
  all_goals rw [if_neg (by omega)]
  all_goals exact hf

theorem skip_step_binary {buf : List Byte} {pos n : Nat} {stack : List SkipData}
    {r : Except CodecError Nat} (hn : beU32at buf pos = n)
    (hlt : n < 2147483648) (hle : pos + 4 + n ≤ buf.length)
    (hcont : ∃ f, skip_pop buf f (pos + 4 + n) stack = some r) :
    ∃ f, skip_loop buf f pos (.other .Binary) stack = some r := by
  obtain ⟨f, hf⟩ := hcont
  refine ⟨f + 1, ?_⟩
  simp only [skip_pop] at hf
  simp only [skip_loop, hn]
  rw [show i32AsUsize n = n from if_pos hlt, if_neg (by omega),
    if_neg (by omega)]
  exact hf

theorem skip_step_struct_stop {buf : List Byte} {pos : Nat}
    {stack : List SkipData} {r : Except CodecError Nat}
    (hb : byteAt buf pos = 0) (hle : pos + 1 ≤ buf.length)
    (hcont : ∃ f, skip_pop buf f (pos + 1) stack = some r) :
    ∃ f, skip_loop buf f pos (.other .Struct) stack = some r := by
  obtain ⟨f, hf⟩ := hcont
  refine ⟨f + 1, ?_⟩
  simp only [skip_pop] at hf
  simp only [skip_loop, hb]
  rw [if_neg (by omega)]
  exact hf

theorem skip_step_struct_fast {buf : List Byte} {pos : Nat}
    {stack : List SkipData} {r : Except CodecError Nat} (ft : TType) (s : Nat)
    (hb : TType.fromByte (byteAt buf pos) = some ft)
    (ht : fixedTypeSize ft = s) (hs : s ≠ 0)
    (hle : pos + 1 + (2 + s) ≤ buf.length)
    (hcont : ∃ f, skip_loop buf f (pos + 1 + (2 + s)) (.other .Struct) stack = some r) :
    ∃ f, skip_loop buf f pos (.other .Struct) stack = some r := by
  obtain ⟨f, hf⟩ := hcont
  refine ⟨f + 1, ?_⟩
  simp only [skip_loop, hb]
  rw [if_neg (by omega)]
  rw [ht, if_pos hs, if_neg (by omega)]
  exact hf

theorem skip_step_struct_slow {buf : List Byte} {pos : Nat}
    {stack : List SkipData} {r : Except CodecError Nat} (ft : TType)
    (hb : TType.fromByte (byteAt buf pos) = some ft) (hstop : ft ≠ .Stop)
    (ht : fixedTypeSize ft = 0) (hle : pos + 3 ≤ buf.length)
    (hcont : ∃ f, skip_loop buf f (pos + 1 + 2) (.other ft)
      (.other .Struct :: stack) = some r) :
    ∃ f, skip_loop buf f pos (.other .Struct) stack = some r := by
  obtain ⟨f, hf⟩ := hcont
  refine ⟨f + 1, ?_⟩
  simp only [skip_loop, hb]
  rw [if_neg (by omega)]
  rw [ht]
  rw [if_neg (by simp)]
  cases ft
  case Stop => exact absurd rfl hstop
  all_goals rw [if_neg (by omega)]
  all_goals exact hf

theorem skip_step_list_fast {buf : List Byte} {pos n : Nat} (lt : TType)
    {stack : List SkipData} {r : Except CodecError Nat} (et : TType) (s : Nat)
    (hlt : lt = TType.List ∨ lt = TType.Set)
    (hb : TType.fromByte (byteAt buf pos) = some et)
    (ht : fixedTypeSize et = s) (hs : s ≠ 0) (hn : beU32at buf (pos + 1) = n)
    (hle : pos + 5 + n * s ≤ buf.length)
    (hcont : ∃ f, skip_pop buf f (pos + 5 + n * s) stack = some r) :
    ∃ f, skip_loop buf f pos (.other lt) stack = some r := by
  obtain ⟨f, hf⟩ := hcont
  refine ⟨f + 1, ?_⟩
  simp only [skip_pop] at hf
  rcases hlt with h | h <;> subst h <;> simp only [skip_loop, hb, hn, ht] <;>
    rw [if_neg (by omega), if_pos hs, if_neg (by omega)] <;> exact hf

theorem skip_step_list_slow {buf : List Byte} {pos n : Nat} (lt : TType)
    {stack : List SkipData} {r : Except CodecError Nat} (et : TType)
    (hlt : lt = TType.List ∨ lt = TType.Set)
    (hb : TType.fromByte (byteAt buf pos) = some et)
    (ht : fixedTypeSize et = 0) (hn : beU32at buf (pos + 1) = n)
    (hle : pos + 5 ≤ buf.length)
    (hcont : ∃ f, skip_loop buf f (pos + 5) (.collection n et et) stack = some r) :
    ∃ f, skip_loop buf f pos (.other lt) stack = some r := by
  obtain ⟨f, hf⟩ := hcont
  refine ⟨f + 1, ?_⟩
  rcases hlt with h | h <;> subst h <;> simp only [skip_loop, hb, hn, ht] <;>
    rw [if_neg (by omega), if_neg (by simp)] <;> exact hf

theorem skip_step_map_fast {buf : List Byte} {pos n : Nat}
    {stack : List SkipData} {r : Except CodecError Nat} (kt vt : TType)
    (s1 s2 : Nat)
    (hkb : TType.fromByte (byteAt buf pos) = some kt)
    (hvb : TType.fromByte (byteAt buf (pos + 1)) = some vt)
    (ht1 : fixedTypeSize kt = s1) (ht2 : fixedTypeSize vt = s2)
    (hs1 : s1 ≠ 0) (hs2 : s2 ≠ 0) (hn : beU32at buf (pos + 2) = n)
    (hle : pos + 6 + n * (s1 + s2) ≤ buf.length)
    (hcont : ∃ f, skip_pop buf f (pos + 6 + n * (s1 + s2)) stack = some r) :
    ∃ f, skip_loop buf f pos (.other .Map) stack = some r := by
  obtain ⟨f, hf⟩ := hcont
  refine ⟨f + 1, ?_⟩
  simp only [skip_pop] at hf
  simp only [skip_loop, hkb, hvb, hn, ht1, ht2]
  rw [if_neg (by omega), if_pos ⟨hs1, hs2⟩, if_neg (by omega)]
  exact hf

theorem skip_step_map_slow {buf : List Byte} {pos n : Nat}
    {stack : List SkipData} {r : Except CodecError Nat} (kt vt : TType)
    (hkb : TType.fromByte (byteAt buf pos) = some kt)
    (hvb : TType.fromByte (byteAt buf (pos + 1)) = some vt)
    (hnb : ¬(fixedTypeSize kt ≠ 0 ∧ fixedTypeSize vt ≠ 0))
    (hn : beU32at buf (pos + 2) = n) (hle : pos + 6 ≤ buf.length)
    (hcont : ∃ f, skip_loop buf f (pos + 6)
      (.collection (n * 2 % 4294967296) kt vt) stack = some r) :
    ∃ f, skip_loop buf f pos (.other .Map) stack = some r := by
  obtain ⟨f, hf⟩ := hcont
  refine ⟨f + 1, ?_⟩
  simp only [skip_loop, hkb, hvb, hn]
  rw [if_neg (by omega), if_neg hnb]
  exact hf

theorem skip_step_coll_zero {buf : List Byte} {pos : Nat} (t0 t1 : TType)
    {stack : List SkipData} {r : Except CodecError Nat}
    (hcont : ∃ f, skip_pop buf f pos stack = some r) :
    ∃ f, skip_loop buf f pos (.collection 0 t0 t1) stack = some r := by
  obtain ⟨f, hf⟩ := hcont
  refine ⟨f + 1, ?_⟩
  simp only [skip_pop] at hf
  simp only [skip_loop]
  exact hf

theorem skip_step_coll_succ {buf : List Byte} {pos n : Nat} (t0 t1 : TType)
    {stack : List SkipData} {r : Except CodecError Nat} (hn : n ≠ 0)
    (hcont : ∃ f, skip_loop buf f pos (.other (if n % 2 = 0 then t0 else t1))
      (.collection (n - 1) t0 t1 :: stack) = some r) :
    ∃ f, skip_loop buf f pos (.collection n t0 t1) stack = some r := by
  obtain ⟨f, hf⟩ := hcont
  refine ⟨f + 1, ?_⟩
  simp only [skip_loop]
  rw [if_neg hn]
  exact hf

/-! ## Encoding facts -/

theorem fromByte_toByte : ∀ t : TType, TType.fromByte t.toByte = some t := by
  intro t
  cases t <;> rfl

theorem ttype_ne_stop : ∀ v : TVal, v.ttype ≠ TType.Stop := by
  intro v
  cases v <;> simp [TVal.ttype]

theorem beU32at_be32 (n : Nat) : beU32at (be32 n) 0 = n % 4294967296 := by
  simpa using beU32at_be32_self n []

theorem beU16at_be16 (n : Nat) : beU16at (be16 n) 0 = n % 65536 := by
  simpa using beU16at_be16_self n []

theorem encode_fixed_length (v : TVal) (s : Nat) (hw : wfVal v = true)
    (ht : fixedTypeSize v.ttype = s) (hs : s ≠ 0) : (encodeVal v).length = s := by
  cases v <;> simp only [TVal.ttype, fixedTypeSize] at ht <;> try omega
  · rw [← ht]; rfl
  · rw [← ht]; rfl
  · rw [← ht]; simp [encodeVal, be16]
  · rw [← ht]; simp [encodeVal, be32]
  · rw [← ht]; simp [encodeVal, be64, be32]
  · rw [← ht]; simp [encodeVal, be64, be32]
  · rw [← ht]
    simp only [encodeVal]
    simpa [wfVal] using hw

theorem encodeVals_fixed_length : ∀ (es : TVals) (t : TType) (s : Nat),
    wfVals t es = true → fixedTypeSize t = s → s ≠ 0 →
    (encodeVals es).length = es.len * s
  | .nil, _, _, _, _, _ => by simp [encodeVals, TVals.len]
  | .cons v rest, t, s, hw, ht, hs => by
    simp only [wfVals, Bool.and_eq_true, decide_eq_true_eq] at hw
    obtain ⟨⟨hvt, hwv⟩, hwr⟩ := hw
    have h1 : (encodeVal v).length = s :=
      encode_fixed_length v s hwv (by rw [hvt]; exact ht) hs
    have h2 := encodeVals_fixed_length rest t s hwr ht hs
    simp only [encodeVals, List.length_append, h1, h2, TVals.len]
    ring

theorem encodePairs_fixed_length : ∀ (ps : TPairs) (kt vt : TType) (s1 s2 : Nat),
    wfPairs kt vt ps = true → fixedTypeSize kt = s1 → fixedTypeSize vt = s2 →
    s1 ≠ 0 → s2 ≠ 0 → (encodePairs ps).length = ps.len * (s1 + s2)
  | .nil, _, _, _, _, _, _, _, _, _ => by simp [encodePairs, TPairs.len]
  | .cons k v rest, kt, vt, s1, s2, hw, h1, h2, hs1, hs2 => by
    simp only [wfPairs, Bool.and_eq_true, decide_eq_true_eq] at hw
    obtain ⟨⟨⟨⟨hkt, hvt⟩, hwk⟩, hwv⟩, hwr⟩ := hw
    have e1 : (encodeVal k).length = s1 :=
      encode_fixed_length k s1 hwk (by rw [hkt]; exact h1) hs1
    have e2 : (encodeVal v).length = s2 :=
      encode_fixed_length v s2 hwv (by rw [hvt]; exact h2) hs2
    have e3 := encodePairs_fixed_length rest kt vt s1 s2 hwr h1 h2 hs1 hs2
    simp only [encodePairs, List.length_append, e1, e2, e3, TPairs.len]
    ring

mutual

theorem skipVal : ∀ (v : TVal) (buf : List Byte) (pos : Nat)
    (stack : List SkipData) (r : Except CodecError Nat) (q : Nat),
    wfVal v = true → segAt buf pos (encodeVal v) →
    q = pos + (encodeVal v).length →
    (∃ f, skip_pop buf f q stack = some r) →
    ∃ f, skip_loop buf f pos (.other v.ttype) stack = some r
  | .vBool b, buf, pos, stack, r, q, hw, hseg, hq, hcont => by
    subst hq
    exact skip_step_fixed _ 1 rfl (by decide) (by simpa using hseg.1) hcont
  | .vI8 n, buf, pos, stack, r, q, hw, hseg, hq, hcont => by
    subst hq
    exact skip_step_fixed _ 1 rfl (by decide) (by simpa using hseg.1) hcont
  | .vI16 n, buf, pos, stack, r, q, hw, hseg, hq, hcont => by
    subst hq
    exact skip_step_fixed _ 2 rfl (by decide)
      (by simpa [encodeVal, be16] using hseg.1)
      (by simpa [encodeVal, be16] using hcont)
  | .vI32 n, buf, pos, stack, r, q, hw, hseg, hq, hcont => by
    subst hq
    exact skip_step_fixed _ 4 rfl (by decide)
      (by simpa [encodeVal, be32] using hseg.1)
      (by simpa [encodeVal, be32] using hcont)
  | .vI64 n, buf, pos, stack, r, q, hw, hseg, hq, hcont => by
    subst hq
    exact skip_step_fixed _ 8 rfl (by decide)
      (by simpa [encodeVal, be64, be32] using hseg.1)
      (by simpa [encodeVal, be64, be32] using hcont)
  | .vDouble n, buf, pos, stack, r, q, hw, hseg, hq, hcont => by
    subst hq
    exact skip_step_fixed _ 8 rfl (by decide)
      (by simpa [encodeVal, be64, be32] using hseg.1)
      (by simpa [encodeVal, be64, be32] using hcont)
  | .vUuid bs, buf, pos, stack, r, q, hw, hseg, hq, hcont => by
    subst hq
    have h16 : bs.length = 16 := by simpa [wfVal] using hw
    exact skip_step_fixed _ 16 rfl (by decide)
      (by simpa [encodeVal, h16] using hseg.1)
      (by simpa [encodeVal, h16] using hcont)
  | .vBinary bs, buf, pos, stack, r, q, hw, hseg, hq, hcont => by
    subst hq
    have hlt : bs.length < 2147483648 := by simpa [wfVal] using hw
    have hsp := segAt_append.mp (by simpa [encodeVal] using hseg)
    have hcast : beU32at buf pos = bs.length := by
      rw [segAt_beU32at hsp.1 (by simp [be32_length]), beU32at_be32,
        Nat.mod_eq_of_lt (by omega)]
    have hlen : pos + (encodeVal (.vBinary bs)).length = pos + 4 + bs.length := by
      simp [encodeVal, be32_length]
      omega
    rw [hlen] at hcont
    refine skip_step_binary hcast hlt ?_ hcont
    have := hseg.1
    simp only [encodeVal, List.length_append, be32_length] at this
    omega
  | .vStruct fs, buf, pos, stack, r, q, hw, hseg, hq, hcont => by
    have hw' : wfFields fs = true := by simpa [wfVal] using hw
    refine skipFields fs buf pos stack r q hw' (by simpa [encodeVal] using hseg)
      ?_ hcont
    simp only [encodeVal, List.length_append] at hq
    simpa using hq
  | .vList t es, buf, pos, stack, r, q, hw, hseg, hq, hcont => by
    simp only [wfVal, Bool.and_eq_true, decide_eq_true_eq] at hw
    obtain ⟨hlt, hwe⟩ := hw
    have hshape : encodeVal (.vList t es) =
        [t.toByte] ++ (be32 es.len ++ encodeVals es) := by
      simp [encodeVal]
    rw [hshape] at hseg
    have hsp1 := segAt_append.mp hseg
    have hsp2 := segAt_append.mp hsp1.2
    simp only [List.length_singleton, be32_length] at hsp1 hsp2
    have hb : TType.fromByte (byteAt buf pos) = some t := by
      have h0 := segAt_byteAt hsp1.1 0 (by simp)
      simp only [Nat.add_zero] at h0
      rw [h0]
      exact fromByte_toByte t
    have hn : beU32at buf (pos + 1) = es.len := by
      rw [segAt_beU32at hsp2.1 (by simp [be32_length]), beU32at_be32,
        Nat.mod_eq_of_lt (by omega)]
    have hqlen : q = pos + 5 + (encodeVals es).length := by
      rw [hq, hshape]
      simp only [List.length_append, List.length_singleton, be32_length]
      omega
    have hsege : segAt buf (pos + 5) (encodeVals es) := by
      have := hsp2.2
      rwa [show pos + 1 + 4 = pos + 5 from by omega] at this
    by_cases hfix : fixedTypeSize t = 0
    · refine skip_step_list_slow _ t (Or.inl rfl) hb hfix hn ?_ ?_
      · have h1 := hsp2.1.1
        have hbl := be32_length es.len
        omega
      · exact skipVals es t buf (pos + 5) stack r q hwe hsege hqlen hcont
    · have hsz := encodeVals_fixed_length es t (fixedTypeSize t) hwe rfl hfix
      refine skip_step_list_fast _ t (fixedTypeSize t) (Or.inl rfl) hb rfl hfix hn ?_ ?_
      · rw [← hsz]
        exact hsege.1
      · rw [← hsz, ← hqlen]
        exact hcont
  | .vSet t es, buf, pos, stack, r, q, hw, hseg, hq, hcont => by
    simp only [wfVal, Bool.and_eq_true, decide_eq_true_eq] at hw
    obtain ⟨hlt, hwe⟩ := hw
    have hshape : encodeVal (.vSet t es) =
        [t.toByte] ++ (be32 es.len ++ encodeVals es) := by
      simp [encodeVal]
    rw [hshape] at hseg
    have hsp1 := segAt_append.mp hseg
    have hsp2 := segAt_append.mp hsp1.2
    simp only [List.length_singleton, be32_length] at hsp1 hsp2
    have hb : TType.fromByte (byteAt buf pos) = some t := by
      have h0 := segAt_byteAt hsp1.1 0 (by simp)
      simp only [Nat.add_zero] at h0
      rw [h0]
      exact fromByte_toByte t
    have hn : beU32at buf (pos + 1) = es.len := by
      rw [segAt_beU32at hsp2.1 (by simp [be32_length]), beU32at_be32,
        Nat.mod_eq_of_lt (by omega)]
    have hqlen : q = pos + 5 + (encodeVals es).length := by
      rw [hq, hshape]
      simp only [List.length_append, List.length_singleton, be32_length]
      omega
    have hsege : segAt buf (pos + 5) (encodeVals es) := by
      have := hsp2.2
      rwa [show pos + 1 + 4 = pos + 5 from by omega] at this
    by_cases hfix : fixedTypeSize t = 0
    · refine skip_step_list_slow _ t (Or.inr rfl) hb hfix hn ?_ ?_
      · have h1 := hsp2.1.1
        have hbl := be32_length es.len
        omega
      · exact skipVals es t buf (pos + 5) stack r q hwe hsege hqlen hcont
    · have hsz := encodeVals_fixed_length es t (fixedTypeSize t) hwe rfl hfix
      refine skip_step_list_fast _ t (fixedTypeSize t) (Or.inr rfl) hb rfl hfix hn ?_ ?_
      · rw [← hsz]
        exact hsege.1
      · rw [← hsz, ← hqlen]
        exact hcont
  | .vMap kt vt ps, buf, pos, stack, r, q, hw, hseg, hq, hcont => by
    simp only [wfVal, Bool.and_eq_true, decide_eq_true_eq] at hw
    obtain ⟨hlt, hwp⟩ := hw
    have hshape : encodeVal (.vMap kt vt ps) =
        [kt.toByte] ++ ([vt.toByte] ++ (be32 ps.len ++ encodePairs ps)) := by
      simp [encodeVal]
    rw [hshape] at hseg
    have hsp1 := segAt_append.mp hseg
    have hsp2 := segAt_append.mp hsp1.2
    have hsp3 := segAt_append.mp hsp2.2
    simp only [List.length_singleton, be32_length] at hsp1 hsp2 hsp3
    have hkb : TType.fromByte (byteAt buf pos) = some kt := by
      have h0 := segAt_byteAt hsp1.1 0 (by simp)
      simp only [Nat.add_zero] at h0
      rw [h0]
      exact fromByte_toByte kt
    have hvb : TType.fromByte (byteAt buf (pos + 1)) = some vt := by
      have h0 := segAt_byteAt hsp2.1 0 (by simp)
      simp only [Nat.add_zero] at h0
      rw [h0]
      exact fromByte_toByte vt
    have hsegn : segAt buf (pos + 2) (be32 ps.len) := by
      have := hsp3.1
      rwa [show pos + 1 + 1 = pos + 2 from by omega] at this
    have hn : beU32at buf (pos + 2) = ps.len := by
      rw [segAt_beU32at hsegn (by simp [be32_length]), beU32at_be32,
        Nat.mod_eq_of_lt (by omega)]
    have hqlen : q = pos + 6 + (encodePairs ps).length := by
      rw [hq, hshape]
      simp only [List.length_append, List.length_singleton, be32_length]
      omega
    have hsegp : segAt buf (pos + 6) (encodePairs ps) := by
      have := hsp3.2
      rwa [show pos + 1 + 1 + 4 = pos + 6 from by omega] at this
    by_cases hboth : fixedTypeSize kt ≠ 0 ∧ fixedTypeSize vt ≠ 0
    · have hsz := encodePairs_fixed_length ps kt vt (fixedTypeSize kt)
        (fixedTypeSize vt) hwp rfl rfl hboth.1 hboth.2
      refine skip_step_map_fast kt vt (fixedTypeSize kt) (fixedTypeSize vt)
        hkb hvb rfl rfl hboth.1 hboth.2 hn ?_ ?_
      · rw [← hsz]
        exact hsegp.1
      · rw [← hsz, ← hqlen]
        exact hcont
    · refine skip_step_map_slow kt vt hkb hvb hboth hn ?_ ?_
      · have h1 := hsegn.1
        have hbl := be32_length ps.len
        omega
      · have hmod : ps.len * 2 % 4294967296 = 2 * ps.len := by omega
        rw [hmod]
        exact skipPairs ps kt vt buf (pos + 6) stack r q hwp hsegp hqlen hcont

theorem skipFields : ∀ (fs : TFields) (buf : List Byte) (pos : Nat)
    (stack : List SkipData) (r : Except CodecError Nat) (q : Nat),
    wfFields fs = true → segAt buf pos (encodeFields fs ++ [0]) →
    q = pos + (encodeFields fs).length + 1 →
    (∃ f, skip_pop buf f q stack = some r) →
    ∃ f, skip_loop buf f pos (.other .Struct) stack = some r
  | .nil, buf, pos, stack, r, q, hw, hseg, hq, hcont => by
    subst hq
    refine skip_step_struct_stop ?_ (by simpa [encodeFields] using hseg.1)
      (by simpa [encodeFields] using hcont)
    have := segAt_byteAt (by simpa [encodeFields] using hseg) 0
      (by simp)
    simpa using this
  | .cons fid v rest, buf, pos, stack, r, q, hw, hseg, hq, hcont => by
    simp only [wfFields, Bool.and_eq_true, decide_eq_true_eq] at hw
    obtain ⟨⟨hid, hwv⟩, hwr⟩ := hw
    have hshape : encodeFields (.cons fid v rest) ++ [0] =
        [v.ttype.toByte] ++ (be16 fid ++ (encodeVal v ++ (encodeFields rest ++ [0]))) := by
      simp [encodeFields]
    rw [hshape] at hseg
    have hsp1 := segAt_append.mp hseg
    have hsp2 := segAt_append.mp hsp1.2
    have hsp3 := segAt_append.mp hsp2.2
    simp only [List.length_singleton, be16_length] at hsp1 hsp2 hsp3
    have hb : TType.fromByte (byteAt buf pos) = some v.ttype := by
      have h0 := segAt_byteAt hsp1.1 0 (by simp)
      simp only [Nat.add_zero] at h0
      rw [h0]
      exact fromByte_toByte v.ttype
    have hqlen : q = pos + 3 + (encodeVal v).length +
        (encodeFields rest).length + 1 := by
      simp only [encodeFields, List.length_cons, List.length_append,
        be16_length] at hq
      omega
    have hsegv : segAt buf (pos + 3) (encodeVal v) := by
      have := hsp3.1
      rwa [show pos + 1 + 2 = pos + 3 from by omega] at this
    have hsegr : segAt buf (pos + 3 + (encodeVal v).length)
        (encodeFields rest ++ [0]) := by
      have := hsp3.2
      rwa [show pos + 1 + 2 + (encodeVal v).length =
        pos + 3 + (encodeVal v).length from by omega] at this
    have hrest : ∀ pp : Nat, pp = pos + 3 + (encodeVal v).length →
        ∃ f, skip_loop buf f pp (.other .Struct) stack = some r := by
      intro pp hpp
      subst hpp
      exact skipFields rest buf _ stack r q hwr hsegr (by omega) hcont
    by_cases hfix : fixedTypeSize v.ttype = 0
    · refine skip_step_struct_slow v.ttype hb (ttype_ne_stop v) hfix ?_ ?_
      · have h1 := hsp2.1.1
        have hbl := be16_length fid
        omega
      · refine skipVal v buf (pos + 1 + 2) (.other .Struct :: stack) r
          (pos + 3 + (encodeVal v).length) hwv ?_ (by omega) ?_
        · rwa [show pos + 1 + 2 = pos + 3 from by omega]
        · obtain ⟨f, hf⟩ := hrest (pos + 3 + (encodeVal v).length) rfl
          exact ⟨f, hf⟩
    · have hs : (encodeVal v).length = fixedTypeSize v.ttype :=
        encode_fixed_length v _ hwv rfl hfix
      refine skip_step_struct_fast v.ttype (fixedTypeSize v.ttype) hb rfl hfix
        ?_ ?_
      · have := hsegv.1
        omega
      · refine hrest (pos + 1 + (2 + fixedTypeSize v.ttype)) (by omega)
theorem skipVals : ∀ (es : TVals) (t : TType) (buf : List Byte) (pos : Nat)
    (stack : List SkipData) (r : Except CodecError Nat) (q : Nat),
    wfVals t es = true → segAt buf pos (encodeVals es) →
    q = pos + (encodeVals es).length →
    (∃ f, skip_pop buf f q stack = some r) →
    ∃ f, skip_loop buf f pos (.collection es.len t t) stack = some r
  | .nil, t, buf, pos, stack, r, q, hw, hseg, hq, hcont => by
    subst hq
    exact skip_step_coll_zero t t (by simpa [encodeVals] using hcont)
  | .cons v rest, t, buf, pos, stack, r, q, hw, hseg, hq, hcont => by
    simp only [wfVals, Bool.and_eq_true, decide_eq_true_eq] at hw
    obtain ⟨⟨hvt, hwv⟩, hwr⟩ := hw
    have hsp := segAt_append.mp (by simpa [encodeVals] using hseg)
    have hcnt : (TVals.cons v rest).len = rest.len + 1 := rfl
    rw [hcnt]
    refine skip_step_coll_succ t t (by omega) ?_
    rw [ite_self, Nat.add_sub_cancel]
    have hgoal : ∃ f, skip_loop buf f pos (.other v.ttype)
        (.collection rest.len t t :: stack) = some r := by
      refine skipVal v buf pos (.collection rest.len t t :: stack) r
        (pos + (encodeVal v).length) hwv hsp.1 rfl ?_
      have hrest := skipVals rest t buf (pos + (encodeVal v).length) stack r q
        hwr hsp.2 (by simp only [encodeVals, List.length_append] at hq; omega)
        hcont
      obtain ⟨f, hf⟩ := hrest
      exact ⟨f, hf⟩
    rwa [hvt] at hgoal

theorem skipPairs : ∀ (ps : TPairs) (kt vt : TType) (buf : List Byte)
    (pos : Nat) (stack : List SkipData) (r : Except CodecError Nat) (q : Nat),
    wfPairs kt vt ps = true → segAt buf pos (encodePairs ps) →
    q = pos + (encodePairs ps).length →
    (∃ f, skip_pop buf f q stack = some r) →
    ∃ f, skip_loop buf f pos (.collection (2 * ps.len) kt vt) stack = some r
  | .nil, kt, vt, buf, pos, stack, r, q, hw, hseg, hq, hcont => by
    subst hq
    have h0 : 2 * TPairs.len .nil = 0 := rfl
    rw [h0]
    exact skip_step_coll_zero kt vt (by simpa [encodePairs] using hcont)
  | .cons k v rest, kt, vt, buf, pos, stack, r, q, hw, hseg, hq, hcont => by
    simp only [wfPairs, Bool.and_eq_true, decide_eq_true_eq] at hw
    obtain ⟨⟨⟨⟨hkt, hvt⟩, hwk⟩, hwv⟩, hwr⟩ := hw
    have hshape : encodePairs (.cons k v rest) =
        encodeVal k ++ (encodeVal v ++ encodePairs rest) := by
      simp [encodePairs]
    rw [hshape] at hseg
    have hsp1 := segAt_append.mp hseg
    have hsp2 := segAt_append.mp hsp1.2
    have hqlen : q = pos + (encodeVal k).length + (encodeVal v).length +
        (encodePairs rest).length := by
      rw [hq, hshape]
      simp only [List.length_append]
      omega
    have hrest : ∃ f, skip_loop buf f
        (pos + (encodeVal k).length + (encodeVal v).length)
        (.collection (2 * rest.len) kt vt) stack = some r :=
      skipPairs rest kt vt buf _ stack r q hwr hsp2.2 hqlen hcont
    have hmid : ∃ f, skip_loop buf f (pos + (encodeVal k).length)
        (.other v.ttype) (.collection (2 * rest.len) kt vt :: stack) = some r := by
      refine skipVal v buf _ _ r
        (pos + (encodeVal k).length + (encodeVal v).length) hwv hsp2.1 rfl ?_
      obtain ⟨f, hf⟩ := hrest
      exact ⟨f, hf⟩
    have hfirst : ∃ f, skip_loop buf f pos (.other k.ttype)
        (.collection (2 * rest.len + 1) kt vt :: stack) = some r := by
      refine skipVal k buf pos _ r (pos + (encodeVal k).length) hwk hsp1.1 rfl ?_
      have hstep : ∃ f, skip_loop buf f (pos + (encodeVal k).length)
          (.collection (2 * rest.len + 1) kt vt) stack = some r := by
        refine skip_step_coll_succ kt vt (by omega) ?_
        rw [if_neg (by omega), Nat.add_sub_cancel]
        rwa [hvt] at hmid
      obtain ⟨f, hf⟩ := hstep
      exact ⟨f, hf⟩
    have hlen2 : 2 * (TPairs.cons k v rest).len = 2 * rest.len + 2 := by
      simp only [TPairs.len]
      omega
    rw [hlen2]
    refine skip_step_coll_succ kt vt (by omega) ?_
    rw [if_pos (by omega), show 2 * rest.len + 2 - 1 = 2 * rest.len + 1
      from by omega]
    rwa [hkt] at hfirst

end

theorem read_coll_mono_le {buf : List Byte} {f f' m : Nat} {t0 t1 : TType}
    {pos : Nat} {r : Except CodecError Nat} (hle : f ≤ f')
    (h : read_coll buf f m t0 t1 pos = some r) :
    read_coll buf f' m t0 t1 pos = some r := by
  induction f', hle using Nat.le_induction with
  | base => exact h
  | succ n hn ih => exact (read_mono n).2 ih

theorem read_field_begin_nonstop {buf : List Byte} {pos : Nat} {t : TType}
    (hb : byteAt buf pos = t.toByte) (hb1 : pos + 1 ≤ buf.length)
    (hstop : t ≠ .Stop) (hb2 : pos + 1 + 2 ≤ buf.length) :
    read_field_begin buf pos = .ok ((t, beU16at buf (pos + 1)), pos + 1 + 2) := by
  cases t <;> try (exact absurd rfl hstop)
  all_goals simp [read_field_begin, read_byte, hb1, hb, TType.fromByte,
    TType.toByte, read_i16, hb2]

mutual

theorem readVal : ∀ (v : TVal) (buf : List Byte) (pos : Nat),
    wfVal v = true → segAt buf pos (encodeVal v) →
    ∃ f, read_value buf f pos v.ttype =
      some (.ok (pos + (encodeVal v).length))
  | .vBool b, buf, pos, hw, hseg => by
    refine ⟨1, ?_⟩
    have hle : pos + 1 ≤ buf.length := by
      have h1 := hseg.1
      simpa [encodeVal] using h1
    simp [TVal.ttype, read_value, read_bool, read_i8, read_byte, hle, encodeVal]
  | .vI8 n, buf, pos, hw, hseg => by
    refine ⟨1, ?_⟩
    have hle : pos + 1 ≤ buf.length := by
      have h1 := hseg.1
      simpa [encodeVal] using h1
    simp [TVal.ttype, read_value, read_i8, read_byte, hle, encodeVal]
  | .vI16 n, buf, pos, hw, hseg => by
    refine ⟨1, ?_⟩
    have hlen : (encodeVal (.vI16 n)).length = 2 := be16_length n
    have hle : pos + 2 ≤ buf.length := by
      have h1 := hseg.1
      rw [hlen] at h1
      exact h1
    rw [hlen]
    simp [TVal.ttype, read_value, read_i16, hle]
  | .vI32 n, buf, pos, hw, hseg => by
    refine ⟨1, ?_⟩
    have hlen : (encodeVal (.vI32 n)).length = 4 := be32_length n
    have hle : pos + 4 ≤ buf.length := by
      have h1 := hseg.1
      rw [hlen] at h1
      exact h1
    rw [hlen]
    simp [TVal.ttype, read_value, read_i32, hle]
  | .vI64 n, buf, pos, hw, hseg => by
    refine ⟨1, ?_⟩
    have hlen : (encodeVal (.vI64 n)).length = 8 := be64_length n
    have hle : pos + 8 ≤ buf.length := by
      have h1 := hseg.1
      rw [hlen] at h1
      exact h1
    rw [hlen]
    simp [TVal.ttype, read_value, read_i64, hle]
  | .vDouble bits, buf, pos, hw, hseg => by
    refine ⟨1, ?_⟩
    have hlen : (encodeVal (.vDouble bits)).length = 8 := be64_length bits
    have hle : pos + 8 ≤ buf.length := by
      have h1 := hseg.1
      rw [hlen] at h1
      exact h1
    rw [hlen]
    simp [TVal.ttype, read_value, read_double, read_i64, hle]
  | .vUuid bs, buf, pos, hw, hseg => by
    refine ⟨1, ?_⟩
    have h16 : bs.length = 16 := by simpa [wfVal] using hw
    have hlen : (encodeVal (.vUuid bs)).length = 16 := by
      simpa [encodeVal] using h16
    have hle : pos + 16 ≤ buf.length := by
      have h1 := hseg.1
      rw [hlen] at h1
      exact h1
    rw [hlen]
    simp [TVal.ttype, read_value, read_uuid, hle]
  | .vBinary bs, buf, pos, hw, hseg => by
    refine ⟨1, ?_⟩
    have hlt : bs.length < 2147483648 := by simpa [wfVal] using hw
    have hsp := segAt_append.mp (by simpa [encodeVal] using hseg)
    have hcast : beU32at buf pos = bs.length := by
      rw [segAt_beU32at hsp.1 (by simp [be32_length]), beU32at_be32,
        Nat.mod_eq_of_lt (by omega)]
    have hlen : (encodeVal (.vBinary bs)).length = 4 + bs.length := by
      simp [encodeVal, be32_length]
    have hle4 : pos + 4 ≤ buf.length := by
      have h1 := hseg.1
      rw [hlen] at h1
      omega
    have hng : ¬ (pos + 4 + bs.length > buf.length) := by
      have h1 := hseg.1
      rw [hlen] at h1
      omega
    rw [show pos + (encodeVal (.vBinary bs)).length = pos + 4 + bs.length
      from by rw [hlen]; omega]
    simp [TVal.ttype, read_value, read_bytes, read_i32, hle4, hcast,
      i32AsUsize, hlt, hng]
  | .vStruct fs, buf, pos, hw, hseg => by
    have hw' : wfFields fs = true := by simpa [wfVal] using hw
    have hseg' : segAt buf pos (encodeFields fs ++ [0]) := by
      simpa [encodeVal] using hseg
    obtain ⟨f, hf⟩ := readFields fs buf pos hw' hseg'
    refine ⟨f, ?_⟩
    rw [show pos + (encodeVal (.vStruct fs)).length =
      pos + (encodeFields fs).length + 1 from by
        simp only [encodeVal, List.length_append, List.length_singleton]
        omega]
    exact hf
  | .vList t es, buf, pos, hw, hseg => by
    simp only [wfVal, Bool.and_eq_true, decide_eq_true_eq] at hw
    obtain ⟨hlt, hwe⟩ := hw
    have hshape : encodeVal (.vList t es) =
        [t.toByte] ++ (be32 es.len ++ encodeVals es) := by
      simp [encodeVal]
    rw [hshape] at hseg
    have hsp1 := segAt_append.mp hseg
    have hsp2 := segAt_append.mp hsp1.2
    simp only [List.length_singleton, be32_length] at hsp1 hsp2
    have hb : byteAt buf pos = t.toByte := by
      have h0 := segAt_byteAt hsp1.1 0 (by simp)
      simpa using h0
    have hn : beU32at buf (pos + 1) = es.len := by
      rw [segAt_beU32at hsp2.1 (by simp [be32_length]), beU32at_be32,
        Nat.mod_eq_of_lt (by omega)]
    have hb1 : pos + 1 ≤ buf.length := by
      have h1 := hsp1.1.1
      simpa using h1
    have hb4 : pos + 1 + 4 ≤ buf.length := by
      have h1 := hsp2.1.1
      have hbl := be32_length es.len
      omega
    have hlb : read_list_begin buf pos = .ok ((t, es.len), pos + 1 + 4) := by
      simp [read_list_begin, read_byte, hb1, hb, fromByte_toByte, read_i32,
        hb4, hn, i32AsUsize, hlt]
    obtain ⟨f0, hf0⟩ := readVals es t buf (pos + 1 + 4) hwe hsp2.2
    refine ⟨f0 + 1, ?_⟩
    rw [show pos + (encodeVal (.vList t es)).length =
      pos + 1 + 4 + (encodeVals es).length from by
        rw [hshape]
        simp only [List.length_append, List.length_singleton, be32_length]
        omega]
    simp only [TVal.ttype, read_value]
    rw [hlb]
    exact hf0
  | .vSet t es, buf, pos, hw, hseg => by
    simp only [wfVal, Bool.and_eq_true, decide_eq_true_eq] at hw
    obtain ⟨hlt, hwe⟩ := hw
    have hshape : encodeVal (.vSet t es) =
        [t.toByte] ++ (be32 es.len ++ encodeVals es) := by
      simp [encodeVal]
    rw [hshape] at hseg
    have hsp1 := segAt_append.mp hseg
    have hsp2 := segAt_append.mp hsp1.2
    simp only [List.length_singleton, be32_length] at hsp1 hsp2
    have hb : byteAt buf pos = t.toByte := by
      have h0 := segAt_byteAt hsp1.1 0 (by simp)
      simpa using h0
    have hn : beU32at buf (pos + 1) = es.len := by
      rw [segAt_beU32at hsp2.1 (by simp [be32_length]), beU32at_be32,
        Nat.mod_eq_of_lt (by omega)]
    have hb1 : pos + 1 ≤ buf.length := by
      have h1 := hsp1.1.1
      simpa using h1
    have hb4 : pos + 1 + 4 ≤ buf.length := by
      have h1 := hsp2.1.1
      have hbl := be32_length es.len
      omega
    have hlb : read_set_begin buf pos = .ok ((t, es.len), pos + 1 + 4) := by
      simp [read_set_begin, read_list_begin, read_byte, hb1, hb,
        fromByte_toByte, read_i32, hb4, hn, i32AsUsize, hlt]
    obtain ⟨f0, hf0⟩ := readVals es t buf (pos + 1 + 4) hwe hsp2.2
    refine ⟨f0 + 1, ?_⟩
    rw [show pos + (encodeVal (.vSet t es)).length =
      pos + 1 + 4 + (encodeVals es).length from by
        rw [hshape]
        simp only [List.length_append, List.length_singleton, be32_length]
        omega]
    simp only [TVal.ttype, read_value]
    rw [hlb]
    exact hf0
  | .vMap kt vt ps, buf, pos, hw, hseg => by
    simp only [wfVal, Bool.and_eq_true, decide_eq_true_eq] at hw
    obtain ⟨hlt, hwp⟩ := hw
    have hshape : encodeVal (.vMap kt vt ps) =
        [kt.toByte] ++ ([vt.toByte] ++ (be32 ps.len ++ encodePairs ps)) := by
      simp [encodeVal]
    rw [hshape] at hseg
    have hsp1 := segAt_append.mp hseg
    have hsp2 := segAt_append.mp hsp1.2
    have hsp3 := segAt_append.mp hsp2.2
    simp only [List.length_singleton, be32_length] at hsp1 hsp2 hsp3
    have hkb : byteAt buf pos = kt.toByte := by
      have h0 := segAt_byteAt hsp1.1 0 (by simp)
      simpa using h0
    have hvb : byteAt buf (pos + 1) = vt.toByte := by
      have h0 := segAt_byteAt hsp2.1 0 (by simp)
      simpa using h0
    have hn : beU32at buf (pos + 1 + 1) = ps.len := by
      rw [segAt_beU32at hsp3.1 (by simp [be32_length]), beU32at_be32,
        Nat.mod_eq_of_lt (by omega)]
    have hb1 : pos + 1 ≤ buf.length := by
      have h1 := hsp1.1.1
      simpa using h1
    have hb2 : pos + 1 + 1 ≤ buf.length := by
      have h1 := hsp2.1.1
      simpa using h1
    have hb4 : pos + 1 + 1 + 4 ≤ buf.length := by
      have h1 := hsp3.1.1
      have hbl := be32_length ps.len
      omega
    have hmb : read_map_begin buf pos =
        .ok ((kt, vt, ps.len), pos + 1 + 1 + 4) := by
      simp [read_map_begin, read_byte, hb1, hb2, hkb, hvb, fromByte_toByte,
        read_i32, hb4, hn, i32AsUsize, hlt]
    obtain ⟨f0, hf0⟩ := readPairs ps kt vt buf (pos + 1 + 1 + 4) hwp hsp3.2
    refine ⟨f0 + 1, ?_⟩
    rw [show pos + (encodeVal (.vMap kt vt ps)).length =
      pos + 1 + 1 + 4 + (encodePairs ps).length from by
        rw [hshape]
        simp only [List.length_append, List.length_singleton, be32_length]
        omega]
    simp only [TVal.ttype, read_value]
    rw [hmb]
    exact hf0

theorem readFields : ∀ (fs : TFields) (buf : List Byte) (pos : Nat),
    wfFields fs = true → segAt buf pos (encodeFields fs ++ [0]) →
    ∃ f, read_value buf f pos .Struct =
      some (.ok (pos + (encodeFields fs).length + 1))
  | .nil, buf, pos, hw, hseg => by
    refine ⟨1, ?_⟩
    have hb : byteAt buf pos = 0 := by
      have h0 := segAt_byteAt hseg 0 (by simp [encodeFields])
      simpa [encodeFields, byteAt] using h0
    have hb1 : pos + 1 ≤ buf.length := by
      have h1 := hseg.1
      simpa [encodeFields] using h1
    have hfb0 : TType.fromByte (0 : Byte) = some .Stop := rfl
    have hfb : read_field_begin buf pos = .ok ((.Stop, 0), pos + 1) := by
      simp [read_field_begin, read_byte, hb1, hb, hfb0]
    rw [show pos + (encodeFields TFields.nil).length + 1 = pos + 1 from by
      simp [encodeFields]]
    simp only [read_value]
    rw [hfb]
    rfl
  | .cons fid v rest, buf, pos, hw, hseg => by
    simp only [wfFields, Bool.and_eq_true, decide_eq_true_eq] at hw
    obtain ⟨⟨hid, hwv⟩, hwr⟩ := hw
    have hshape : encodeFields (.cons fid v rest) ++ [0] =
        [v.ttype.toByte] ++ (be16 fid ++ (encodeVal v ++ (encodeFields rest ++ [0]))) := by
      simp [encodeFields]
    rw [hshape] at hseg
    have hsp1 := segAt_append.mp hseg
    have hsp2 := segAt_append.mp hsp1.2
    have hsp3 := segAt_append.mp hsp2.2
    simp only [List.length_singleton, be16_length] at hsp1 hsp2 hsp3
    have hb : byteAt buf pos = v.ttype.toByte := by
      have h0 := segAt_byteAt hsp1.1 0 (by simp)
      simpa using h0
    have hb1 : pos + 1 ≤ buf.length := by
      have h1 := hsp1.1.1
      simpa using h1
    have hb3 : pos + 1 + 2 ≤ buf.length := by
      have h1 := hsp2.1.1
      have hbl := be16_length fid
      omega
    obtain ⟨f1, hf1⟩ := readVal v buf (pos + 1 + 2) hwv hsp3.1
    obtain ⟨f2, hf2⟩ := readFields rest buf (pos + 1 + 2 + (encodeVal v).length)
      hwr hsp3.2
    refine ⟨max f1 f2 + 1, ?_⟩
    have hf1' := read_value_mono_le (Nat.le_max_left f1 f2) hf1
    have hf2' := read_value_mono_le (Nat.le_max_right f1 f2) hf2
    rw [show pos + (encodeFields (.cons fid v rest)).length + 1 =
      pos + 1 + 2 + (encodeVal v).length + (encodeFields rest).length + 1
      from by
        simp only [encodeFields, List.length_cons, List.length_append,
          be16_length]
        omega]
    simp only [read_value]
    rw [read_field_begin_nonstop hb hb1 (ttype_ne_stop v) hb3]
    dsimp only
    rw [if_neg (ttype_ne_stop v), hf1']
    exact hf2'

theorem readVals : ∀ (es : TVals) (t : TType) (buf : List Byte) (pos : Nat),
    wfVals t es = true → segAt buf pos (encodeVals es) →
    ∃ f, read_coll buf f es.len t t pos =
      some (.ok (pos + (encodeVals es).length))
  | .nil, t, buf, pos, hw, hseg => by
    refine ⟨1, ?_⟩
    simp [read_coll, TVals.len, encodeVals]
  | .cons v rest, t, buf, pos, hw, hseg => by
    simp only [wfVals, Bool.and_eq_true, decide_eq_true_eq] at hw
    obtain ⟨⟨hvt, hwv⟩, hwr⟩ := hw
    have hsp := segAt_append.mp (by simpa [encodeVals] using hseg)
    obtain ⟨f1, hf1⟩ := readVal v buf pos hwv hsp.1
    obtain ⟨f2, hf2⟩ := readVals rest t buf (pos + (encodeVal v).length)
      hwr hsp.2
    refine ⟨max f1 f2 + 1, ?_⟩
    have hf1' := read_value_mono_le (Nat.le_max_left f1 f2) hf1
    have hf2' := read_coll_mono_le (Nat.le_max_right f1 f2) hf2
    rw [show pos + (encodeVals (.cons v rest)).length =
      pos + (encodeVal v).length + (encodeVals rest).length from by
        simp only [encodeVals, List.length_append]
        omega]
    have hlen : (TVals.cons v rest).len = rest.len + 1 := rfl
    rw [hlen]
    simp only [read_coll]
    rw [ite_self]
    rw [hvt] at hf1'
    rw [hf1']
    exact hf2'

theorem readPairs : ∀ (ps : TPairs) (kt vt : TType) (buf : List Byte)
    (pos : Nat), wfPairs kt vt ps = true → segAt buf pos (encodePairs ps) →
    ∃ f, read_coll buf f (2 * ps.len) kt vt pos =
      some (.ok (pos + (encodePairs ps).length))
  | .nil, kt, vt, buf, pos, hw, hseg => by
    refine ⟨1, ?_⟩
    have h0 : 2 * TPairs.len .nil = 0 := rfl
    rw [h0]
    simp [read_coll, encodePairs]
  | .cons k v rest, kt, vt, buf, pos, hw, hseg => by
    simp only [wfPairs, Bool.and_eq_true, decide_eq_true_eq] at hw
    obtain ⟨⟨⟨⟨hkt, hvt⟩, hwk⟩, hwv⟩, hwr⟩ := hw
    have hshape : encodePairs (.cons k v rest) =
        encodeVal k ++ (encodeVal v ++ encodePairs rest) := by
      simp [encodePairs]
    rw [hshape] at hseg
    have hsp1 := segAt_append.mp hseg
    have hsp2 := segAt_append.mp hsp1.2
    obtain ⟨f1, hf1⟩ := readVal k buf pos hwk hsp1.1
    obtain ⟨f2, hf2⟩ := readVal v buf (pos + (encodeVal k).length) hwv hsp2.1
    obtain ⟨f3, hf3⟩ := readPairs rest kt vt buf
      (pos + (encodeVal k).length + (encodeVal v).length) hwr hsp2.2
    refine ⟨max f1 (max f2 f3) + 1 + 1, ?_⟩
    have hf1' := read_value_mono_le
      (le_trans (Nat.le_max_left f1 (max f2 f3)) (Nat.le_succ _)) hf1
    have hf2' := read_value_mono_le
      (le_trans (Nat.le_max_left f2 f3) (Nat.le_max_right f1 _)) hf2
    have hf3' := read_coll_mono_le
      (le_trans (Nat.le_max_right f2 f3) (Nat.le_max_right f1 _)) hf3
    rw [show pos + (encodePairs (.cons k v rest)).length =
      pos + (encodeVal k).length + (encodeVal v).length +
        (encodePairs rest).length from by
        rw [hshape]
        simp only [List.length_append]
        omega]
    have hlen2 : 2 * (TPairs.cons k v rest).len = 2 * rest.len + 1 + 1 := by
      simp only [TPairs.len]
      omega
    rw [hlen2]
    simp only [read_coll]
    rw [if_pos (by omega)]
    rw [hkt] at hf1'
    rw [hf1']
    dsimp only
    rw [if_neg (by omega)]
    rw [hvt] at hf2'
    rw [hf2']
    exact hf3'

end

/-- Claim C1: for every byte sequence that is a valid Binary-protocol
encoding of exactly one value `v` (its type `v.ttype` ranges over every
`TType` other than `Stop` and `Void`), followed by arbitrary trailing
bytes `R`, the synchronous reader's `skip_field` on that type succeeds
and leaves the cursor at the first byte of `R` (offset `|encodeVal v|`),
the same position reached by fully reading the value with the matching
`read_*` operations and discarding it. -/
theorem skip_field_read_equiv (v : TVal) (R : List Byte)
    (hw : wfVal v = true) :
    ∃ f₀ : Nat, ∀ f : Nat, f₀ ≤ f →
      skip_field (encodeVal v ++ R) 0 v.ttype f =
        some (.ok (encodeVal v).length) ∧
      read_value (encodeVal v ++ R) f 0 v.ttype =
        some (.ok (encodeVal v).length) := by
  have hseg : segAt (encodeVal v ++ R) 0 (encodeVal v) := segAt_refl _ _
  have hskip : ∃ f, skip_loop (encodeVal v ++ R) f 0 (.other v.ttype) [] =
      some (.ok (encodeVal v).length) :=
    skipVal v (encodeVal v ++ R) 0 [] (.ok (encodeVal v).length)
      (encodeVal v).length hw hseg (by omega) ⟨1, rfl⟩
  obtain ⟨f1, hf1⟩ := hskip
  obtain ⟨f2, hf2⟩ := readVal v (encodeVal v ++ R) 0 hw hseg
  rw [Nat.zero_add] at hf2
  refine ⟨max f1 f2, fun f hf => ⟨?_, ?_⟩⟩
  · exact skip_loop_mono_le (le_trans (Nat.le_max_left f1 f2) hf) hf1
  · exact read_value_mono_le (le_trans (Nat.le_max_right f1 f2) hf) hf2

/-- Witness for C1: a concrete one-element `list<i32>` encoding followed
by one trailing byte. -/
theorem skip_field_read_equiv_witness :
    wfVal (.vList .I32 (.cons (.vI32 7) .nil)) = true ∧
    (∃ f₀ : Nat, ∀ f : Nat, f₀ ≤ f →
      skip_field (encodeVal (.vList .I32 (.cons (.vI32 7) .nil)) ++ [171]) 0
          (TVal.vList .I32 (.cons (.vI32 7) .nil)).ttype f =
        some (.ok (encodeVal (.vList .I32 (.cons (.vI32 7) .nil))).length) ∧
      read_value (encodeVal (.vList .I32 (.cons (.vI32 7) .nil)) ++ [171]) f 0
          (TVal.vList .I32 (.cons (.vI32 7) .nil)).ttype =
        some (.ok (encodeVal (.vList .I32 (.cons (.vI32 7) .nil))).length)) :=
  ⟨by decide, skip_field_read_equiv _ _ (by decide)⟩

/-! ## C2: the asynchronous reader refines the synchronous reader -/

theorem segAt_beU64at {buf : List Byte} {pos : Nat} {seg : List Byte}
    (h : segAt buf pos seg) (hk : 8 ≤ seg.length) :
    beU64at buf pos = beU64at seg 0 := by
  have h0 := segAt_byteAt h 0 (by omega)
  have h1 := segAt_byteAt h 1 (by omega)
  have h2 := segAt_byteAt h 2 (by omega)
  have h3 := segAt_byteAt h 3 (by omega)
  have h4 := segAt_byteAt h 4 (by omega)
  have h5 := segAt_byteAt h 5 (by omega)
  have h6 := segAt_byteAt h 6 (by omega)
  have h7 := segAt_byteAt h 7 (by omega)
  simp only [Nat.add_zero] at h0
  simp only [beU64at, beU32at, beU16at, beU16v, h0, h1]
  rw [show pos + 2 + 1 = pos + 3 from by omega,
    show pos + 4 + 2 + 1 = pos + 7 from by omega,
    show pos + 4 + 2 = pos + 6 from by omega,
    show pos + 4 + 1 = pos + 5 from by omega, h2, h3, h4, h5, h6, h7]

theorem read_more_ok : ∀ (chunks : List (List Byte)) (buffered tail : List Byte)
    (n : Nat), buffered ++ chunks.flatten = tail → (∀ c ∈ chunks, c ≠ []) →
    n ≤ tail.length →
    ∃ b cs, read_more buffered chunks n = .ok (b, cs) ∧ b ++ cs.flatten = tail ∧
      (∀ c ∈ cs, c ≠ []) ∧ n ≤ b.length
  | [], buffered, tail, n, hflat, hne, hlen => by
    have hb : buffered = tail := by simpa using hflat
    subst hb
    exact ⟨buffered, [], by simp [read_more, hlen], by simp, by simp, hlen⟩
  | c :: rest, buffered, tail, n, hflat, hne, hlen => by
    by_cases hb : n ≤ buffered.length
    · exact ⟨buffered, c :: rest, by simp [read_more, hb], hflat, hne, hb⟩
    · have hc : c ≠ [] := hne c (by simp)
      have hcl : ¬ (c.length = 0) := by simpa using hc
      obtain ⟨b, cs, hrm, hbf, hne', hbl⟩ := read_more_ok rest (buffered ++ c)
        tail n (by simpa [List.append_assoc] using hflat)
        (fun d hd => hne d (by simp [hd])) hlen
      refine ⟨b, cs, ?_, hbf, hne', hbl⟩
      rw [read_more, if_neg hb]
      simp only [hcl, if_false]
      exact hrm

theorem fill_ok {buf : List Byte} {pos : Nat} {st : AsyncState} {n : Nat}
    (h : Sim buf pos st) (hle : pos + n ≤ buf.length) :
    ∃ st1, fill_at_least st n = .ok st1 ∧ Sim buf pos st1 ∧
      n ≤ st1.buffered.length := by
  by_cases hb : n ≤ st.buffered.length
  · exact ⟨st, by simp [fill_at_least, hb], h, hb⟩
  · have htail : n ≤ (buf.drop pos).length := by
      simp only [List.length_drop]
      omega
    obtain ⟨b, cs, hrm, hbf, hne, hbl⟩ := read_more_ok st.chunks st.buffered
      (buf.drop pos) n h.1 h.2 htail
    refine ⟨⟨b, cs⟩, ?_, ⟨hbf, hne⟩, hbl⟩
    simp only [fill_at_least, if_neg hb, hrm]

theorem Sim_segAt {buf : List Byte} {pos : Nat} {st : AsyncState}
    (h : Sim buf pos st) (hpos : pos ≤ buf.length) :
    segAt buf pos st.buffered := by
  constructor
  · have hl := congrArg List.length h.1
    simp only [List.length_append, List.length_drop] at hl
    omega
  · rw [← h.1, List.take_left]

theorem Sim_byteAt {buf : List Byte} {pos : Nat} {st : AsyncState}
    (h : Sim buf pos st) (i : Nat) (hi : i < st.buffered.length) :
    byteAt st.buffered i = byteAt buf (pos + i) := by
  rw [← byteAt_drop, ← h.1]
  exact (byteAt_append_left _ _ _ hi).symm

theorem Sim_take {buf : List Byte} {pos : Nat} {st : AsyncState}
    (h : Sim buf pos st) {k : Nat} (hk : k ≤ st.buffered.length) :
    st.buffered.take k = (buf.drop pos).take k := by
  rw [← h.1, List.take_append_of_le_length hk]

theorem Sim_advance {buf : List Byte} {pos : Nat} {st : AsyncState}
    (h : Sim buf pos st) (k : Nat) (hk : k ≤ st.buffered.length) :
    Sim buf (pos + k) ⟨st.buffered.drop k, st.chunks⟩ := by
  refine ⟨?_, h.2⟩
  have hd := congrArg (List.drop k) h.1
  rw [List.drop_append_of_le_length hk, List.drop_drop] at hd
  exact hd

theorem a_read_byte_sim {buf : List Byte} {pos : Nat} {st : AsyncState}
    (h : Sim buf pos st) {v : Byte} {p' : Nat}
    (hs : read_byte buf pos = .ok (v, p')) :
    ∃ st', a_read_byte st = .ok (v, st') ∧ Sim buf p' st' := by
  rw [read_byte] at hs
  by_cases hle : pos + 1 ≤ buf.length
  · rw [if_pos hle] at hs
    simp only [Except.ok.injEq, Prod.mk.injEq] at hs
    obtain ⟨rfl, rfl⟩ := hs
    obtain ⟨st1, hfill, hsim1, hlen⟩ := fill_ok h hle
    refine ⟨⟨st1.buffered.drop 1, st1.chunks⟩, ?_, Sim_advance hsim1 1 hlen⟩
    simp only [a_read_byte, hfill]
    rw [show byteAt st1.buffered 0 = byteAt buf pos from by
      have hB := Sim_byteAt hsim1 0 (by omega)
      simpa using hB]
  · rw [if_neg hle] at hs
    exact absurd hs (by simp)

theorem a_read_i16_sim {buf : List Byte} {pos : Nat} {st : AsyncState}
    (h : Sim buf pos st) {v : Nat} {p' : Nat}
    (hs : read_i16 buf pos = .ok (v, p')) :
    ∃ st', a_read_i16 st = .ok (v, st') ∧ Sim buf p' st' := by
  rw [read_i16] at hs
  by_cases hle : pos + 2 ≤ buf.length
  · rw [if_pos hle] at hs
    simp only [Except.ok.injEq, Prod.mk.injEq] at hs
    obtain ⟨rfl, rfl⟩ := hs
    obtain ⟨st1, hfill, hsim1, hlen⟩ := fill_ok h hle
    refine ⟨⟨st1.buffered.drop 2, st1.chunks⟩, ?_, Sim_advance hsim1 2 hlen⟩
    simp only [a_read_i16, hfill]
    rw [(segAt_beU16at (Sim_segAt hsim1 (by omega)) hlen).symm]
  · rw [if_neg hle] at hs
    exact absurd hs (by simp)

theorem a_read_i32_sim {buf : List Byte} {pos : Nat} {st : AsyncState}
    (h : Sim buf pos st) {v : Nat} {p' : Nat}
    (hs : read_i32 buf pos = .ok (v, p')) :
    ∃ st', a_read_i32 st = .ok (v, st') ∧ Sim buf p' st' := by
  rw [read_i32] at hs
  by_cases hle : pos + 4 ≤ buf.length
  · rw [if_pos hle] at hs
    simp only [Except.ok.injEq, Prod.mk.injEq] at hs
    obtain ⟨rfl, rfl⟩ := hs
    obtain ⟨st1, hfill, hsim1, hlen⟩ := fill_ok h hle
    refine ⟨⟨st1.buffered.drop 4, st1.chunks⟩, ?_, Sim_advance hsim1 4 hlen⟩
    simp only [a_read_i32, hfill]
    rw [(segAt_beU32at (Sim_segAt hsim1 (by omega)) hlen).symm]
  · rw [if_neg hle] at hs
    exact absurd hs (by simp)

theorem a_read_i64_sim {buf : List Byte} {pos : Nat} {st : AsyncState}
    (h : Sim buf pos st) {v : Nat} {p' : Nat}
    (hs : read_i64 buf pos = .ok (v, p')) :
    ∃ st', a_read_i64 st = .ok (v, st') ∧ Sim buf p' st' := by
  rw [read_i64] at hs
  by_cases hle : pos + 8 ≤ buf.length
  · rw [if_pos hle] at hs
    simp only [Except.ok.injEq, Prod.mk.injEq] at hs
    obtain ⟨rfl, rfl⟩ := hs
    obtain ⟨st1, hfill, hsim1, hlen⟩ := fill_ok h hle
    refine ⟨⟨st1.buffered.drop 8, st1.chunks⟩, ?_, Sim_advance hsim1 8 hlen⟩
    simp only [a_read_i64, hfill]
    rw [(segAt_beU64at (Sim_segAt hsim1 (by omega)) hlen).symm]
  · rw [if_neg hle] at hs
    exact absurd hs (by simp)

theorem a_read_uuid_sim {buf : List Byte} {pos : Nat} {st : AsyncState}
    (h : Sim buf pos st) {v : List Byte} {p' : Nat}
    (hs : read_uuid buf pos = .ok (v, p')) :
    ∃ st', a_read_uuid st = .ok (v, st') ∧ Sim buf p' st' := by
  rw [read_uuid] at hs
  by_cases hle : pos + 16 ≤ buf.length
  · rw [if_pos hle] at hs
    simp only [Except.ok.injEq, Prod.mk.injEq] at hs
    obtain ⟨rfl, rfl⟩ := hs
    obtain ⟨st1, hfill, hsim1, hlen⟩ := fill_ok h hle
    refine ⟨⟨st1.buffered.drop 16, st1.chunks⟩, ?_, Sim_advance hsim1 16 hlen⟩
    simp only [a_read_uuid, hfill]
    rw [Sim_take hsim1 hlen]
  · rw [if_neg hle] at hs
    exact absurd hs (by simp)

theorem a_read_i8_sim {buf : List Byte} {pos : Nat} {st : AsyncState}
    (h : Sim buf pos st) {v : Byte} {p' : Nat}
    (hs : read_i8 buf pos = .ok (v, p')) :
    ∃ st', a_read_i8 st = .ok (v, st') ∧ Sim buf p' st' :=
  a_read_byte_sim h hs

theorem a_read_bool_sim {buf : List Byte} {pos : Nat} {st : AsyncState}
    (h : Sim buf pos st) {v : Bool} {p' : Nat}
    (hs : read_bool buf pos = .ok (v, p')) :
    ∃ st', a_read_bool st = .ok (v, st') ∧ Sim buf p' st' := by
  rw [read_bool] at hs
  cases hb : read_i8 buf pos with
  | error e => rw [hb] at hs; exact absurd hs (by simp)
  | ok q =>
    obtain ⟨b, p1⟩ := q
    rw [hb] at hs
    simp only [Except.ok.injEq, Prod.mk.injEq] at hs
    obtain ⟨rfl, rfl⟩ := hs
    obtain ⟨st', ha, hsim'⟩ := a_read_i8_sim h hb
    refine ⟨st', ?_, hsim'⟩
    rw [a_read_bool, ha]

theorem a_read_double_sim {buf : List Byte} {pos : Nat} {st : AsyncState}
    (h : Sim buf pos st) {v : Nat} {p' : Nat}
    (hs : read_double buf pos = .ok (v, p')) :
    ∃ st', a_read_double st = .ok (v, st') ∧ Sim buf p' st' := by
  rw [read_double] at hs
  obtain ⟨st', ha, hsim'⟩ := a_read_i64_sim h hs
  refine ⟨st', ?_, hsim'⟩
  rw [show a_read_double st = a_read_i64 st from rfl, ha]

theorem a_read_bytes_sim {buf : List Byte} {pos : Nat} {st : AsyncState}
    (h : Sim buf pos st) {v : List Byte} {p' : Nat}
    (hs : read_bytes buf pos = .ok (v, p')) :
    ∃ st', a_read_bytes st = .ok (v, st') ∧ Sim buf p' st' := by
  rw [read_bytes] at hs
  cases hb : read_i32 buf pos with
  | error e => rw [hb] at hs; exact absurd hs (by simp)
  | ok q =>
    obtain ⟨n, p1⟩ := q
    rw [hb] at hs
    dsimp only at hs
    by_cases hlen : p1 + i32AsUsize n > buf.length
    · rw [if_pos hlen] at hs
      exact absurd hs (by simp)
    · rw [if_neg hlen] at hs
      simp only [Except.ok.injEq, Prod.mk.injEq] at hs
      obtain ⟨rfl, rfl⟩ := hs
      obtain ⟨st1, ha1, hsim1⟩ := a_read_i32_sim h hb
      have hle2 : p1 + i32AsUsize n ≤ buf.length := by omega
      obtain ⟨st2, hfill, hsim2, hlen2⟩ := fill_ok hsim1 hle2
      refine ⟨⟨st2.buffered.drop (i32AsUsize n), st2.chunks⟩, ?_,
        Sim_advance hsim2 (i32AsUsize n) hlen2⟩
      rw [a_read_bytes, ha1]
      dsimp only
      rw [hfill]
      dsimp only
      rw [Sim_take hsim2 hlen2]

theorem a_read_string_sim {buf : List Byte} {pos : Nat} {st : AsyncState}
    (h : Sim buf pos st) {v : List Byte} {p' : Nat}
    (hs : read_string buf pos = .ok (v, p')) :
    ∃ st', a_read_string st = .ok (v, st') ∧ Sim buf p' st' := by
  rw [read_string] at hs
  cases hb : read_bytes buf pos with
  | error e => rw [hb] at hs; exact absurd hs (by simp)
  | ok q =>
    obtain ⟨data, p1⟩ := q
    rw [hb] at hs
    dsimp only at hs
    obtain ⟨st1, ha1, hsim1⟩ := a_read_bytes_sim h hb
    by_cases hemp : data.isEmpty
    · rw [if_pos hemp] at hs
      simp only [Except.ok.injEq, Prod.mk.injEq] at hs
      obtain ⟨rfl, rfl⟩ := hs
      rw [List.isEmpty_iff] at hemp
      refine ⟨st1, ?_, hsim1⟩
      rw [a_read_string, ha1]
      dsimp only
      rw [if_pos (by simp [hemp])]
      rw [hemp]
    · rw [if_neg hemp] at hs
      by_cases hval : validUtf8 data
      · rw [if_pos hval] at hs
        simp only [Except.ok.injEq, Prod.mk.injEq] at hs
        obtain ⟨rfl, rfl⟩ := hs
        refine ⟨st1, ?_, hsim1⟩
        rw [a_read_string, ha1]
        dsimp only
        rw [if_neg hemp, if_pos hval]
      · rw [if_neg hval] at hs
        exact absurd hs (by simp)

theorem a_read_field_begin_sim {buf : List Byte} {pos : Nat} {st : AsyncState}
    (h : Sim buf pos st) {v : TType × Nat} {p' : Nat}
    (hs : read_field_begin buf pos = .ok (v, p')) :
    ∃ st', a_read_field_begin st = .ok (v, st') ∧ Sim buf p' st' := by
  rw [read_field_begin] at hs
  cases hb : read_byte buf pos with
  | error e => rw [hb] at hs; exact absurd hs (by simp)
  | ok q =>
    obtain ⟨b, p1⟩ := q
    rw [hb] at hs
    dsimp only at hs
    obtain ⟨st1, ha1, hsim1⟩ := a_read_byte_sim h hb
    cases hft : TType.fromByte b with
    | none => rw [hft] at hs; exact absurd hs (by simp)
    | some t =>
      rw [hft] at hs
      dsimp only at hs
      by_cases hstop : t = TType.Stop
      · subst hstop
        simp only [Except.ok.injEq, Prod.mk.injEq] at hs
        obtain ⟨rfl, rfl⟩ := hs
        refine ⟨st1, ?_, hsim1⟩
        rw [a_read_field_begin, ha1]
        dsimp only
        rw [hft]
      · have hs' : (match read_i16 buf p1 with
            | .error e => .error e
            | .ok (id, pos2) => .ok ((t, id), pos2)) =
            (.ok (v, p') : Except CodecError ((TType × Nat) × Nat)) := by
          cases t <;> first | exact absurd rfl hstop | exact hs
        cases hi : read_i16 buf p1 with
        | error e => rw [hi] at hs'; exact absurd hs' (by simp)
        | ok q2 =>
          obtain ⟨id, p2⟩ := q2
          rw [hi] at hs'
          simp only [Except.ok.injEq, Prod.mk.injEq] at hs'
          obtain ⟨rfl, rfl⟩ := hs'
          obtain ⟨st2, ha2, hsim2⟩ := a_read_i16_sim hsim1 hi
          refine ⟨st2, ?_, hsim2⟩
          rw [a_read_field_begin, ha1]
          dsimp only
          rw [hft]
          have hgoal : (match a_read_i16 st1 with
              | .error e => .error e
              | .ok (id, st2) => .ok ((t, id), st2)) =
              (.ok ((t, id), st2) : Except CodecError ((TType × Nat) × AsyncState)) := by
            rw [ha2]
          cases t <;> first | exact absurd rfl hstop | exact hgoal

theorem a_read_list_begin_sim {buf : List Byte} {pos : Nat} {st : AsyncState}
    (h : Sim buf pos st) {v : TType × Nat} {p' : Nat}
    (hs : read_list_begin buf pos = .ok (v, p')) :
    ∃ st', a_read_list_begin st = .ok (v, st') ∧ Sim buf p' st' := by
  rw [read_list_begin] at hs
  cases hb : read_byte buf pos with
  | error e => rw [hb] at hs; exact absurd hs (by simp)
  | ok q =>
    obtain ⟨b, p1⟩ := q
    rw [hb] at hs
    dsimp only at hs
    obtain ⟨st1, ha1, hsim1⟩ := a_read_byte_sim h hb
    cases hft : TType.fromByte b with
    | none => rw [hft] at hs; exact absurd hs (by simp)
    | some t =>
      rw [hft] at hs
      dsimp only at hs
      cases hi : read_i32 buf p1 with
      | error e => rw [hi] at hs; exact absurd hs (by simp)
      | ok q2 =>
        obtain ⟨n, p2⟩ := q2
        rw [hi] at hs
        simp only [Except.ok.injEq, Prod.mk.injEq] at hs
        obtain ⟨rfl, rfl⟩ := hs
        obtain ⟨st2, ha2, hsim2⟩ := a_read_i32_sim hsim1 hi
        refine ⟨st2, ?_, hsim2⟩
        rw [a_read_list_begin, ha1]
        dsimp only
        rw [hft]
        dsimp only
        rw [ha2]

theorem a_read_set_begin_sim {buf : List Byte} {pos : Nat} {st : AsyncState}
    (h : Sim buf pos st) {v : TType × Nat} {p' : Nat}
    (hs : read_set_begin buf pos = .ok (v, p')) :
    ∃ st', a_read_set_begin st = .ok (v, st') ∧ Sim buf p' st' := by
  rw [read_set_begin] at hs
  obtain ⟨st', ha, hsim'⟩ := a_read_list_begin_sim h hs
  exact ⟨st', by rw [a_read_set_begin, ha], hsim'⟩

theorem a_read_map_begin_sim {buf : List Byte} {pos : Nat} {st : AsyncState}
    (h : Sim buf pos st) {v : TType × TType × Nat} {p' : Nat}
    (hs : read_map_begin buf pos = .ok (v, p')) :
    ∃ st', a_read_map_begin st = .ok (v, st') ∧ Sim buf p' st' := by
  rw [read_map_begin] at hs
  cases hb : read_byte buf pos with
  | error e => rw [hb] at hs; exact absurd hs (by simp)
  | ok q =>
    obtain ⟨kb, p1⟩ := q
    rw [hb] at hs
    dsimp only at hs
    obtain ⟨st1, ha1, hsim1⟩ := a_read_byte_sim h hb
    cases hkt : TType.fromByte kb with
    | none => rw [hkt] at hs; exact absurd hs (by simp)
    | some kt =>
      rw [hkt] at hs
      dsimp only at hs
      cases hb2 : read_byte buf p1 with
      | error e => rw [hb2] at hs; exact absurd hs (by simp)
      | ok q2 =>
        obtain ⟨vb, p2⟩ := q2
        rw [hb2] at hs
        dsimp only at hs
        obtain ⟨st2, ha2, hsim2⟩ := a_read_byte_sim hsim1 hb2
        cases hvt : TType.fromByte vb with
        | none => rw [hvt] at hs; exact absurd hs (by simp)
        | some vt =>
          rw [hvt] at hs
          dsimp only at hs
          cases hi : read_i32 buf p2 with
          | error e => rw [hi] at hs; exact absurd hs (by simp)
          | ok q3 =>
            obtain ⟨n, p3⟩ := q3
            rw [hi] at hs
            simp only [Except.ok.injEq, Prod.mk.injEq] at hs
            obtain ⟨rfl, rfl⟩ := hs
            obtain ⟨st3, ha3, hsim3⟩ := a_read_i32_sim hsim2 hi
            refine ⟨st3, ?_, hsim3⟩
            rw [a_read_map_begin, ha1]
            dsimp only
            rw [hkt]
            dsimp only
            rw [ha2]
            dsimp only
            rw [hvt]
            dsimp only
            rw [ha3]

theorem a_read_message_begin_sim {buf : List Byte} {pos : Nat} {st : AsyncState}
    (h : Sim buf pos st) {v : MsgIdent} {p' : Nat}
    (hs : read_message_begin buf pos = .ok (v, p')) :
    ∃ st', a_read_message_begin st = .ok (v, st') ∧ Sim buf p' st' := by
  rw [read_message_begin] at hs
  cases hi : read_i32 buf pos with
  | error e => rw [hi] at hs; exact absurd hs (by simp)
  | ok q =>
    obtain ⟨size, p1⟩ := q
    rw [hi] at hs
    dsimp only at hs
    obtain ⟨st1, ha1, hsim1⟩ := a_read_i32_sim h hi
    by_cases hpos : asI32 size > 0
    · rw [if_pos hpos] at hs
      exact absurd hs (by simp)
    · rw [if_neg hpos] at hs
      cases hmt : TMessageType.fromNat (size % 16) with
      | none => rw [hmt] at hs; exact absurd hs (by simp)
      | some mt =>
        rw [hmt] at hs
        dsimp only at hs
        by_cases hver : size / 65536 ≠ 32769
        · rw [if_pos hver] at hs
          exact absurd hs (by simp)
        · rw [if_neg hver] at hs
          cases hstr : read_string buf p1 with
          | error e => rw [hstr] at hs; exact absurd hs (by simp)
          | ok q2 =>
            obtain ⟨name, p2⟩ := q2
            rw [hstr] at hs
            dsimp only at hs
            obtain ⟨st2, ha2, hsim2⟩ := a_read_string_sim hsim1 hstr
            cases hseq : read_i32 buf p2 with
            | error e => rw [hseq] at hs; exact absurd hs (by simp)
            | ok q3 =>
              obtain ⟨seq, p3⟩ := q3
              rw [hseq] at hs
              simp only [Except.ok.injEq] at hs
              obtain ⟨rfl, rfl⟩ := hs
              obtain ⟨st3, ha3, hsim3⟩ := a_read_i32_sim hsim2 hseq
              refine ⟨st3, ?_, hsim3⟩
              rw [a_read_message_begin, ha1]
              dsimp only
              rw [if_neg hpos, hmt]
              dsimp only
              rw [if_neg hver, ha2]
              dsimp only
              rw [ha3]

theorem s_require_ok {buf : List Byte} (st : SkipperState) {n : Nat}
    (hsim : SimSk buf st) (hpb : st.pos ≤ st.buf.length)
    (hle : st.pos + n ≤ buf.length) :
    ∃ st1, s_require st n = .ok st1 ∧ SimSk buf st1 ∧ st1.pos = st.pos ∧
      st.pos + n ≤ st1.buf.length := by
  by_cases hb : st.buf.length - st.pos < n
  · obtain ⟨b, cs, hrm, hbf, hne, hbl⟩ := read_more_ok st.chunks st.buf buf
      (st.pos + n) hsim.1 hsim.2 hle
    refine ⟨⟨b, st.pos, cs⟩, ?_, ⟨hbf, hne⟩, rfl, hbl⟩
    simp only [s_require, if_pos hb, hrm]
  · refine ⟨st, ?_, hsim, rfl, by omega⟩
    simp only [s_require, if_neg hb]

theorem SimSk_byteAt {buf : List Byte} {st : SkipperState} (h : SimSk buf st)
    {i : Nat} (hi : i < st.buf.length) : byteAt st.buf i = byteAt buf i := by
  rw [← h.1]
  exact (byteAt_append_left _ _ _ hi).symm

theorem SimSk_beU32at {buf : List Byte} {st : SkipperState} (h : SimSk buf st)
    {i : Nat} (hi : i + 4 ≤ st.buf.length) :
    beU32at st.buf i = beU32at buf i := by
  simp only [beU32at, beU16at, beU16v]
  rw [SimSk_byteAt h (by omega), SimSk_byteAt h (by omega),
    SimSk_byteAt h (by omega), SimSk_byteAt h (by omega)]

theorem a_pop_sim {buf : List Byte} {fuel : Nat}
    (ih : ∀ (pos : Nat) (cur : SkipData) (stack : List SkipData)
      (st : SkipperState) (p' : Nat), SimSk buf st → st.pos = pos →
      st.pos ≤ st.buf.length →
      skip_loop buf fuel pos cur stack = some (.ok p') →
      ∃ f' st', a_skip_loop f' st cur stack = some (.ok st') ∧ st'.pos = p' ∧
        SimSk buf st')
    {stack : List SkipData} (st : SkipperState) {p' : Nat}
    (hsim : SimSk buf st) (hinv : st.pos ≤ st.buf.length)
    (h : skip_pop buf fuel st.pos stack = some (.ok p')) :
    ∃ f' st', a_skip_pop f' st stack = some (.ok st') ∧ st'.pos = p' ∧
      SimSk buf st' := by
  cases stack with
  | nil =>
    simp only [skip_pop, Option.some.injEq, Except.ok.injEq] at h
    exact ⟨1, st, rfl, h, hsim⟩
  | cons fr s => exact ih st.pos fr s st p' hsim rfl hinv h

theorem a_skip_sim {buf : List Byte} : ∀ (fuel : Nat) (pos : Nat)
    (cur : SkipData) (stack : List SkipData) (st : SkipperState) (p' : Nat),
    SimSk buf st → st.pos = pos → st.pos ≤ st.buf.length →
    skip_loop buf fuel pos cur stack = some (.ok p') →
    ∃ f' st', a_skip_loop f' st cur stack = some (.ok st') ∧ st'.pos = p' ∧
      SimSk buf st' := by
  intro fuel
  induction fuel with
  | zero =>
    intro pos cur stack st p' _ _ _ h
    exact absurd h (by simp [skip_loop])
  | succ fuel ih =>
    intro pos cur stack st p' hsim hpos hinv h
    subst hpos
    cases cur with
    | collection len t0 t1 =>
      simp only [skip_loop] at h
      by_cases hl : len = 0
      · rw [if_pos hl] at h
        subst hl
        obtain ⟨f', st', ha, hp, hsf⟩ := a_pop_sim ih st hsim hinv h
        refine ⟨f' + 1, st', ?_, hp, hsf⟩
        simp only [a_skip_loop, if_pos rfl]
        exact ha
      · rw [if_neg hl] at h
        obtain ⟨f', st', ha, hp, hsf⟩ := ih st.pos
          (.other (if len % 2 = 0 then t0 else t1))
          (.collection (len - 1) t0 t1 :: stack) st p' hsim rfl hinv h
        refine ⟨f' + 1, st', ?_, hp, hsf⟩
        simp only [a_skip_loop]
        rw [if_neg hl]
        exact ha
    | other t =>
      cases t with
      | Stop =>
        simp only [skip_loop] at h
        exact absurd h (by simp)
      | Void =>
        simp only [skip_loop] at h
        exact absurd h (by simp)
      | Bool =>
        simp only [skip_loop] at h
        by_cases hlt : buf.length - st.pos < 1
        · rw [if_pos hlt] at h
          exact absurd h (by simp)
        · rw [if_neg hlt] at h
          obtain ⟨st1, hreq, hsim1, hpos1, hlen1⟩ := s_require_ok st hsim hinv
            (show st.pos + 1 ≤ buf.length from by omega)
          rw [← hpos1] at h
          obtain ⟨f', st', ha, hp, hsf⟩ := a_pop_sim ih
            (⟨st1.buf, st1.pos + 1, st1.chunks⟩) hsim1
            (show st1.pos + 1 ≤ st1.buf.length from by omega) h
          refine ⟨f' + 1, st', ?_, hp, hsf⟩
          simp only [a_skip_loop]
          rw [hreq]
          exact ha
      | I8 =>
        simp only [skip_loop] at h
        by_cases hlt : buf.length - st.pos < 1
        · rw [if_pos hlt] at h
          exact absurd h (by simp)
        · rw [if_neg hlt] at h
          obtain ⟨st1, hreq, hsim1, hpos1, hlen1⟩ := s_require_ok st hsim hinv
            (show st.pos + 1 ≤ buf.length from by omega)
          rw [← hpos1] at h
          obtain ⟨f', st', ha, hp, hsf⟩ := a_pop_sim ih
            (⟨st1.buf, st1.pos + 1, st1.chunks⟩) hsim1
            (show st1.pos + 1 ≤ st1.buf.length from by omega) h
          refine ⟨f' + 1, st', ?_, hp, hsf⟩
          simp only [a_skip_loop]
          rw [hreq]
          exact ha
      | Double =>
        simp only [skip_loop] at h
        by_cases hlt : buf.length - st.pos < 8
        · rw [if_pos hlt] at h
          exact absurd h (by simp)
        · rw [if_neg hlt] at h
          obtain ⟨st1, hreq, hsim1, hpos1, hlen1⟩ := s_require_ok st hsim hinv
            (show st.pos + 8 ≤ buf.length from by omega)
          rw [← hpos1] at h
          obtain ⟨f', st', ha, hp, hsf⟩ := a_pop_sim ih
            (⟨st1.buf, st1.pos + 8, st1.chunks⟩) hsim1
            (show st1.pos + 8 ≤ st1.buf.length from by omega) h
          refine ⟨f' + 1, st', ?_, hp, hsf⟩
          simp only [a_skip_loop]
          rw [hreq]
          exact ha
      | I16 =>
        simp only [skip_loop] at h
        by_cases hlt : buf.length - st.pos < 2
        · rw [if_pos hlt] at h
          exact absurd h (by simp)
        · rw [if_neg hlt] at h
          obtain ⟨st1, hreq, hsim1, hpos1, hlen1⟩ := s_require_ok st hsim hinv
            (show st.pos + 2 ≤ buf.length from by omega)
          rw [← hpos1] at h
          obtain ⟨f', st', ha, hp, hsf⟩ := a_pop_sim ih
            (⟨st1.buf, st1.pos + 2, st1.chunks⟩) hsim1
            (show st1.pos + 2 ≤ st1.buf.length from by omega) h
          refine ⟨f' + 1, st', ?_, hp, hsf⟩
          simp only [a_skip_loop]
          rw [hreq]
          exact ha
      | I32 =>
        simp only [skip_loop] at h
        by_cases hlt : buf.length - st.pos < 4
        · rw [if_pos hlt] at h
          exact absurd h (by simp)
        · rw [if_neg hlt] at h
          obtain ⟨st1, hreq, hsim1, hpos1, hlen1⟩ := s_require_ok st hsim hinv
            (show st.pos + 4 ≤ buf.length from by omega)
          rw [← hpos1] at h
          obtain ⟨f', st', ha, hp, hsf⟩ := a_pop_sim ih
            (⟨st1.buf, st1.pos + 4, st1.chunks⟩) hsim1
            (show st1.pos + 4 ≤ st1.buf.length from by omega) h
          refine ⟨f' + 1, st', ?_, hp, hsf⟩
          simp only [a_skip_loop]
          rw [hreq]
          exact ha
      | I64 =>
        simp only [skip_loop] at h
        by_cases hlt : buf.length - st.pos < 8
        · rw [if_pos hlt] at h
          exact absurd h (by simp)
        · rw [if_neg hlt] at h
          obtain ⟨st1, hreq, hsim1, hpos1, hlen1⟩ := s_require_ok st hsim hinv
            (show st.pos + 8 ≤ buf.length from by omega)
          rw [← hpos1] at h
          obtain ⟨f', st', ha, hp, hsf⟩ := a_pop_sim ih
            (⟨st1.buf, st1.pos + 8, st1.chunks⟩) hsim1
            (show st1.pos + 8 ≤ st1.buf.length from by omega) h
          refine ⟨f' + 1, st', ?_, hp, hsf⟩
          simp only [a_skip_loop]
          rw [hreq]
          exact ha
      | Uuid =>
        simp only [skip_loop] at h
        by_cases hlt : buf.length - st.pos < 16
        · rw [if_pos hlt] at h
          exact absurd h (by simp)
        · rw [if_neg hlt] at h
          obtain ⟨st1, hreq, hsim1, hpos1, hlen1⟩ := s_require_ok st hsim hinv
            (show st.pos + 16 ≤ buf.length from by omega)
          rw [← hpos1] at h
          obtain ⟨f', st', ha, hp, hsf⟩ := a_pop_sim ih
            (⟨st1.buf, st1.pos + 16, st1.chunks⟩) hsim1
            (show st1.pos + 16 ≤ st1.buf.length from by omega) h
          refine ⟨f' + 1, st', ?_, hp, hsf⟩
          simp only [a_skip_loop]
          rw [hreq]
          exact ha
      | Struct =>
        simp only [skip_loop] at h
        by_cases hlt : buf.length - st.pos < 1
        · rw [if_pos hlt] at h
          exact absurd h (by simp)
        · rw [if_neg hlt] at h
          obtain ⟨st1, hreq, hsim1, hpos1, hlen1⟩ := s_require_ok st hsim hinv
            (show st.pos + 1 ≤ buf.length from by omega)
          have hbyte : byteAt st1.buf st1.pos = byteAt buf st.pos := by
            rw [hpos1]
            exact SimSk_byteAt hsim1 (by omega)
          cases hft : TType.fromByte (byteAt buf st.pos) with
          | none =>
            rw [hft] at h
            exact absurd h (by simp)
          | some ft =>
            rw [hft] at h
            dsimp only at h
            by_cases hfx : fixedTypeSize ft ≠ 0
            · rw [if_pos hfx] at h
              by_cases hlt2 : buf.length - (st.pos + 1) < 2 + fixedTypeSize ft
              · rw [if_pos hlt2] at h
                exact absurd h (by simp)
              · rw [if_neg hlt2] at h
                obtain ⟨st2, hreq2, hsim2, hpos2, hlen2⟩ := s_require_ok
                  (⟨st1.buf, st1.pos + 1, st1.chunks⟩) hsim1
                  (show st1.pos + 1 ≤ st1.buf.length from by omega)
                  (show st1.pos + 1 + (2 + fixedTypeSize ft) ≤ buf.length
                    from by omega)
                have hpos2' : st2.pos = st1.pos + 1 := hpos2
                have hlen2' : st1.pos + 1 + (2 + fixedTypeSize ft) ≤
                    st2.buf.length := hlen2
                obtain ⟨f', st', ha, hp, hsf⟩ := ih
                  (st.pos + 1 + (2 + fixedTypeSize ft)) (.other .Struct) stack
                  ⟨st2.buf, st2.pos + (2 + fixedTypeSize ft), st2.chunks⟩ p'
                  hsim2
                  (show st2.pos + (2 + fixedTypeSize ft) =
                    st.pos + 1 + (2 + fixedTypeSize ft) from by omega)
                  (show st2.pos + (2 + fixedTypeSize ft) ≤ st2.buf.length
                    from by omega) h
                refine ⟨f' + 1, st', ?_, hp, hsf⟩
                simp only [a_skip_loop]
                rw [hreq]
                try dsimp only
                rw [hbyte, hft]
                try dsimp only
                rw [if_pos hfx]
                try dsimp only
                rw [hreq2]
                exact ha
            · rw [if_neg hfx] at h
              have hfx0 : fixedTypeSize ft = 0 := by omega
              cases ft with
              | Bool => exact absurd hfx0 (by simp [fixedTypeSize])
              | I8 => exact absurd hfx0 (by simp [fixedTypeSize])
              | Double => exact absurd hfx0 (by simp [fixedTypeSize])
              | I16 => exact absurd hfx0 (by simp [fixedTypeSize])
              | I32 => exact absurd hfx0 (by simp [fixedTypeSize])
              | I64 => exact absurd hfx0 (by simp [fixedTypeSize])
              | Uuid => exact absurd hfx0 (by simp [fixedTypeSize])
              | Stop =>
                rw [← hpos1] at h
                obtain ⟨f', st', ha, hp, hsf⟩ := a_pop_sim ih
                  (⟨st1.buf, st1.pos + 1, st1.chunks⟩) hsim1
                  (show st1.pos + 1 ≤ st1.buf.length from by omega) h
                refine ⟨f' + 1, st', ?_, hp, hsf⟩
                simp only [a_skip_loop]
                rw [hreq]
                try dsimp only
                rw [hbyte, hft]
                try dsimp only
                rw [if_neg hfx]
                try dsimp only
                exact ha
              | Void =>
                by_cases hlt2 : buf.length - (st.pos + 1) < 2
                · rw [if_pos hlt2] at h
                  exact absurd h (by simp)
                · rw [if_neg hlt2] at h
                  obtain ⟨st2, hreq2, hsim2, hpos2, hlen2⟩ := s_require_ok
                    (⟨st1.buf, st1.pos + 1, st1.chunks⟩) hsim1
                    (show st1.pos + 1 ≤ st1.buf.length from by omega)
                    (show st1.pos + 1 + 2 ≤ buf.length from by omega)
                  have hpos2' : st2.pos = st1.pos + 1 := hpos2
                  have hlen2' : st1.pos + 1 + 2 ≤ st2.buf.length := hlen2
                  obtain ⟨f', st', ha, hp, hsf⟩ := ih (st.pos + 1 + 2)
                    (.other .Void) (.other .Struct :: stack)
                    ⟨st2.buf, st2.pos + 2, st2.chunks⟩ p' hsim2
                    (show st2.pos + 2 = st.pos + 1 + 2 from by omega)
                    (show st2.pos + 2 ≤ st2.buf.length from by omega) h
                  refine ⟨f' + 1, st', ?_, hp, hsf⟩
                  simp only [a_skip_loop]
                  rw [hreq]
                  try dsimp only
                  rw [hbyte, hft]
                  try dsimp only
                  rw [if_neg hfx]
                  try dsimp only
                  rw [hreq2]
                  exact ha
              | Binary =>
                by_cases hlt2 : buf.length - (st.pos + 1) < 2
                · rw [if_pos hlt2] at h
                  exact absurd h (by simp)
                · rw [if_neg hlt2] at h
                  obtain ⟨st2, hreq2, hsim2, hpos2, hlen2⟩ := s_require_ok
                    (⟨st1.buf, st1.pos + 1, st1.chunks⟩) hsim1
                    (show st1.pos + 1 ≤ st1.buf.length from by omega)
                    (show st1.pos + 1 + 2 ≤ buf.length from by omega)
                  have hpos2' : st2.pos = st1.pos + 1 := hpos2
                  have hlen2' : st1.pos + 1 + 2 ≤ st2.buf.length := hlen2
                  obtain ⟨f', st', ha, hp, hsf⟩ := ih (st.pos + 1 + 2)
                    (.other .Binary) (.other .Struct :: stack)
                    ⟨st2.buf, st2.pos + 2, st2.chunks⟩ p' hsim2
                    (show st2.pos + 2 = st.pos + 1 + 2 from by omega)
                    (show st2.pos + 2 ≤ st2.buf.length from by omega) h
                  refine ⟨f' + 1, st', ?_, hp, hsf⟩
                  simp only [a_skip_loop]
                  rw [hreq]
                  try dsimp only
                  rw [hbyte, hft]
                  try dsimp only
                  rw [if_neg hfx]
                  try dsimp only
                  rw [hreq2]
                  exact ha
              | Struct =>
                by_cases hlt2 : buf.length - (st.pos + 1) < 2
                · rw [if_pos hlt2] at h
                  exact absurd h (by simp)
                · rw [if_neg hlt2] at h
                  obtain ⟨st2, hreq2, hsim2, hpos2, hlen2⟩ := s_require_ok
                    (⟨st1.buf, st1.pos + 1, st1.chunks⟩) hsim1
                    (show st1.pos + 1 ≤ st1.buf.length from by omega)
                    (show st1.pos + 1 + 2 ≤ buf.length from by omega)
                  have hpos2' : st2.pos = st1.pos + 1 := hpos2
                  have hlen2' : st1.pos + 1 + 2 ≤ st2.buf.length := hlen2
                  obtain ⟨f', st', ha, hp, hsf⟩ := ih (st.pos + 1 + 2)
                    (.other .Struct) (.other .Struct :: stack)
                    ⟨st2.buf, st2.pos + 2, st2.chunks⟩ p' hsim2
                    (show st2.pos + 2 = st.pos + 1 + 2 from by omega)
                    (show st2.pos + 2 ≤ st2.buf.length from by omega) h
                  refine ⟨f' + 1, st', ?_, hp, hsf⟩
                  simp only [a_skip_loop]
                  rw [hreq]
                  try dsimp only
                  rw [hbyte, hft]
                  try dsimp only
                  rw [if_neg hfx]
                  try dsimp only
                  rw [hreq2]
                  exact ha
              | Map =>
                by_cases hlt2 : buf.length - (st.pos + 1) < 2
                · rw [if_pos hlt2] at h
                  exact absurd h (by simp)
                · rw [if_neg hlt2] at h
                  obtain ⟨st2, hreq2, hsim2, hpos2, hlen2⟩ := s_require_ok
                    (⟨st1.buf, st1.pos + 1, st1.chunks⟩) hsim1
                    (show st1.pos + 1 ≤ st1.buf.length from by omega)
                    (show st1.pos + 1 + 2 ≤ buf.length from by omega)
                  have hpos2' : st2.pos = st1.pos + 1 := hpos2
                  have hlen2' : st1.pos + 1 + 2 ≤ st2.buf.length := hlen2
                  obtain ⟨f', st', ha, hp, hsf⟩ := ih (st.pos + 1 + 2)
                    (.other .Map) (.other .Struct :: stack)
                    ⟨st2.buf, st2.pos + 2, st2.chunks⟩ p' hsim2
                    (show st2.pos + 2 = st.pos + 1 + 2 from by omega)
                    (show st2.pos + 2 ≤ st2.buf.length from by omega) h
                  refine ⟨f' + 1, st', ?_, hp, hsf⟩
                  simp only [a_skip_loop]
                  rw [hreq]
                  try dsimp only
                  rw [hbyte, hft]
                  try dsimp only
                  rw [if_neg hfx]
                  try dsimp only
                  rw [hreq2]
                  exact ha
              | Set =>
                by_cases hlt2 : buf.length - (st.pos + 1) < 2
                · rw [if_pos hlt2] at h
                  exact absurd h (by simp)
                · rw [if_neg hlt2] at h
                  obtain ⟨st2, hreq2, hsim2, hpos2, hlen2⟩ := s_require_ok
                    (⟨st1.buf, st1.pos + 1, st1.chunks⟩) hsim1
                    (show st1.pos + 1 ≤ st1.buf.length from by omega)
                    (show st1.pos + 1 + 2 ≤ buf.length from by omega)
                  have hpos2' : st2.pos = st1.pos + 1 := hpos2
                  have hlen2' : st1.pos + 1 + 2 ≤ st2.buf.length := hlen2
                  obtain ⟨f', st', ha, hp, hsf⟩ := ih (st.pos + 1 + 2)
                    (.other .Set) (.other .Struct :: stack)
                    ⟨st2.buf, st2.pos + 2, st2.chunks⟩ p' hsim2
                    (show st2.pos + 2 = st.pos + 1 + 2 from by omega)
                    (show st2.pos + 2 ≤ st2.buf.length from by omega) h
                  refine ⟨f' + 1, st', ?_, hp, hsf⟩
                  simp only [a_skip_loop]
                  rw [hreq]
                  try dsimp only
                  rw [hbyte, hft]
                  try dsimp only
                  rw [if_neg hfx]
                  try dsimp only
                  rw [hreq2]
                  exact ha
              | List =>
                by_cases hlt2 : buf.length - (st.pos + 1) < 2
                · rw [if_pos hlt2] at h
                  exact absurd h (by simp)
                · rw [if_neg hlt2] at h
                  obtain ⟨st2, hreq2, hsim2, hpos2, hlen2⟩ := s_require_ok
                    (⟨st1.buf, st1.pos + 1, st1.chunks⟩) hsim1
                    (show st1.pos + 1 ≤ st1.buf.length from by omega)
                    (show st1.pos + 1 + 2 ≤ buf.length from by omega)
                  have hpos2' : st2.pos = st1.pos + 1 := hpos2
                  have hlen2' : st1.pos + 1 + 2 ≤ st2.buf.length := hlen2
                  obtain ⟨f', st', ha, hp, hsf⟩ := ih (st.pos + 1 + 2)
                    (.other .List) (.other .Struct :: stack)
                    ⟨st2.buf, st2.pos + 2, st2.chunks⟩ p' hsim2
                    (show st2.pos + 2 = st.pos + 1 + 2 from by omega)
                    (show st2.pos + 2 ≤ st2.buf.length from by omega) h
                  refine ⟨f' + 1, st', ?_, hp, hsf⟩
                  simp only [a_skip_loop]
                  rw [hreq]
                  try dsimp only
                  rw [hbyte, hft]
                  try dsimp only
                  rw [if_neg hfx]
                  try dsimp only
                  rw [hreq2]
                  exact ha

      | Binary =>
        simp only [skip_loop] at h
        by_cases hlt : buf.length - st.pos < 4
        · rw [if_pos hlt] at h
          exact absurd h (by simp)
        · rw [if_neg hlt] at h
          obtain ⟨st1, hreq, hsim1, hpos1, hlen1⟩ := s_require_ok st hsim hinv
            (show st.pos + 4 ≤ buf.length from by omega)
          have h32 : beU32at st1.buf st1.pos = beU32at buf st.pos := by
            rw [hpos1]
            exact SimSk_beU32at hsim1 (by omega)
          by_cases hlt2 : buf.length - (st.pos + 4) <
              i32AsUsize (beU32at buf st.pos)
          · rw [if_pos hlt2] at h
            exact absurd h (by simp)
          · rw [if_neg hlt2] at h
            obtain ⟨st2, hreq2, hsim2, hpos2, hlen2⟩ := s_require_ok
              (⟨st1.buf, st1.pos + 4, st1.chunks⟩) hsim1
              (show st1.pos + 4 ≤ st1.buf.length from by omega)
              (show st1.pos + 4 + i32AsUsize (beU32at buf st.pos) ≤ buf.length
                from by omega)
            have hpos2' : st2.pos = st1.pos + 4 := hpos2
            have hlen2' : st1.pos + 4 + i32AsUsize (beU32at buf st.pos) ≤
                st2.buf.length := hlen2
            rw [show st.pos + 4 + i32AsUsize (beU32at buf st.pos) =
              st2.pos + i32AsUsize (beU32at buf st.pos) from by omega] at h
            obtain ⟨f', st', ha, hp, hsf⟩ := a_pop_sim ih
              (⟨st2.buf, st2.pos + i32AsUsize (beU32at buf st.pos),
                st2.chunks⟩) hsim2
              (show st2.pos + i32AsUsize (beU32at buf st.pos) ≤ st2.buf.length
                from by omega) h
            refine ⟨f' + 1, st', ?_, hp, hsf⟩
            simp only [a_skip_loop]
            rw [hreq]
            try dsimp only
            rw [h32, hreq2]
            exact ha

      | Set =>
        simp only [skip_loop] at h
        by_cases hlt : buf.length - st.pos < 5
        · rw [if_pos hlt] at h
          exact absurd h (by simp)
        · rw [if_neg hlt] at h
          obtain ⟨st1, hreq, hsim1, hpos1, hlen1⟩ := s_require_ok st hsim hinv
            (show st.pos + 5 ≤ buf.length from by omega)
          have hbyte : byteAt st1.buf st1.pos = byteAt buf st.pos := by
            rw [hpos1]
            exact SimSk_byteAt hsim1 (by omega)
          have h32 : beU32at st1.buf (st1.pos + 1) = beU32at buf (st.pos + 1) := by
            rw [hpos1]
            exact SimSk_beU32at hsim1 (by omega)
          cases hft : TType.fromByte (byteAt buf st.pos) with
          | none =>
            rw [hft] at h
            exact absurd h (by simp)
          | some et =>
            rw [hft] at h
            dsimp only at h
            by_cases hfx : fixedTypeSize et ≠ 0
            · rw [if_pos hfx] at h
              by_cases hlt2 : buf.length - (st.pos + 5) <
                  beU32at buf (st.pos + 1) * fixedTypeSize et
              · rw [if_pos hlt2] at h
                exact absurd h (by simp)
              · rw [if_neg hlt2] at h
                obtain ⟨st2, hreq2, hsim2, hpos2, hlen2⟩ := s_require_ok
                  (⟨st1.buf, st1.pos + 5, st1.chunks⟩) hsim1
                  (show st1.pos + 5 ≤ st1.buf.length from by omega)
                  (show st1.pos + 5 +
                      beU32at buf (st.pos + 1) * fixedTypeSize et ≤ buf.length
                    from by omega)
                have hpos2' : st2.pos = st1.pos + 5 := hpos2
                have hlen2' : st1.pos + 5 +
                    beU32at buf (st.pos + 1) * fixedTypeSize et ≤
                    st2.buf.length := hlen2
                rw [show st.pos + 5 + beU32at buf (st.pos + 1) * fixedTypeSize et
                  = st2.pos + beU32at buf (st.pos + 1) * fixedTypeSize et
                  from by omega] at h
                obtain ⟨f', st', ha, hp, hsf⟩ := a_pop_sim ih
                  (⟨st2.buf,
                    st2.pos + beU32at buf (st.pos + 1) * fixedTypeSize et,
                    st2.chunks⟩) hsim2
                  (show st2.pos + beU32at buf (st.pos + 1) * fixedTypeSize et ≤
                    st2.buf.length from by omega) h
                refine ⟨f' + 1, st', ?_, hp, hsf⟩
                simp only [a_skip_loop]
                rw [hreq]
                try dsimp only
                rw [hbyte, hft]
                try dsimp only
                rw [h32]
                try dsimp only
                rw [if_pos hfx]
                try dsimp only
                rw [hreq2]
                exact ha
            · rw [if_neg hfx] at h
              obtain ⟨f', st', ha, hp, hsf⟩ := ih (st.pos + 5)
                (.collection (beU32at buf (st.pos + 1)) et et) stack
                ⟨st1.buf, st1.pos + 5, st1.chunks⟩ p' hsim1
                (show st1.pos + 5 = st.pos + 5 from by omega)
                (show st1.pos + 5 ≤ st1.buf.length from by omega) h
              refine ⟨f' + 1, st', ?_, hp, hsf⟩
              simp only [a_skip_loop]
              rw [hreq]
              try dsimp only
              rw [hbyte, hft]
              try dsimp only
              rw [h32]
              try dsimp only
              rw [if_neg hfx]
              try dsimp only
              exact ha

      | List =>
        simp only [skip_loop] at h
        by_cases hlt : buf.length - st.pos < 5
        · rw [if_pos hlt] at h
          exact absurd h (by simp)
        · rw [if_neg hlt] at h
          obtain ⟨st1, hreq, hsim1, hpos1, hlen1⟩ := s_require_ok st hsim hinv
            (show st.pos + 5 ≤ buf.length from by omega)
          have hbyte : byteAt st1.buf st1.pos = byteAt buf st.pos := by
            rw [hpos1]
            exact SimSk_byteAt hsim1 (by omega)
          have h32 : beU32at st1.buf (st1.pos + 1) = beU32at buf (st.pos + 1) := by
            rw [hpos1]
            exact SimSk_beU32at hsim1 (by omega)
          cases hft : TType.fromByte (byteAt buf st.pos) with
          | none =>
            rw [hft] at h
            exact absurd h (by simp)
          | some et =>
            rw [hft] at h
            dsimp only at h
            by_cases hfx : fixedTypeSize et ≠ 0
            · rw [if_pos hfx] at h
              by_cases hlt2 : buf.length - (st.pos + 5) <
                  beU32at buf (st.pos + 1) * fixedTypeSize et
              · rw [if_pos hlt2] at h
                exact absurd h (by simp)
              · rw [if_neg hlt2] at h
                obtain ⟨st2, hreq2, hsim2, hpos2, hlen2⟩ := s_require_ok
                  (⟨st1.buf, st1.pos + 5, st1.chunks⟩) hsim1
                  (show st1.pos + 5 ≤ st1.buf.length from by omega)
                  (show st1.pos + 5 +
                      beU32at buf (st.pos + 1) * fixedTypeSize et ≤ buf.length
                    from by omega)
                have hpos2' : st2.pos = st1.pos + 5 := hpos2
                have hlen2' : st1.pos + 5 +
                    beU32at buf (st.pos + 1) * fixedTypeSize et ≤
                    st2.buf.length := hlen2
                rw [show st.pos + 5 + beU32at buf (st.pos + 1) * fixedTypeSize et
                  = st2.pos + beU32at buf (st.pos + 1) * fixedTypeSize et
                  from by omega] at h
                obtain ⟨f', st', ha, hp, hsf⟩ := a_pop_sim ih
                  (⟨st2.buf,
                    st2.pos + beU32at buf (st.pos + 1) * fixedTypeSize et,
                    st2.chunks⟩) hsim2
                  (show st2.pos + beU32at buf (st.pos + 1) * fixedTypeSize et ≤
                    st2.buf.length from by omega) h
                refine ⟨f' + 1, st', ?_, hp, hsf⟩
                simp only [a_skip_loop]
                rw [hreq]
                try dsimp only
                rw [hbyte, hft]
                try dsimp only
                rw [h32]
                try dsimp only
                rw [if_pos hfx]
                try dsimp only
                rw [hreq2]
                exact ha
            · rw [if_neg hfx] at h
              obtain ⟨f', st', ha, hp, hsf⟩ := ih (st.pos + 5)
                (.collection (beU32at buf (st.pos + 1)) et et) stack
                ⟨st1.buf, st1.pos + 5, st1.chunks⟩ p' hsim1
                (show st1.pos + 5 = st.pos + 5 from by omega)
                (show st1.pos + 5 ≤ st1.buf.length from by omega) h
              refine ⟨f' + 1, st', ?_, hp, hsf⟩
              simp only [a_skip_loop]
              rw [hreq]
              try dsimp only
              rw [hbyte, hft]
              try dsimp only
              rw [h32]
              try dsimp only
              rw [if_neg hfx]
              try dsimp only
              exact ha

      | Map =>
        simp only [skip_loop] at h
        by_cases hlt : buf.length - st.pos < 6
        · rw [if_pos hlt] at h
          exact absurd h (by simp)
        · rw [if_neg hlt] at h
          obtain ⟨st1, hreq, hsim1, hpos1, hlen1⟩ := s_require_ok st hsim hinv
            (show st.pos + 6 ≤ buf.length from by omega)
          have hbyte : byteAt st1.buf st1.pos = byteAt buf st.pos := by
            rw [hpos1]
            exact SimSk_byteAt hsim1 (by omega)
          have hbyte2 : byteAt st1.buf (st1.pos + 1) = byteAt buf (st.pos + 1) := by
            rw [hpos1]
            exact SimSk_byteAt hsim1 (by omega)
          have h32 : beU32at st1.buf (st1.pos + 2) = beU32at buf (st.pos + 2) := by
            rw [hpos1]
            exact SimSk_beU32at hsim1 (by omega)
          cases hft : TType.fromByte (byteAt buf st.pos) with
          | none =>
            rw [hft] at h
            exact absurd h (by simp)
          | some kt =>
            rw [hft] at h
            dsimp only at h
            cases hft2 : TType.fromByte (byteAt buf (st.pos + 1)) with
            | none =>
              rw [hft2] at h
              exact absurd h (by simp)
            | some vt =>
              rw [hft2] at h
              dsimp only at h
              by_cases hfx : fixedTypeSize kt ≠ 0 ∧ fixedTypeSize vt ≠ 0
              · rw [if_pos hfx] at h
                by_cases hlt2 : buf.length - (st.pos + 6) <
                    beU32at buf (st.pos + 2) *
                      (fixedTypeSize kt + fixedTypeSize vt)
                · rw [if_pos hlt2] at h
                  exact absurd h (by simp)
                · rw [if_neg hlt2] at h
                  obtain ⟨st2, hreq2, hsim2, hpos2, hlen2⟩ := s_require_ok
                    (⟨st1.buf, st1.pos + 6, st1.chunks⟩) hsim1
                    (show st1.pos + 6 ≤ st1.buf.length from by omega)
                    (show st1.pos + 6 + beU32at buf (st.pos + 2) *
                        (fixedTypeSize kt + fixedTypeSize vt) ≤ buf.length
                      from by omega)
                  have hpos2' : st2.pos = st1.pos + 6 := hpos2
                  have hlen2' : st1.pos + 6 + beU32at buf (st.pos + 2) *
                      (fixedTypeSize kt + fixedTypeSize vt) ≤
                      st2.buf.length := hlen2
                  rw [show st.pos + 6 + beU32at buf (st.pos + 2) *
                      (fixedTypeSize kt + fixedTypeSize vt) =
                    st2.pos + beU32at buf (st.pos + 2) *
                      (fixedTypeSize kt + fixedTypeSize vt) from by omega] at h
                  obtain ⟨f', st', ha, hp, hsf⟩ := a_pop_sim ih
                    (⟨st2.buf, st2.pos + beU32at buf (st.pos + 2) *
                      (fixedTypeSize kt + fixedTypeSize vt), st2.chunks⟩) hsim2
                    (show st2.pos + beU32at buf (st.pos + 2) *
                      (fixedTypeSize kt + fixedTypeSize vt) ≤ st2.buf.length
                      from by omega) h
                  refine ⟨f' + 1, st', ?_, hp, hsf⟩
                  simp only [a_skip_loop]
                  rw [hreq]
                  try dsimp only
                  rw [hbyte, hft]
                  try dsimp only
                  rw [hbyte2, hft2]
                  try dsimp only
                  rw [h32]
                  try dsimp only
                  rw [if_pos hfx]
                  try dsimp only
                  rw [hreq2]
                  exact ha
              · rw [if_neg hfx] at h
                obtain ⟨f', st', ha, hp, hsf⟩ := ih (st.pos + 6)
                  (.collection (beU32at buf (st.pos + 2) * 2 % 4294967296) kt vt)
                  stack ⟨st1.buf, st1.pos + 6, st1.chunks⟩ p' hsim1
                  (show st1.pos + 6 = st.pos + 6 from by omega)
                  (show st1.pos + 6 ≤ st1.buf.length from by omega) h
                refine ⟨f' + 1, st', ?_, hp, hsf⟩
                simp only [a_skip_loop]
                rw [hreq]
                try dsimp only
                rw [hbyte, hft]
                try dsimp only
                rw [hbyte2, hft2]
                try dsimp only
                rw [h32]
                try dsimp only
                rw [if_neg hfx]
                try dsimp only
                exact ha


/-- Counterexample to C2 as stated: on the 4-byte stream `00 00 00 01`
(a `read_bytes` length prefix declaring 1 payload byte, with no payload
following), the synchronous reader fails with kind InvalidData while the
asynchronous reader (receiving the same stream as one chunk) fails with
kind IOError(UnexpectedEof): the error kinds differ. -/
theorem read_bytes_sync_async_error_kinds_differ :
    ∃ e₁ e₂, read_bytes [0, 0, 0, 1] 0 = .error e₁ ∧
      a_read_bytes ⟨[], [[0, 0, 0, 1]]⟩ = .error e₂ ∧ e₁.kind ≠ e₂.kind :=
  ⟨_, _, rfl, rfl, by decide⟩

/-- Claim C2 (amended): for any byte stream `buf` and any async reader
state whose buffered bytes and pending non-empty chunks make up the
unread part of `buf` (`Sim`), every asynchronous reader operation
returns, whenever the corresponding synchronous operation on the fully
buffered stream succeeds, the same value, and its final state consumes
exactly the same number of bytes; likewise the asynchronous `skip_field`
reaches exactly the synchronous skip's final cursor position.  (On
failure the error kinds can differ, see the counterexample.) -/
theorem async_reader_refines_sync (buf : List Byte) (pos : Nat)
    (st : AsyncState) (h : Sim buf pos st) :
    (∀ v p', read_byte buf pos = .ok (v, p') →
      ∃ st', a_read_byte st = .ok (v, st') ∧ Sim buf p' st') ∧
    (∀ v p', read_bool buf pos = .ok (v, p') →
      ∃ st', a_read_bool st = .ok (v, st') ∧ Sim buf p' st') ∧
    (∀ v p', read_i8 buf pos = .ok (v, p') →
      ∃ st', a_read_i8 st = .ok (v, st') ∧ Sim buf p' st') ∧
    (∀ v p', read_i16 buf pos = .ok (v, p') →
      ∃ st', a_read_i16 st = .ok (v, st') ∧ Sim buf p' st') ∧
    (∀ v p', read_i32 buf pos = .ok (v, p') →
      ∃ st', a_read_i32 st = .ok (v, st') ∧ Sim buf p' st') ∧
    (∀ v p', read_i64 buf pos = .ok (v, p') →
      ∃ st', a_read_i64 st = .ok (v, st') ∧ Sim buf p' st') ∧
    (∀ v p', read_double buf pos = .ok (v, p') →
      ∃ st', a_read_double st = .ok (v, st') ∧ Sim buf p' st') ∧
    (∀ v p', read_uuid buf pos = .ok (v, p') →
      ∃ st', a_read_uuid st = .ok (v, st') ∧ Sim buf p' st') ∧
    (∀ v p', read_bytes buf pos = .ok (v, p') →
      ∃ st', a_read_bytes st = .ok (v, st') ∧ Sim buf p' st') ∧
    (∀ v p', read_string buf pos = .ok (v, p') →
      ∃ st', a_read_string st = .ok (v, st') ∧ Sim buf p' st') ∧
    (∀ v p', read_field_begin buf pos = .ok (v, p') →
      ∃ st', a_read_field_begin st = .ok (v, st') ∧ Sim buf p' st') ∧
    (∀ v p', read_list_begin buf pos = .ok (v, p') →
      ∃ st', a_read_list_begin st = .ok (v, st') ∧ Sim buf p' st') ∧
    (∀ v p', read_set_begin buf pos = .ok (v, p') →
      ∃ st', a_read_set_begin st = .ok (v, st') ∧ Sim buf p' st') ∧
    (∀ v p', read_map_begin buf pos = .ok (v, p') →
      ∃ st', a_read_map_begin st = .ok (v, st') ∧ Sim buf p' st') ∧
    (∀ v p', read_message_begin buf pos = .ok (v, p') →
      ∃ st', a_read_message_begin st = .ok (v, st') ∧ Sim buf p' st') ∧
    (∀ (sk : SkipperState) (t : TType) (f : Nat) (p' : Nat),
      SimSk buf sk → sk.pos = pos → sk.pos ≤ sk.buf.length →
      skip_field buf pos t f = some (.ok p') →
      ∃ f' sk', a_skip_field sk t f' = some (.ok sk') ∧ sk'.pos = p' ∧
        SimSk buf sk') :=
  ⟨fun _ _ => a_read_byte_sim h, fun _ _ => a_read_bool_sim h,
    fun _ _ => a_read_i8_sim h, fun _ _ => a_read_i16_sim h,
    fun _ _ => a_read_i32_sim h, fun _ _ => a_read_i64_sim h,
    fun _ _ => a_read_double_sim h, fun _ _ => a_read_uuid_sim h,
    fun _ _ => a_read_bytes_sim h, fun _ _ => a_read_string_sim h,
    fun _ _ => a_read_field_begin_sim h, fun _ _ => a_read_list_begin_sim h,
    fun _ _ => a_read_set_begin_sim h, fun _ _ => a_read_map_begin_sim h,
    fun _ _ => a_read_message_begin_sim h,
    fun sk t f p' hsk hp hin hs => a_skip_sim f pos (.other t) [] sk p' hsk hp hin hs⟩

/-- Witness for C2 (amended) at the 3-byte stream `00 05 07` chunked as
`[00 05] [07]`: `read_i16` succeeds synchronously with value 5 and the
asynchronous reader returns the same value from the chunked source. -/
theorem async_reader_refines_sync_witness :
    Sim [0, 5, 7] 0 ⟨[], [[0, 5], [7]]⟩ ∧
    (∃ st', a_read_i16 ⟨[], [[0, 5], [7]]⟩ = .ok (5, st') ∧
      Sim [0, 5, 7] 2 st') :=
  ⟨⟨rfl, by decide⟩,
    (async_reader_refines_sync [0, 5, 7] 0 ⟨[], [[0, 5], [7]]⟩
      ⟨rfl, by decide⟩).2.2.2.1 5 2 rfl⟩
